import Mathlib

/-!
# Device manager (`init/devices.c`): uevent parsing, rule tables, drain loop

A shallow embedding of the uevent parser, the netlink drain loop and the
permission / USB-class rule tables of `src/init/devices.c`, with the
properties of the specification proved over it.

Conventions of the embedding

* A C string, and more generally the memory a `const char *` points to, is a
  `List Char`: the bytes from the pointer onwards, one `Char` per byte.  The
  byte `NUL` ends a C string; the end of the list is the end of the object.
* `unsigned`, `mode_t` and `unsigned short` values are `Nat`, `int` values are
  `Int`.
* A nullable `char *` is an `Option (List Char)`.
* Intrusive lists (`list_declare`, `list_add_tail`) are Lean lists in
  insertion order; `list_for_each_reverse` walks the reversed list.
* Functions with side effects return the trace of the system calls they issue.
-/

namespace Devices

/-! ## C strings -/

/-- The terminating byte of a C string. -/
def NUL : Char := Char.ofNat 0

/-- The C string stored at a pointer: the bytes before the first `NUL`. -/
def cstr (p : List Char) : List Char := p.takeWhile (fun c => c != NUL)

/-- The length `strlen(p)` of the C string at `p`. -/
def strlen (p : List Char) : Nat := (cstr p).length

/-- The test `strcmp(a, b) == 0`. -/
def strcmp0 (a b : List Char) : Bool := cstr a == cstr b

/-- The test `strncmp(a, b, n) == 0`: the first `n` bytes of the two C strings agree
(the comparison stops at a `NUL`). -/
def strncmp0 (a b : List Char) (n : Nat) : Bool := (cstr a).take n == (cstr b).take n

/-- The test `strstr(haystack, needle) != NULL`: some suffix of the haystack starts
with the needle. -/
def strstr (haystack needle : List Char) : Bool :=
  (cstr haystack).tails.any (fun t => (cstr needle).isPrefixOf t)

/-- The C function `isspace` in the C locale. -/
def isspace (c : Char) : Bool :=
  c == Char.ofNat 32 || (9 ≤ c.toNat && c.toNat ≤ 13)

/-- The C function `isdigit`. -/
def isdigit (c : Char) : Bool := 48 ≤ c.toNat && c.toNat ≤ 57

/-- Largest `int`. -/
def INT_MAX : Int := 2147483647

/-- Smallest `int`. -/
def INT_MIN : Int := -2147483648

/-- The value of the leading decimal digits of `s` (none gives 0). -/
def digits_value (s : List Char) : Nat :=
  (s.takeWhile isdigit).foldl (fun a c => a * 10 + (c.toNat - 48)) 0

/-- The optional sign and the digits after it. -/
def signed_value : List Char → Int
  | [] => 0
  | c :: r =>
    if c = Char.ofNat 45 then -(digits_value r : Int)
    else if c = Char.ofNat 43 then (digits_value r : Int)
    else (digits_value (c :: r) : Int)

/-- The C function `atoi(p)`, that is `(int)strtol(p, NULL, 10)` on an ILP32 target: leading
white space is skipped, an optional sign is read, then the decimal digits up
to the first byte that is not a digit.  A value outside `int` is undefined in
ISO C; the model saturates as `strtol` does. -/
def atoi (p : List Char) : Int :=
  let x := signed_value (p.dropWhile isspace)
  if x < INT_MIN then INT_MIN else if INT_MAX < x then INT_MAX else x

/-! ## The uevent record and its parser -/

/-- The `struct uevent` filled by `parse_event`.  The string fields point into
the message buffer, which is not written while the event lives, so each is
represented by the C string found there.  (`product` is declared in the header
but never assigned by the parser and is left out.) -/
structure uevent where
  action : List Char
  path : List Char
  subsystem : List Char
  firmware : List Char
  partition_name : Option (List Char)
  device_name : Option (List Char)
  modalias : Option (List Char)
  type : Option (List Char)
  partition_num : Int
  major : Int
  minor : Int
  deriving DecidableEq, Repr

/-- The assignments at the top of `parse_event`. -/
def uevent_init : uevent :=
  { action := [], path := [], subsystem := [], firmware := [],
    partition_name := none, device_name := none, modalias := none, type := none,
    partition_num := -1, major := -1, minor := -1 }

/-- The `if … else if …` chain of one iteration of the loop of `parse_event`:
returns the advanced `msg` pointer and the updated event. -/
def parse_event_keys (msg : List Char) (e : uevent) : List Char × uevent :=
  if strncmp0 msg "ACTION=".toList 7 then
    (msg.drop 7, { e with action := cstr (msg.drop 7) })
  else if strncmp0 msg "DEVPATH=".toList 8 then
    (msg.drop 8, { e with path := cstr (msg.drop 8) })
  else if strncmp0 msg "SUBSYSTEM=".toList 10 then
    (msg.drop 10, { e with subsystem := cstr (msg.drop 10) })
  else if strncmp0 msg "FIRMWARE=".toList 9 then
    (msg.drop 9, { e with firmware := cstr (msg.drop 9) })
  else if strncmp0 msg "MAJOR=".toList 6 then
    (msg.drop 6, { e with major := atoi (msg.drop 6) })
  else if strncmp0 msg "MINOR=".toList 6 then
    (msg.drop 6, { e with minor := atoi (msg.drop 6) })
  else if strncmp0 msg "PARTN=".toList 6 then
    (msg.drop 6, { e with partition_num := atoi (msg.drop 6) })
  else if strncmp0 msg "PARTNAME=".toList 9 then
    (msg.drop 9, { e with partition_name := some (cstr (msg.drop 9)) })
  else if strncmp0 msg "DEVNAME=".toList 8 then
    (msg.drop 8, { e with device_name := some (cstr (msg.drop 8)) })
  else if strncmp0 msg "TYPE=".toList 5 then
    (msg.drop 5, { e with type := some (cstr (msg.drop 5)) })
  else if strncmp0 msg "MODALIAS=".toList 9 then
    (msg.drop 9, { e with modalias := some (cstr (msg.drop 9)) })
  else
    (msg, e)

/-- The inner loop `while(*msg++) ;`: advance to after the next `NUL`. -/
def skip_past_nul (msg : List Char) : List Char :=
  (msg.dropWhile (fun c => c != NUL)).drop 1

/-- The loop `while(*msg) { … }` of `parse_event`, with a bound on the number
of iterations. -/
def parse_event_loop : Nat → List Char → uevent → uevent
  | 0, _, e => e
  | k + 1, msg, e =>
    match msg with
    | [] => e
    | c :: _ =>
      if c = NUL then e
      else
        let r := parse_event_keys msg e
        parse_event_loop k (skip_past_nul r.1) r.2

/-- The function `parse_event(msg, &uevent)`.  Every iteration consumes at least one byte,
so the length of the buffer bounds the number of iterations. -/
def parse_event (msg : List Char) : uevent :=
  parse_event_loop msg.length msg uevent_init

/-! ## The netlink drain loop -/

/-- The constant `UEVENT_MSG_LEN`. -/
def UEVENT_MSG_LEN : Nat := 1024

/-- One return of `uevent_kernel_multicast_recv(device_fd, msg, UEVENT_MSG_LEN)`:
either a datagram, whose bytes are stored at the start of `msg` and whose
length is the value returned, or nothing (end of the queue or an error), where
the value returned is `-k <= 0` and `msg` is left alone. -/
inductive recv_result where
  | message (data : List Char)
  | nothing (k : Nat)
  deriving DecidableEq, Repr

/-- The value `n` returned by the receive call. -/
def recv_result.n : recv_result → Int
  | .message data => (data.length : Int)
  | .nothing k => -(k : Int)

/-- The content of `msg` after the receive call. -/
def recv_result.store : recv_result → List Char → List Char
  | .message data, msg => data ++ msg.drop data.length
  | .nothing _, msg => msg

/-- The function `handle_events_fd(handle_event_fp)`, run against the sequence of results
the receive calls give.  `msg` is the local buffer `char msg[UEVENT_MSG_LEN+2]`,
whose content survives from one iteration to the next; the handler is a state
transformer on whatever state `σ` it acts on.  The run ends at the first
result `<= 0` (or when the given results are used up). -/
def handle_events_fd {σ : Type} (handle_event_fp : σ → uevent → σ) :
    List recv_result → List Char → σ → σ
  | [], _, s => s
  | r :: rs, msg, s =>
    if r.n > 0 then
      let msg := r.store msg
      if r.n ≥ (UEVENT_MSG_LEN : Int) then
        handle_events_fd handle_event_fp rs msg s
      else
        let msg := (msg.set r.n.toNat NUL).set (r.n.toNat + 1) NUL
        handle_events_fd handle_event_fp rs msg (handle_event_fp s (parse_event msg))
    else s

/-! ## Rule tables -/

/-- The errno value `ENOMEM`. -/
def ENOMEM : Int := 12

/-- The C function `strdup(s)`: a copy of the C string. -/
def strdup (s : List Char) : List Char := cstr s

/-- The record `struct perms_`. -/
structure perms_ where
  name : List Char
  attr : Option (List Char)
  perm : Nat
  uid : Nat
  gid : Nat
  wildcard : Nat
  deriving DecidableEq, Repr

/-- The record `struct usb_device_class_node`. -/
structure usb_device_class_node where
  devclass : List Char
  perm : Nat
  uid : Nat
  gid : Nat
  pwr_ctrl_auto : Nat
  pwr_ctrl_on : Nat
  pwr_ctrl_perm : Nat
  deriving DecidableEq, Repr

/-- The record `struct platform_node`.  In C `name` points into `path`; here
it is the string found there. -/
structure platform_node where
  name : List Char
  path : List Char
  path_len : Nat
  deriving DecidableEq, Repr

/-- The record `struct module_alias_node` of `cutils/module_parsers.h`. -/
structure module_alias_node where
  name : Option (List Char)
  pattern : Option (List Char)
  deriving DecidableEq, Repr

/-- The global rule lists of `devices.c`, each in insertion order. -/
structure globals where
  sys_perms : List perms_ := []
  dev_perms : List perms_ := []
  usb_device_classes : List usb_device_class_node := []
  platform_names : List platform_node := []
  deferred_module_loading_list : List module_alias_node := []
  deriving DecidableEq, Repr

/-- The function `add_dev_perms(name, attr, perm, uid, gid, wildcard)`.  The three flags
say whether `calloc`, `strdup(name)` and `strdup(attr)` return memory; the
result is the value returned and the lists afterwards. -/
def add_dev_perms (calloc_ok name_ok attr_ok : Bool)
    (name : List Char) (attr : Option (List Char))
    (perm uid gid wildcard : Nat) (g : globals) : Int × globals :=
  if !calloc_ok then (-ENOMEM, g)
  else if !name_ok then (-ENOMEM, g)
  else if attr.isSome && !attr_ok then (-ENOMEM, g)
  else
    let node : perms_ :=
      { name := strdup name, attr := attr.map strdup,
        perm := perm, uid := uid, gid := gid, wildcard := wildcard }
    if attr.isSome then (0, { g with sys_perms := g.sys_perms ++ [node] })
    else (0, { g with dev_perms := g.dev_perms ++ [node] })

/-- The function `add_usb_device_class_matching(devclass, perm, uid, gid, options)`.  The
two flags say whether `calloc` and `strdup(devclass)` return memory; `calloc`
zeroes the node. -/
def add_usb_device_class_matching (calloc_ok devclass_ok : Bool)
    (devclass : List Char) (perm uid gid : Nat) (options : Option (List Char))
    (g : globals) : Int × globals :=
  if !calloc_ok then (-ENOMEM, g)
  else if !devclass_ok then (-ENOMEM, g)
  else
    let node : usb_device_class_node :=
      { devclass := strdup devclass, perm := perm, uid := uid, gid := gid,
        pwr_ctrl_auto := 0, pwr_ctrl_on := 0, pwr_ctrl_perm := 0 }
    let node :=
      match options with
      | none => node
      | some o =>
        let node :=
          if strstr o "suspend_auto".toList then
            { node with pwr_ctrl_auto := 1, pwr_ctrl_on := 0 }
          else node
        let node :=
          if strstr o "suspend_on".toList then
            { node with pwr_ctrl_auto := 0, pwr_ctrl_on := 1 }
          else node
        if strstr o "pwr_ctrl_perm".toList then { node with pwr_ctrl_perm := 1 }
        else node
    (0, { g with usb_device_classes := g.usb_device_classes ++ [node] })

/-- The system calls, and the calls of the helpers of `util.c` and
`builtins.c` (`make_dir`, `make_link`, `remove_link`, `write_file`) and of
`__system_property_set`, whose order the properties below speak about. -/
inductive syscall where
  | chown (path : List Char) (uid gid : Nat)
  | chmod (path : List Char) (perm : Nat)
  | setfilecon (path : List Char) (context : List Char)
  | setfscreatecon (context : Option (List Char))
  | setegid (gid : Nat)
  | mknod (path : List Char) (mode : Nat) (major minor : Int)
  | unlink (path : List Char)
  | mkdir (path : List Char) (mode : Nat)
  | make_dir (path : List Char) (mode : Nat)
  | make_link (oldpath newpath : List Char)
  | remove_link (oldpath newpath : List Char)
  | property_set (key value : List Char)
  | write_file (path value : List Char)
  deriving DecidableEq, Repr

/-- The test at the top of the loops of `fixup_sys_perms` and
`get_device_perm`: a wildcard rule is compared with `fnmatch(pattern, s, 0)`,
a literal rule with `strcmp`.  `fnmatch` is the C library's, taken as a
parameter (it returns 0 on a match). -/
def rule_matches (fnmatch : List Char → List Char → Int → Int)
    (wildcard : Nat) (pattern s : List Char) : Bool :=
  if wildcard ≠ 0 then fnmatch pattern s 0 == 0 else strcmp0 s pattern

/-- The loop of `fixup_sys_perms` over the nodes of `sys_perms`, giving the
system calls issued.  `sehandle` is the SELinux label handle (`none` for
`NULL`), as the lookup it performs.  A rule is compared with its name advanced
by 4 bytes; when the path built would not fit `buf[512]` the function returns.
(A node of `sys_perms` always has an `attr`; for a node without one the C code
would read through a null pointer, and the model stops.) -/
def fixup_sys_perms_loop (fnmatch : List Char → List Char → Int → Int)
    (sehandle : Option (List Char → Nat → Option (List Char)))
    (upath : List Char) : List perms_ → List syscall
  | [] => []
  | dp :: rest =>
    if !rule_matches fnmatch dp.wildcard (dp.name.drop 4) upath then
      fixup_sys_perms_loop fnmatch sehandle upath rest
    else
      match dp.attr with
      | none => []
      | some attr =>
        if strlen upath + strlen attr + 6 > 512 then []
        else
          let buf := "/sys".toList ++ cstr upath ++ "/".toList ++ cstr attr
          let label :=
            match sehandle with
            | none => []
            | some lookup =>
              match lookup buf 0 with
              | none => []
              | some secontext => [syscall.setfilecon buf secontext]
          [syscall.chown buf dp.uid dp.gid, syscall.chmod buf dp.perm] ++ label
            ++ fixup_sys_perms_loop fnmatch sehandle upath rest

/-- The function `fixup_sys_perms(upath)`. -/
def fixup_sys_perms (fnmatch : List Char → List Char → Int → Int)
    (sehandle : Option (List Char → Nat → Option (List Char)))
    (upath : List Char) (g : globals) : List syscall :=
  fixup_sys_perms_loop fnmatch sehandle upath g.sys_perms

/-- The loop of `get_device_perm` over the nodes in the order it visits them:
the first rule that matches gives `(perm, uid, gid)`, and `(0600, 0, 0)` is
the default. -/
def get_device_perm_loop (fnmatch : List Char → List Char → Int → Int)
    (path : List Char) : List perms_ → Nat × Nat × Nat
  | [] => (0o600, 0, 0)
  | dp :: rest =>
    if !rule_matches fnmatch dp.wildcard dp.name path then
      get_device_perm_loop fnmatch path rest
    else (dp.perm, dp.uid, dp.gid)

/-- The function `get_device_perm(path, &uid, &gid)`: `dev_perms` is searched in reverse. -/
def get_device_perm (fnmatch : List Char → List Char → Int → Int)
    (path : List Char) (g : globals) : Nat × Nat × Nat :=
  get_device_perm_loop fnmatch path g.dev_perms.reverse

/-! ## Specification-side notions -/

/-- The tokens of a buffer: the pieces between `NUL` bytes. -/
def split_nul : List Char → List (List Char)
  | [] => [[]]
  | c :: cs =>
    if c = NUL then [] :: split_nul cs
    else
      match split_nul cs with
      | [] => [[c]]
      | t :: ts => (c :: t) :: ts

/-- The tokens the parser visits: those before the first empty one. -/
def scanned_tokens (msg : List Char) : List (List Char) :=
  (split_nul msg).takeWhile (fun t => !t.isEmpty)

/-- The effect of one token on the event. -/
def apply_token (e : uevent) (t : List Char) : uevent := (parse_event_keys t e).2

/-- The eleven recognised keys. -/
def recognised_keys : List (List Char) :=
  ["ACTION=".toList, "DEVPATH=".toList, "SUBSYSTEM=".toList, "FIRMWARE=".toList,
   "MAJOR=".toList, "MINOR=".toList, "PARTN=".toList, "PARTNAME=".toList,
   "DEVNAME=".toList, "TYPE=".toList, "MODALIAS=".toList]

/-- The token begins with none of the recognised keys. -/
def no_key (t : List Char) : Prop := ∀ k ∈ recognised_keys, ¬ k <+: t

instance (t : List Char) : Decidable (no_key t) := by
  unfold no_key
  infer_instance

/-- A list of tokens as the kernel sends them: none is empty, none holds a
`NUL`. -/
def well_formed (toks : List (List Char)) : Prop := ∀ t ∈ toks, t ≠ [] ∧ NUL ∉ t

instance (toks : List (List Char)) : Decidable (well_formed toks) := by
  unfold well_formed
  infer_instance

/-- A message on the wire: every token followed by a `NUL`, and one more `NUL`
at the end. -/
def wire (toks : List (List Char)) : List Char :=
  (toks.map (fun t => t ++ [NUL])).flatten ++ [NUL]

/-- The decimal digit for `d < 10`. -/
def digit_char (d : Nat) : Char := Char.ofNat (48 + d)

/-- The decimal digits of `n`, most significant first, computed with a bound
on the number of digits. -/
def decimal_digits : Nat → Nat → List Char
  | 0, _ => []
  | k + 1, n =>
    if n < 10 then [digit_char n] else decimal_digits k (n / 10) ++ [digit_char (n % 10)]

/-- What `%d` prints for an integer. -/
def decimal (i : Int) : List Char :=
  if i < 0 then Char.ofNat 45 :: decimal_digits (i.natAbs + 1) i.natAbs
  else decimal_digits (i.natAbs + 1) i.natAbs

/-- The token `KEY=value` of an optional field, when the field is present. -/
def optional_token (key : List Char) : Option (List Char) → List (List Char)
  | none => []
  | some v => [key ++ v]

/-- The leading `action@path` token of a message. -/
def lead_token (e : uevent) : List Char := e.action ++ "@".toList ++ e.path

/-- The re-serialised form of an event: the `action@path` token, then the
`KEY=value` tokens (those of the optional fields only when present). -/
def serialize (e : uevent) : List (List Char) :=
  [lead_token e,
   "ACTION=".toList ++ e.action,
   "DEVPATH=".toList ++ e.path,
   "SUBSYSTEM=".toList ++ e.subsystem,
   "FIRMWARE=".toList ++ e.firmware,
   "MAJOR=".toList ++ decimal e.major,
   "MINOR=".toList ++ decimal e.minor,
   "PARTN=".toList ++ decimal e.partition_num]
  ++ optional_token "PARTNAME=".toList e.partition_name
  ++ optional_token "DEVNAME=".toList e.device_name
  ++ optional_token "TYPE=".toList e.type
  ++ optional_token "MODALIAS=".toList e.modalias

/-- No string field of the event holds a `NUL` byte. -/
def nul_free (e : uevent) : Prop :=
  NUL ∉ e.action ∧ NUL ∉ e.path ∧ NUL ∉ e.subsystem ∧ NUL ∉ e.firmware ∧
  (∀ v, e.partition_name = some v → NUL ∉ v) ∧
  (∀ v, e.device_name = some v → NUL ∉ v) ∧
  (∀ v, e.modalias = some v → NUL ∉ v) ∧
  (∀ v, e.type = some v → NUL ∉ v)

/-- The leading token does not begin with the key of an optional field the
event lacks. -/
def lead_clear (e : uevent) : Prop :=
  (e.partition_name = none → ¬ "PARTNAME=".toList <+: lead_token e) ∧
  (e.device_name = none → ¬ "DEVNAME=".toList <+: lead_token e) ∧
  (e.type = none → ¬ "TYPE=".toList <+: lead_token e) ∧
  (e.modalias = none → ¬ "MODALIAS=".toList <+: lead_token e)

/-- An event whose action begins with the key `TYPE=` and that has no type. -/
def event_with_key_in_action : uevent :=
  { uevent_init with action := "TYPE=x".toList, path := "/p".toList,
                     subsystem := "usb".toList }

/-- An ordinary block-device event. -/
def event_block_add : uevent :=
  { action := "add".toList, path := "/devices/platform/sdhci/mmcblk0p1".toList,
    subsystem := "block".toList, firmware := [],
    partition_name := some "system".toList, device_name := none, modalias := none,
    type := none, partition_num := 1, major := 179, minor := 1 }

/-- The bytes of a datagram (none when nothing was received). -/
def recv_result.bytes : recv_result → List Char
  | .message data => data
  | .nothing _ => []

/-- The events the drain hands to the handler, in order: the parse of every
message shorter than `UEVENT_MSG_LEN` among the results that come before the
first result `<= 0`. -/
def drained_events (rs : List recv_result) : List uevent :=
  (((rs.takeWhile (fun r => decide (0 < r.n))).filter
      (fun r => decide (r.n < (UEVENT_MSG_LEN : Int)))).map
    (fun r => parse_event (r.bytes ++ [NUL, NUL])))

/-- The C string `haystack` contains `needle` as a substring. -/
def contains_substring (haystack needle : List Char) : Prop := needle <:+: cstr haystack

/-- The rule matches the device path, as `get_device_perm` tests it. -/
def dev_rule_matches (fnmatch : List Char → List Char → Int → Int)
    (path : List Char) (dp : perms_) : Bool :=
  rule_matches fnmatch dp.wildcard dp.name path

/-- The rule matches the sysfs path, as `fixup_sys_perms` tests it: the name
is taken with its first 4 bytes dropped. -/
def sys_rule_matches (fnmatch : List Char → List Char → Int → Int)
    (upath : List Char) (dp : perms_) : Bool :=
  rule_matches fnmatch dp.wildcard (dp.name.drop 4) upath

/-- The path `/sys<upath>/<attr>`. -/
def sys_attr_path (upath attr : List Char) : List Char :=
  "/sys".toList ++ cstr upath ++ "/".toList ++ cstr attr

/-- The `chown` and `chmod` a sysfs rule asks for. -/
def sys_rule_calls (upath : List Char) (dp : perms_) : List syscall :=
  match dp.attr with
  | none => []
  | some attr =>
    [syscall.chown (sys_attr_path upath attr) dp.uid dp.gid,
     syscall.chmod (sys_attr_path upath attr) dp.perm]

/-- The call is a `chown` or a `chmod`. -/
def syscall.is_chown_chmod : syscall → Bool
  | .chown _ _ _ => true
  | .chmod _ _ => true
  | _ => false

/-- The path a sysfs rule builds fits `buf[512]`. -/
def sys_rule_fits (upath : List Char) (dp : perms_) : Prop :=
  strlen upath + strlen (dp.attr.getD []) + 6 ≤ 512

instance (upath : List Char) (dp : perms_) : Decidable (sys_rule_fits upath dp) := by
  unfold sys_rule_fits
  infer_instance

/-- A sysfs table with two literal rules. -/
def sample_sys_table : globals :=
  { sys_perms :=
      [{ name := "/sys/devices/x".toList, attr := some "enable".toList, perm := 0o644,
         uid := 1000, gid := 1001, wildcard := 0 },
       { name := "/sys/devices/y".toList, attr := some "mode".toList, perm := 0o600,
         uid := 0, gid := 0, wildcard := 0 }] }

/-- A sysfs rule whose attribute has 505 bytes. -/
def long_attr_rule : perms_ :=
  { name := "/sys/d".toList, attr := some (List.replicate 505 (Char.ofNat 97)),
    perm := 0o644, uid := 1000, gid := 1000, wildcard := 0 }

/-- A glob matcher that matches nothing (for examples with literal rules). -/
def fnmatch_never : List Char → List Char → Int → Int := fun _ _ _ => 1

/-- The value is one an `int` holds. -/
def is_int (i : Int) : Prop := INT_MIN ≤ i ∧ i ≤ INT_MAX

instance (i : Int) : Decidable (is_int i) := by
  unfold is_int
  infer_instance

/-- The numeric fields of the event are values of type `int`. -/
def int_fields (e : uevent) : Prop :=
  is_int e.partition_num ∧ is_int e.major ∧ is_int e.minor

/-! ## More of the C library -/

/-- The C function `strchr(s, c)` for a byte `c` other than `NUL`: the memory
from the first `c` of the C string at `s` onwards, or `none` for `NULL`. -/
def strchr : List Char → Char → Option (List Char)
  | [], _ => none
  | x :: xs, c =>
    if x = NUL then none
    else if x = c then some (x :: xs)
    else strchr xs c

/-- The C function `strrchr(s, c)` for a byte `c` other than `NUL`: the memory
from the last `c` of the C string at `s` onwards, or `none` for `NULL`. -/
def strrchr : List Char → Char → Option (List Char)
  | [], _ => none
  | x :: xs, c =>
    if x = NUL then none
    else
      match strrchr xs c with
      | some r => some r
      | none => if x = c then some (x :: xs) else none

/-- What `snprintf(buf, size, …)` leaves in `buf` when the formatted string is
`s`: its first `size - 1` bytes. -/
def snprintf (size : Nat) (s : List Char) : List Char := (cstr s).take (size - 1)

/-- What `%03d` prints: the decimal form, zero-padded after the sign to a
width of three (for a non-negative number: to at least three digits). -/
def pad3 (i : Int) : List Char :=
  if i < 0 then
    Char.ofNat 45 :: (List.replicate (2 - (decimal_digits (i.natAbs + 1) i.natAbs).length)
      (Char.ofNat 48) ++ decimal_digits (i.natAbs + 1) i.natAbs)
  else
    List.replicate (3 - (decimal_digits (i.natAbs + 1) i.natAbs).length) (Char.ofNat 48)
      ++ decimal_digits (i.natAbs + 1) i.natAbs

/-- The slash. -/
def SLASH : Char := Char.ofNat 47

/-- The file type bit `S_IFBLK`. -/
def S_IFBLK : Nat := 0o060000

/-- The file type bit `S_IFCHR`. -/
def S_IFCHR : Nat := 0o020000

/-- The group `AID_ROOT` of `private/android_filesystem_config.h`. -/
def AID_ROOT : Nat := 0

/-- The value `(gid_t)-1` that `chown` takes for a group left as it is. -/
def GID_UNCHANGED : Nat := 4294967295

/-! ## What the handlers depend on -/

/-- What the device handlers take from outside `devices.c`: the C library's
`fnmatch`, the SELinux label handle `sehandle` (`none` for `NULL`) as the
lookup it performs, `sanitize` of `util.c`, and whether the allocations whose
result the code tests succeed: `malloc` of the array of links, and `asprintf`
of the link with the given index among the `asprintf` calls of the function. -/
structure environment where
  fnmatch : List Char → List Char → Int → Int
  sehandle : Option (List Char → Nat → Option (List Char))
  sanitize : List Char → List Char
  malloc_ok : Bool
  asprintf_ok : Nat → Bool

/-! ## The registry of platform devices -/

/-- The test of the loops of `add_platform_device` and `find_platform_device`:
`path` goes on with a slash after the path of `bus`. -/
def is_subdevice (path : List Char) (bus : platform_node) : Bool :=
  decide (bus.path_len < strlen path) && (path[bus.path_len]? == some SLASH)
    && strncmp0 path bus.path bus.path_len

/-- The function `find_platform_device(path)`: the list is searched in
reverse, the first node that passes the test is returned. -/
def find_platform_device (path : List Char) (g : globals) : Option platform_node :=
  g.platform_names.reverse.find? (is_subdevice path)

/-- The function `add_platform_device(path)`.  (`calloc` and `strdup` are not
tested by the code and are taken to return memory.) -/
def add_platform_device (path : List Char) (g : globals) : globals :=
  let path_len := strlen path
  let name : Nat :=
    if strncmp0 path "/devices/".toList 9 then
      if strncmp0 (path.drop 9) "platform/".toList 9 then 18 else 9
    else 0
  match g.platform_names.reverse.find? (is_subdevice path) with
  | some _ => g
  | none =>
    { g with platform_names := g.platform_names ++
        [{ name := (strdup path).drop name, path := strdup path, path_len := path_len }] }

/-- The function `remove_platform_device(path)`: the list is searched in
reverse and the first node with that path is removed. -/
def remove_platform_device (path : List Char) (g : globals) : globals :=
  { g with platform_names :=
      (g.platform_names.reverse.eraseP (fun bus => strcmp0 path bus.path)).reverse }

/-- The function `handle_platform_device_event(uevent)`. -/
def handle_platform_device_event (e : uevent) (g : globals) : globals :=
  if strcmp0 e.action "add".toList then add_platform_device e.path g
  else if strcmp0 e.action "remove".toList then remove_platform_device e.path g
  else g

/-! ## Symlinks -/

/-- The test `!*p`: the pointer is at the end of the C string. -/
def at_end (p : List Char) : Bool :=
  match p with
  | [] => true
  | c :: _ => c == NUL

/-- The loop `while (*++parent && *parent != '/') ;`. -/
def next_slash (parent : List Char) : List Char :=
  (parent.drop 1).dropWhile (fun c => c != NUL && c != SLASH)

/-- The function `get_character_device_symlinks(uevent)`: the links (`none`
for `NULL`) and the system calls issued. -/
def get_character_device_symlinks (env : environment) (e : uevent) (g : globals) :
    Option (List (List Char)) × List syscall :=
  match find_platform_device e.path g with
  | none => (none, [])
  | some pdev =>
    if !env.malloc_ok then (none, [])
    else
      match strchr (e.path.drop pdev.path_len) SLASH with
      | none => (none, [])
      | some parent =>
        if at_end parent then (none, [])
        else if strncmp0 parent "/usb".toList 4 then
          let parent := next_slash parent
          let parent := if !at_end parent then next_slash parent else parent
          if at_end parent then (none, [])
          else
            let parent := parent.drop 1
            match strchr parent SLASH with
            | none => (none, [])
            | some slash =>
              let width : Int := (parent.length : Int) - (slash.length : Int)
              if width ≤ 0 then (none, [])
              else
                let link := "/dev/usb/".toList ++ cstr e.subsystem
                  ++ (cstr parent).take width.toNat
                ((if env.asprintf_ok 0 then some [link] else some []),
                  [syscall.mkdir "/dev/usb".toList 0o755])
        else (none, [])

/-- The function `parse_platform_block_device(uevent)`: the links, `none` for
`NULL`.  (`strdup` of the partition name is not tested by the code and is
taken to return memory.) -/
def parse_platform_block_device (env : environment) (e : uevent) (g : globals) :
    Option (List (List Char)) :=
  let device : Option (List Char) :=
    match find_platform_device e.path g with
    | some pdev => some pdev.name
    | none =>
      if strncmp0 e.path "/devices/pci".toList 12 then
        let n := e.path.drop 9
        match strchr n SLASH with
        | none => none
        | some e1 =>
          match strchr (e1.drop 1) SLASH with
          | none => none
          | some e2 =>
            if n.length - e2.length + 1 > 256 then none
            else some (n.take (n.length - e2.length))
      else none
  match device with
  | none => none
  | some device =>
    if !env.malloc_ok then none
    else
      let link_path := snprintf 256 ("/dev/block/platform/".toList ++ device)
      let by_name : List (List Char) :=
        match e.partition_name with
        | none => []
        | some partition_name =>
          if env.asprintf_ok 0 then
            [link_path ++ "/by-name/".toList ++ cstr (env.sanitize (strdup partition_name))]
          else []
      let by_num : List (List Char) :=
        if e.partition_num ≥ 0 then
          if env.asprintf_ok 1 then
            [link_path ++ "/by-num/p".toList ++ decimal e.partition_num]
          else []
        else []
      let last : List (List Char) :=
        match strrchr e.path SLASH with
        | none => []
        | some slash =>
          if env.asprintf_ok 2 then [link_path ++ "/".toList ++ cstr (slash.drop 1)]
          else []
      some (by_name ++ by_num ++ last)

/-! ## Device nodes -/

/-- The function `make_device(path, upath, block, major, minor)`. -/
def make_device (env : environment) (path _upath : List Char) (block : Bool)
    (major minor : Int) (g : globals) : List syscall :=
  let r := get_device_perm env.fnmatch path g
  let mode : Nat := r.1 ||| (if block then S_IFBLK else S_IFCHR)
  let secontext : Option (List Char) :=
    match env.sehandle with
    | none => none
    | some lookup => lookup path mode
  (if env.sehandle.isSome then [syscall.setfscreatecon secontext] else [])
    ++ [syscall.setegid r.2.2, syscall.mknod path mode major minor,
        syscall.chown path r.2.1 GID_UNCHANGED, syscall.setegid AID_ROOT]
    ++ (if secontext.isSome then [syscall.setfscreatecon none] else [])

/-- The function `handle_device(action, devpath, path, block, major, minor,
links)`. -/
def handle_device (env : environment) (action devpath path : List Char) (block : Bool)
    (major minor : Int) (links : Option (List (List Char))) (g : globals) : List syscall :=
  (if strcmp0 action "add".toList then
      (if major ≥ 0 ∧ minor ≥ 0 then make_device env devpath path block major minor g
       else [])
      ++ [syscall.property_set "ctl.dev_added".toList devpath]
      ++ (links.getD []).map (fun l => syscall.make_link devpath l)
    else [])
  ++ (if strcmp0 action "remove".toList then
      (links.getD []).map (fun l => syscall.remove_link devpath l)
      ++ [syscall.property_set "ctl.dev_removed".toList devpath]
      ++ (if major ≥ 0 ∧ minor ≥ 0 then [syscall.unlink devpath] else [])
    else [])

/-- The body of the loop of `handle_usb_device_class_rule` for one rule. -/
def usb_device_class_rule_calls (env : environment) (e : uevent) (type devpath : List Char)
    (usbdc : usb_device_class_node) : List syscall :=
  if env.fnmatch usbdc.devclass type 0 ≠ 0 then []
  else
    [syscall.chown devpath usbdc.uid usbdc.gid, syscall.chmod devpath usbdc.perm]
    ++ (if usbdc.pwr_ctrl_auto ≠ 0 ∨ usbdc.pwr_ctrl_on ≠ 0 ∨ usbdc.pwr_ctrl_perm ≠ 0 then
          if strlen e.path + 4 + 14 + 1 > 512 then []
          else
            let sysfs := "/sys".toList ++ cstr e.path ++ "/power/control".toList
            (if usbdc.pwr_ctrl_auto ≠ 0 then [syscall.write_file sysfs "auto".toList]
             else if usbdc.pwr_ctrl_on ≠ 0 then [syscall.write_file sysfs "on".toList]
             else [])
            ++ (if usbdc.pwr_ctrl_perm ≠ 0 then
                  [syscall.chown sysfs usbdc.uid usbdc.gid, syscall.chmod sysfs usbdc.perm]
                else [])
        else [])

/-- The function `handle_usb_device_class_rule(uevent, devpath)`. -/
def handle_usb_device_class_rule (env : environment) (e : uevent) (devpath : List Char)
    (g : globals) : List syscall :=
  match e.type with
  | none => []
  | some type =>
    g.usb_device_classes.flatMap (usb_device_class_rule_calls env e type devpath)

/-! ## The handlers -/

/-- The function `parse_device_name(uevent, len)`: the name, `none` for
`NULL`. -/
def parse_device_name (e : uevent) (len : Nat) : Option (List Char) :=
  match strrchr e.path SLASH with
  | none => none
  | some name =>
    if strlen (name.drop 1) > len then none
    else some (name.drop 1)

/-- The function `handle_block_device_event(uevent)`. -/
def handle_block_device_event (env : environment) (e : uevent) (g : globals) :
    List syscall :=
  match parse_device_name e 64 with
  | none => []
  | some name =>
    let devpath := snprintf 96 ("/dev/block/".toList ++ cstr name)
    let links :=
      if strncmp0 e.path "/devices/".toList 9 then parse_platform_block_device env e g
      else none
    [syscall.make_dir "/dev/block/".toList 0o755]
      ++ handle_device env e.action devpath e.path true e.major e.minor links g

/-- The loop of `handle_generic_device_event` that builds the directories of
a device name: `done` is the part of `devpath` before `p`, `rest` the part
from `p` on. -/
def build_directories (done : List Char) : List Char → List syscall
  | [] => []
  | c :: rest =>
    (if c = SLASH then [syscall.make_dir done 0o755] else [])
      ++ build_directories (done ++ [c]) rest

/-- The end of `handle_generic_device_event`, from the call of
`get_character_device_symlinks` on, for the device path computed. -/
def generic_device_finish (env : environment) (e : uevent) (devpath : List Char)
    (is_usb_dev : Bool) (g : globals) : List syscall :=
  let r := get_character_device_symlinks env e g
  r.2 ++ handle_device env e.action devpath e.path false e.major e.minor r.1 g
    ++ (if is_usb_dev then handle_usb_device_class_rule env e devpath g else [])

/-- The branches of `handle_generic_device_event` that set `base`: the
directory is made, and the device path is `base` and the name in
`devpath[96]`. -/
def generic_device_base (env : environment) (e : uevent) (base name : List Char)
    (g : globals) : List syscall :=
  [syscall.make_dir base 0o755]
    ++ generic_device_finish env e (snprintf 96 (base ++ cstr name)) false g

/-- The function `handle_generic_device_event(uevent)`. -/
def handle_generic_device_event (env : environment) (e : uevent) (g : globals) :
    List syscall :=
  match parse_device_name e 64 with
  | none => []
  | some name =>
    if strncmp0 e.subsystem "usb".toList 3 then
      if strcmp0 e.subsystem "usb".toList then
        match e.device_name with
        | some device_name =>
          let devpath := snprintf 96 ("/dev/".toList ++ cstr device_name)
          build_directories (devpath.take 5) (devpath.drop 5)
            ++ generic_device_finish env e devpath true g
        | none =>
          let bus_id : Int := Int.tdiv e.minor 128 + 1
          let device_id : Int := Int.tmod e.minor 128 + 1
          [syscall.make_dir "/dev/bus".toList 0o755,
           syscall.make_dir "/dev/bus/usb".toList 0o755,
           syscall.make_dir (snprintf 96 ("/dev/bus/usb/".toList ++ pad3 bus_id)) 0o755]
            ++ generic_device_finish env e
                (snprintf 96 ("/dev/bus/usb/".toList ++ pad3 bus_id ++ "/".toList
                  ++ pad3 device_id)) true g
      else []
    else if strncmp0 e.subsystem "graphics".toList 8 then
      generic_device_base env e "/dev/graphics/".toList name g
    else if strncmp0 e.subsystem "drm".toList 3 then
      generic_device_base env e "/dev/dri/".toList name g
    else if strncmp0 e.subsystem "oncrpc".toList 6 then
      generic_device_base env e "/dev/oncrpc/".toList name g
    else if strncmp0 e.subsystem "adsp".toList 4 then
      generic_device_base env e "/dev/adsp/".toList name g
    else if strncmp0 e.subsystem "msm_camera".toList 10 then
      generic_device_base env e "/dev/msm_camera/".toList name g
    else if strncmp0 e.subsystem "input".toList 5 then
      generic_device_base env e "/dev/input/".toList name g
    else if strncmp0 e.subsystem "mtd".toList 3 then
      generic_device_base env e "/dev/mtd/".toList name g
    else if strncmp0 e.subsystem "sound".toList 5 then
      generic_device_base env e "/dev/snd/".toList name g
    else if strncmp0 e.subsystem "misc".toList 4 && strncmp0 name "log_".toList 4 then
      generic_device_base env e "/dev/log/".toList (name.drop 4) g
    else
      generic_device_finish env e (snprintf 96 ("/dev/".toList ++ cstr name)) false g

/-- The function `handle_device_event(uevent)`, over the functions it calls:
`handle_module_loading`, `fixup_sys_perms` and the three handlers act on a
state `σ`. -/
def handle_device_event {σ : Type}
    (handle_module_loading : Option (List Char) → σ → σ)
    (fixup_sys_perms : List Char → σ → σ)
    (handle_block_device_event handle_platform_device_event
      handle_generic_device_event : uevent → σ → σ)
    (e : uevent) (s : σ) : σ :=
  let s := if strcmp0 e.action "add".toList then handle_module_loading e.modalias s else s
  let s :=
    if strcmp0 e.action "add".toList || strcmp0 e.action "change".toList then
      fixup_sys_perms e.path s
    else s
  if strncmp0 e.subsystem "block".toList 5 then handle_block_device_event e s
  else if strncmp0 e.subsystem "platform".toList 8 then handle_platform_device_event e s
  else handle_generic_device_event e s

/-! ## Specification-side notions for the handlers -/

/-- The path `q` is `p ++ "/" ++ s` for some `s`. -/
def is_below (q p : List Char) : Prop := ∃ s, q = p ++ SLASH :: s

/-- The records of the registry are as `add_platform_device` writes them: the
path is a C string and `path_len` is its length. -/
def registry_ok (g : globals) : Prop :=
  ∀ b ∈ g.platform_names, b.path_len = b.path.length ∧ NUL ∉ b.path

/-- The record `add_platform_device` stores for a path. -/
def platform_record (path : List Char) : platform_node :=
  { name :=
      if "/devices/platform/".toList <+: path then path.drop 18
      else if "/devices/".toList <+: path then path.drop 9
      else path,
    path := path, path_len := path.length }

/-- A platform event with the given action and path. -/
def platform_event (action path : List Char) : uevent :=
  { uevent_init with action := action, path := path, subsystem := "platform".toList }

/-- The registry after a sequence of events went through
`handle_platform_device_event`, starting from the empty registry. -/
def run_platform_events (es : List uevent) : globals :=
  es.foldl (fun g e => handle_platform_device_event e g) {}

/-- The calls `handle_device_event` makes, for the statement of its order. -/
inductive routed_call where
  | module_loading (modalias : Option (List Char))
  | fixup (path : List Char)
  | block (e : uevent)
  | platform (e : uevent)
  | generic (e : uevent)
  deriving DecidableEq, Repr

/-- The call is a `make_dir`. -/
def syscall.is_make_dir : syscall → Bool
  | .make_dir _ _ => true
  | _ => false

/-- An environment in which every allocation succeeds, no glob matches, there
is no SELinux handle and `sanitize` finds nothing to replace. -/
def env_ok : environment :=
  { fnmatch := fnmatch_never, sehandle := none, sanitize := fun s => s,
    malloc_ok := true, asprintf_ok := fun _ => true }

/-- The environment `env_ok` with `malloc` returning no memory. -/
def env_no_memory : environment := { env_ok with malloc_ok := false }

/-- The registry that holds `/devices/platform/sdhci`. -/
def registry_sdhci : globals :=
  add_platform_device "/devices/platform/sdhci".toList {}

instance (g : globals) : Decidable (registry_ok g) := by
  unfold registry_ok
  infer_instance

/-- The registry after an `add` event for `p` and then one for `p ++ "/" ++ s`,
starting from the empty registry. -/
def registered_then_subdevice (p s : List Char) : globals :=
  handle_platform_device_event (platform_event "add".toList (p ++ SLASH :: s))
    (handle_platform_device_event (platform_event "add".toList p) {})

/-- A USB event without `DEVNAME`, minor 130. -/
def event_usb_minor_130 : uevent :=
  { uevent_init with action := "add".toList, path := "/devices/pci0000:00/usb1".toList,
                     subsystem := "usb".toList, major := 189, minor := 130 }

/-- The directories on the way to `/dev/<d>`: for each slash of `d`, what comes
before it, from left to right. -/
def devname_directories (d : List Char) : List syscall :=
  ((List.range d.length).filter (fun i => d[i]? == some SLASH)).map
    (fun i => syscall.make_dir ("/dev/".toList ++ d.take i) 0o755)

/-- A USB event whose `DEVNAME` has 91 bytes. -/
def event_usb_long_devname : uevent :=
  { uevent_init with action := "add".toList, path := "/devices/pci0000:00/usb1".toList,
                     subsystem := "usb".toList,
                     device_name := some (List.replicate 91 (Char.ofNat 97)),
                     major := 189, minor := 0 }

/-- A USB event with `DEVNAME=bus/usb/001/004`, below the platform device
`/devices/platform/ehci`. -/
def event_usb_devname : uevent :=
  { uevent_init with action := "add".toList,
                     path := "/devices/platform/ehci/usb1/1-1/1-1:1.0/dev".toList,
                     subsystem := "usb".toList,
                     device_name := some "bus/usb/001/004".toList,
                     major := 189, minor := 3 }

/-- The registry that holds `/devices/platform/ehci`. -/
def registry_ehci : globals :=
  add_platform_device "/devices/platform/ehci".toList {}

/-- An input event. -/
def event_input : uevent :=
  { uevent_init with action := "add".toList, path := "/devices/virtual/input/event0".toList,
                     subsystem := "input".toList, major := 13, minor := 64 }

/-! ## Module loading -/

/-- What module loading takes from outside `devices.c`: the dependency
resolver `insmod_by_dep`, as a function of a state `ρ` of its own and the
alias (a C string) that gives the value returned and the next state; the three constants
of `cutils/probe_module.h` tested on its result; and whether `calloc` of the
queue node and `strdup` of the alias return memory. -/
structure module_environment (ρ : Type) where
  insmod_by_dep : ρ → List Char → Int × ρ
  MOD_BAD_DEP : Int
  MOD_INVALID_CALLER_BLACK : Int
  MOD_BAD_ALIAS : Int
  calloc_ok : Bool
  strdup_ok : Bool

/-- The test `ret & (MOD_BAD_DEP | MOD_INVALID_CALLER_BLACK | MOD_BAD_ALIAS)`:
the result asks for a later retry. -/
def retry_later {ρ : Type} (m : module_environment ρ) (ret : Int) : Bool :=
  Int.land ret (Int.lor (Int.lor m.MOD_BAD_DEP m.MOD_INVALID_CALLER_BLACK) m.MOD_BAD_ALIAS) != 0

/-- One call of `insmod_by_dep`: the alias, the value returned, and whether
the call was made for an alias of the deferral queue. -/
structure module_call where
  modalias : List Char
  ret : Int
  deferred : Bool
  deriving DecidableEq, Repr

/-- The loop of `handle_deferred_module_loading` over the nodes of the queue:
the nodes kept, the state of the resolver, and the calls made. -/
def handle_deferred_module_loading_loop {ρ : Type} (m : module_environment ρ) :
    List module_alias_node → ρ → List module_alias_node × ρ × List module_call
  | [], r => ([], r, [])
  | node :: rest, r =>
    match node.pattern with
    | none =>
      let t := handle_deferred_module_loading_loop m rest r
      (node :: t.1, t.2.1, t.2.2)
    | some pattern =>
      let res := m.insmod_by_dep r (cstr pattern)
      let t := handle_deferred_module_loading_loop m rest res.2
      if !retry_later m res.1 then
        (t.1, t.2.1, { modalias := cstr pattern, ret := res.1, deferred := true } :: t.2.2)
      else
        (node :: t.1, t.2.1, { modalias := cstr pattern, ret := res.1, deferred := true } :: t.2.2)

/-- The function `handle_deferred_module_loading()`. -/
def handle_deferred_module_loading {ρ : Type} (m : module_environment ρ) (g : globals)
    (r : ρ) : globals × ρ × List module_call :=
  let t := handle_deferred_module_loading_loop m g.deferred_module_loading_list r
  ({ g with deferred_module_loading_list := t.1 }, t.2.1, t.2.2)

/-- The function `handle_module_loading(modalias)`. -/
def handle_module_loading {ρ : Type} (m : module_environment ρ)
    (modalias : Option (List Char)) (g : globals) (r : ρ) :
    globals × ρ × List module_call :=
  let t := handle_deferred_module_loading m g r
  match modalias with
  | none => t
  | some modalias =>
    let res := m.insmod_by_dep t.2.1 (cstr modalias)
    let calls := t.2.2 ++ [{ modalias := cstr modalias, ret := res.1, deferred := false }]
    if retry_later m res.1 then
      if m.calloc_ok then
        if !m.strdup_ok then (t.1, res.2, calls)
        else
          ({ t.1 with deferred_module_loading_list :=
                t.1.deferred_module_loading_list
                  ++ [{ name := none, pattern := some (strdup modalias) }] },
            res.2, calls)
      else (t.1, res.2, calls)
    else (t.1, res.2, calls)

/-! ## Firmware -/

/-- One return of `read(fw_fd, buf, sizeof(buf))`: the bytes stored in `buf`,
whose number is the value returned (none at the end of the file), or an error,
where the value returned is `-(k + 1) < 0`. -/
inductive read_result where
  | data (bytes : List Char)
  | error (k : Nat)
  deriving DecidableEq, Repr

/-- The calls of `load_firmware` on its three descriptors: the types of the
second and third are `write(loading_fd, …)` with the bytes written and
`write(data_fd, buf, count)` with the bytes offered and the value returned. -/
inductive firmware_call where
  | read (result : read_result)
  | write_loading (bytes : List Char)
  | write_data (offered : List Char) (ret : Int)
  deriving DecidableEq, Repr

/-- What `load_firmware` meets: the result of `fstat` (`none` when it fails,
else `st_size`), the size `PAGE_SIZE` of `buf`, the result of the `i`-th
`read` of the firmware file when `count` bytes are asked for, and the value
the `j`-th `write` to the data file returns when `count` bytes are offered. -/
structure firmware_environment where
  PAGE_SIZE : Nat
  st_size : Option Int
  read : Nat → Nat → read_result
  write : Nat → Nat → Int

/-- The loop `while (nr > 0)` of `load_firmware`, with a bound on the number of
iterations: `buf` holds the bytes read, `nr` is what is left to write, `j`
counts the writes to the data file so far.  Every write starts at `buf + nw`
with `nw` set to 0 just before, that is at `buf`.  The result is `true` when a
write failed, the count of writes, and the calls. -/
def load_firmware_write_loop (fw : firmware_environment) (buf : List Char) :
    Nat → Int → Nat → Bool × Nat × List firmware_call
  | 0, _, j => (false, j, [])
  | k + 1, nr, j =>
    if nr > 0 then
      let nw : Int := 0
      let offered := (buf.drop nw.toNat).take nr.toNat
      let nw := fw.write j nr.toNat
      if nw ≤ 0 then (true, j + 1, [firmware_call.write_data offered nw])
      else
        let t := load_firmware_write_loop fw buf k (nr - nw) (j + 1)
        (t.1, t.2.1, firmware_call.write_data offered nw :: t.2.2)
    else (false, j, [])

/-- The loop `while (len_to_copy > 0)` of `load_firmware`, with a bound on the
number of iterations: `i` counts the reads, `j` the writes to the data file.
The result is `ret` and the calls. -/
def load_firmware_loop (fw : firmware_environment) :
    Nat → Int → Nat → Nat → Int × List firmware_call
  | 0, _, _, _ => (0, [])
  | k + 1, len_to_copy, i, j =>
    if len_to_copy > 0 then
      match fw.read i fw.PAGE_SIZE with
      | read_result.error e => (-1, [firmware_call.read (read_result.error e)])
      | read_result.data bytes =>
        if bytes.length = 0 then (0, [firmware_call.read (read_result.data bytes)])
        else
          let w := load_firmware_write_loop fw bytes bytes.length (bytes.length : Int) j
          if w.1 then (-1, firmware_call.read (read_result.data bytes) :: w.2.2)
          else
            let t := load_firmware_loop fw k (len_to_copy - (bytes.length : Int)) (i + 1) w.2.1
            (t.1, firmware_call.read (read_result.data bytes) :: (w.2.2 ++ t.2))
    else (0, [])

/-- The function `load_firmware(fw_fd, loading_fd, data_fd)`: the value
returned and the calls made.  Every read that returns data takes at least one
byte off `len_to_copy` and every write that succeeds at least one off `nr`, so
these bound the iterations. -/
def load_firmware (fw : firmware_environment) : Int × List firmware_call :=
  match fw.st_size with
  | none => (-1, [])
  | some st_size =>
    let t := load_firmware_loop fw st_size.toNat st_size 0 0
    (t.1,
      [firmware_call.write_loading "1".toList] ++ t.2
        ++ [firmware_call.write_loading (if t.1 = 0 then "0".toList else "-1".toList)])

/-! ## The event handler over the functions of this file -/

/-- The state `handle_device_event` acts on: the global lists, the state of
the dependency resolver, the system calls made and the resolver calls made. -/
structure world (ρ : Type) where
  g : globals
  resolver : ρ
  calls : List syscall
  module_calls : List module_call

/-- The function `handle_device_event(uevent)` with the functions of this file
in the places of its five calls. -/
def handle_device_event_world {ρ : Type} (env : environment) (m : module_environment ρ)
    (e : uevent) (w : world ρ) : world ρ :=
  handle_device_event
    (fun modalias w =>
      let t := handle_module_loading m modalias w.g w.resolver
      { w with g := t.1, resolver := t.2.1, module_calls := w.module_calls ++ t.2.2 })
    (fun path w =>
      { w with calls := w.calls ++ fixup_sys_perms env.fnmatch env.sehandle path w.g })
    (fun e w => { w with calls := w.calls ++ handle_block_device_event env e w.g })
    (fun e w => { w with g := handle_platform_device_event e w.g })
    (fun e w => { w with calls := w.calls ++ handle_generic_device_event env e w.g })
    e w

/-! ## Specification-side notions for module loading -/

/-- The queue node `handle_module_loading` makes for an alias. -/
def alias_node (a : List Char) : module_alias_node :=
  { name := none, pattern := some (cstr a) }

/-- Every node of the queue holds a pattern, as the nodes
`handle_module_loading` appends do. -/
def queue_ok (g : globals) : Prop :=
  ∀ n ∈ g.deferred_module_loading_list, n.pattern ≠ none

/-- The aliases of the deferral queue, in queue order. -/
def queue_aliases (g : globals) : List (List Char) :=
  g.deferred_module_loading_list.filterMap (fun n => n.pattern)

/-- The values the resolver returns when it is called for the aliases of a
list, one call each and in order, and its state afterwards. -/
def resolver_run {ρ : Type} (m : module_environment ρ) :
    List (List Char) → ρ → List Int × ρ
  | [], r => ([], r)
  | a :: rest, r =>
    let res := m.insmod_by_dep r (cstr a)
    let t := resolver_run m rest res.2
    (res.1 :: t.1, t.2)

/-- The result has at least one of the bits of `MOD_BAD_DEP`,
`MOD_INVALID_CALLER_BLACK` and `MOD_BAD_ALIAS` set. -/
def has_retry_bit {ρ : Type} (m : module_environment ρ) (ret : Int) : Prop :=
  ∃ k, Int.testBit ret k = true ∧
    (Int.testBit m.MOD_BAD_DEP k = true ∨ Int.testBit m.MOD_INVALID_CALLER_BLACK k = true
      ∨ Int.testBit m.MOD_BAD_ALIAS k = true)

/-- A sequence of invocations of `handle_module_loading`, one for each
modalias of the list (`none` for an event without one): the globals and the
state of the resolver afterwards, and all the resolver calls made. -/
def run_module_loading {ρ : Type} (m : module_environment ρ) :
    List (Option (List Char)) → globals → ρ → globals × ρ × List module_call
  | [], g, r => (g, r, [])
  | a :: rest, g, r =>
    let t := handle_module_loading m a g r
    let u := run_module_loading m rest t.1 t.2.1
    (u.1, u.2.1, t.2.2 ++ u.2.2)

/-- A resolver whose state counts its calls and which returns `results k` at
its call number `k`, with sample values for the three constants and every
allocation succeeding. -/
def sample_resolver (results : Nat → Int) : module_environment Nat :=
  { insmod_by_dep := fun k _ => (results k, k + 1),
    MOD_BAD_DEP := 4, MOD_INVALID_CALLER_BLACK := 32, MOD_BAD_ALIAS := 8,
    calloc_ok := true, strdup_ok := true }

/-- The resolver that returns `MOD_BAD_DEP` at its first call and 0 after. -/
def resolver_bad_dep_once : module_environment Nat :=
  sample_resolver (fun k => if k = 0 then 4 else 0)

/-- The number of resolver calls that returned a retry-later result. -/
def retry_later_count {ρ : Type} (m : module_environment ρ) (calls : List module_call) : Nat :=
  (calls.filter (fun c => retry_later m c.ret)).length

/-- The number of reattempts of queued aliases that returned a result that is
not retry-later. -/
def drained_count {ρ : Type} (m : module_environment ρ) (calls : List module_call) : Nat :=
  (calls.filter (fun c => c.deferred && !retry_later m c.ret)).length

/-- The globals whose deferral queue holds the alias `of:Nfoo`. -/
def queue_of_nfoo : globals :=
  { deferred_module_loading_list := [alias_node "of:Nfoo".toList] }

instance (g : globals) : Decidable (queue_ok g) := by
  unfold queue_ok
  infer_instance

/-! ## Specification-side notions for firmware -/

/-- The reads of a file with the given content when every read returns all
the bytes asked for that are left: the read number `i` of `count` bytes. -/
def file_reads (content : List Char) (i count : Nat) : read_result :=
  read_result.data ((content.drop (i * count)).take count)

/-- The bytes the data file accepted: for every write to it, the first `ret`
of the bytes offered. -/
def accepted_bytes : List firmware_call → List Char
  | [] => []
  | firmware_call.write_data offered ret :: rest =>
    offered.take ret.toNat ++ accepted_bytes rest
  | _ :: rest => accepted_bytes rest

/-- The call is a write to the loading file. -/
def firmware_call.is_write_loading : firmware_call → Bool
  | .write_loading _ => true
  | _ => false

/-- The call is a read that returned a negative value or a write to the data
file that returned a value `≤ 0`. -/
def firmware_call.failed : firmware_call → Bool
  | .read (.error _) => true
  | .write_data _ ret => decide (ret ≤ 0)
  | _ => false

/-- A firmware file of the two bytes `ab` and a data file that accepts one
byte at every write. -/
def firmware_short_writes : firmware_environment :=
  { PAGE_SIZE := 4096, st_size := some 2, read := file_reads "ab".toList,
    write := fun _ _ => 1 }

/-- A firmware file of the two bytes `ab` and a data file that accepts all the
bytes of every write. -/
def firmware_full_writes : firmware_environment :=
  { PAGE_SIZE := 4096, st_size := some 2, read := file_reads "ab".toList,
    write := fun _ count => count }

/-! ## Specification-side notions for device nodes -/

/-- The call creates or removes a device node: `mknod` or `unlink`. -/
def syscall.is_node : syscall → Bool
  | .mknod _ _ _ _ => true
  | .unlink _ => true
  | _ => false

/-- The call makes or removes a link. -/
def syscall.is_link : syscall → Bool
  | .make_link _ _ => true
  | .remove_link _ _ => true
  | _ => false

/-- The directory `/dev` as the set of its node paths, after one call: `mknod`
inserts the path and `unlink` removes it. -/
def dev_nodes_step (nodes : List (List Char)) (c : syscall) : List (List Char) :=
  match c with
  | .mknod path _ _ _ => if path ∈ nodes then nodes else path :: nodes
  | .unlink path => nodes.filter (fun p => p ≠ path)
  | _ => nodes

/-- The set of node paths after a sequence of calls. -/
def dev_nodes (calls : List syscall) (nodes : List (List Char)) : List (List Char) :=
  calls.foldl dev_nodes_step nodes

/-- The `mknod` and `unlink` calls of `handle_device` for an action, a device
path, the mode of the node and the device numbers. -/
def node_calls (action devpath : List Char) (mode : Nat) (major minor : Int) :
    List syscall :=
  if major ≥ 0 ∧ minor ≥ 0 then
    if cstr action = "add".toList then [syscall.mknod devpath mode major minor]
    else if cstr action = "remove".toList then [syscall.unlink devpath]
    else []
  else []

/-- The event `r` is the `remove` of the `add` event `a`: the actions are
`add` and `remove`, and `r` carries the DEVPATH, SUBSYSTEM, DEVNAME, MAJOR and
MINOR of `a`. -/
def is_remove_of (a r : uevent) : Prop :=
  a.action = "add".toList ∧ r.action = "remove".toList ∧ r.path = a.path
    ∧ r.subsystem = a.subsystem ∧ r.device_name = a.device_name
    ∧ r.major = a.major ∧ r.minor = a.minor

instance (a r : uevent) : Decidable (is_remove_of a r) := by
  unfold is_remove_of
  infer_instance

/-- The sequence of events of a list of pairs: each first event followed by
its second. -/
def pair_events (ps : List (uevent × uevent)) : List uevent :=
  ps.flatMap fun p => [p.1, p.2]

/-- The world after a sequence of events went through `handle_device_event`. -/
def run_device_events {ρ : Type} (env : environment) (m : module_environment ρ)
    (es : List uevent) (w : world ρ) : world ρ :=
  es.foldl (fun w e => handle_device_event_world env m e w) w

/-- A world with the given globals and resolver state and no call made. -/
def world_init {ρ : Type} (g : globals) (r : ρ) : world ρ :=
  { g := g, resolver := r, calls := [], module_calls := [] }

/-- What `handle_generic_device_event` computes before the call of
`get_character_device_symlinks`: the directories made, the device path and
`is_usb_dev`; `none` when the handler returns before that call. -/
def generic_device_plan (e : uevent) : Option (List syscall × List Char × Bool) :=
  match parse_device_name e 64 with
  | none => none
  | some name =>
    if strncmp0 e.subsystem "usb".toList 3 then
      if strcmp0 e.subsystem "usb".toList then
        match e.device_name with
        | some device_name =>
          let devpath := snprintf 96 ("/dev/".toList ++ cstr device_name)
          some (build_directories (devpath.take 5) (devpath.drop 5), devpath, true)
        | none =>
          let bus_id : Int := Int.tdiv e.minor 128 + 1
          let device_id : Int := Int.tmod e.minor 128 + 1
          some ([syscall.make_dir "/dev/bus".toList 0o755,
                 syscall.make_dir "/dev/bus/usb".toList 0o755,
                 syscall.make_dir (snprintf 96 ("/dev/bus/usb/".toList ++ pad3 bus_id)) 0o755],
                snprintf 96 ("/dev/bus/usb/".toList ++ pad3 bus_id ++ "/".toList
                  ++ pad3 device_id), true)
      else none
    else
      let base : Option (List Char × List Char) :=
        if strncmp0 e.subsystem "graphics".toList 8 then some ("/dev/graphics/".toList, name)
        else if strncmp0 e.subsystem "drm".toList 3 then some ("/dev/dri/".toList, name)
        else if strncmp0 e.subsystem "oncrpc".toList 6 then some ("/dev/oncrpc/".toList, name)
        else if strncmp0 e.subsystem "adsp".toList 4 then some ("/dev/adsp/".toList, name)
        else if strncmp0 e.subsystem "msm_camera".toList 10 then
          some ("/dev/msm_camera/".toList, name)
        else if strncmp0 e.subsystem "input".toList 5 then some ("/dev/input/".toList, name)
        else if strncmp0 e.subsystem "mtd".toList 3 then some ("/dev/mtd/".toList, name)
        else if strncmp0 e.subsystem "sound".toList 5 then some ("/dev/snd/".toList, name)
        else if strncmp0 e.subsystem "misc".toList 4 && strncmp0 name "log_".toList 4 then
          some ("/dev/log/".toList, name.drop 4)
        else none
      match base with
      | some b => some ([syscall.make_dir b.1 0o755], snprintf 96 (b.1 ++ cstr b.2), false)
      | none => some ([], snprintf 96 ("/dev/".toList ++ cstr name), false)

/-- The device path `handle_device_event` computes for an event: that of the
block handler or of the generic handler; `none` for a platform event and when
the handler returns before it calls `handle_device`. -/
def device_path (e : uevent) : Option (List Char) :=
  if strncmp0 e.subsystem "block".toList 5 then
    (parse_device_name e 64).map fun name => snprintf 96 ("/dev/block/".toList ++ cstr name)
  else if strncmp0 e.subsystem "platform".toList 8 then none
  else (generic_device_plan e).map fun p => p.2.1

/-! ## Sample events for the symlinks -/

/-- A block event below a PCI device whose two leading segments, `pci` and 231
times `a`, then `b`, make a name of 236 bytes. -/
def event_pci_long : uevent :=
  { uevent_init with action := "add".toList,
                     path := "/devices/pci".toList ++ List.replicate 231 'a' ++ "/b/c".toList,
                     subsystem := "block".toList, major := 8, minor := 0 }

/-- A block event below the PCI device `pci0000:00/0000:00:1f.2`. -/
def event_pci : uevent :=
  { uevent_init with action := "add".toList,
                     path := "/devices/pci0000:00/0000:00:1f.2/host0/block/sda".toList,
                     subsystem := "block".toList, major := 8, minor := 0 }

/-! ## Specification-side notions for the default directory and the USB rules -/

/-- The subsystem names of the table of `handle_generic_device_event` that
name a base directory whatever the device name is. -/
def generic_table_names : List (List Char) :=
  ["graphics".toList, "drm".toList, "oncrpc".toList, "adsp".toList, "msm_camera".toList,
   "input".toList, "mtd".toList, "sound".toList]

/-- An event of the subsystem `drm_dp_aux_dev`, which is none of the names of
the table and begins with `drm`. -/
def event_drm_dp_aux : uevent :=
  { uevent_init with action := "add".toList,
                     path := "/devices/virtual/drm_dp_aux_dev/drm_dp_aux0".toList,
                     subsystem := "drm_dp_aux_dev".toList, major := 238, minor := 0 }

/-- An event of the subsystem `tty`. -/
def event_tty : uevent :=
  { uevent_init with action := "add".toList, path := "/devices/virtual/tty/ttyS0".toList,
                     subsystem := "tty".toList, major := 4, minor := 64 }

/-- The device path `handle_generic_device_event` computes for an event of the
subsystem `usb`: from `DEVNAME` when present, else from the minor number. -/
def usb_device_path (e : uevent) : List Char :=
  match e.device_name with
  | some device_name => snprintf 96 ("/dev/".toList ++ cstr device_name)
  | none =>
    snprintf 96 ("/dev/bus/usb/".toList ++ pad3 (Int.tdiv e.minor 128 + 1) ++ "/".toList
      ++ pad3 (Int.tmod e.minor 128 + 1))

/-- A stand-in for `fnmatch` that matches a pattern without wildcards: 0 when
the two C strings are equal. -/
def fnmatch_exact : List Char → List Char → Int → Int :=
  fun pattern string _ => if cstr pattern = cstr string then 0 else 1

/-- The environment `env_ok` with `fnmatch_exact`. -/
def env_exact : environment := { env_ok with fnmatch := fnmatch_exact }

/-- The globals with one USB class rule, for the class `9/0/1`. -/
def usb_class_hub : globals :=
  { usb_device_classes :=
      [{ devclass := "9/0/1".toList, perm := 0o660, uid := 1000, gid := 1001,
         pwr_ctrl_auto := 0, pwr_ctrl_on := 0, pwr_ctrl_perm := 0 }] }

/-- A `remove` event of the subsystem `usb` with `TYPE=9/0/1` and minor 130. -/
def event_usb_remove : uevent :=
  { uevent_init with action := "remove".toList, path := "/devices/pci0000:00/usb1".toList,
                     subsystem := "usb".toList, type := some "9/0/1".toList,
                     major := 189, minor := 130 }

/-- The `remove` event of `event_tty`, with its fields. -/
def event_tty_remove : uevent := { event_tty with action := "remove".toList }

/-- A `remove` event for the DEVPATH of `event_tty` without `MAJOR` and
`MINOR`. -/
def event_tty_remove_bare : uevent :=
  { uevent_init with action := "remove".toList, path := "/devices/virtual/tty/ttyS0".toList,
                     subsystem := "tty".toList }

/-- An `add` event for the DEVPATH of `event_tty` without `MAJOR` and
`MINOR`. -/
def event_tty_add_bare : uevent :=
  { uevent_init with action := "add".toList, path := "/devices/virtual/tty/ttyS0".toList,
                     subsystem := "tty".toList }

/-! ## C strings: basic facts -/

theorem nul_not_mem_cstr (m : List Char) : NUL ∉ cstr m := by
  intro h
  have := List.mem_takeWhile_imp h
  simp at this

theorem cstr_of_nul_free {t : List Char} (h : NUL ∉ t) : cstr t = t := by
  unfold cstr
  rw [List.takeWhile_eq_self_iff]
  intro x hx
  simp only [bne_iff_ne, ne_eq]
  rintro rfl
  exact h hx

theorem cstr_cstr (m : List Char) : cstr (cstr m) = cstr m :=
  cstr_of_nul_free (nul_not_mem_cstr m)

theorem cstr_append_nul {t : List Char} (h : NUL ∉ t) (r : List Char) :
    cstr (t ++ NUL :: r) = t := by
  unfold cstr
  rw [List.takeWhile_append_of_pos]
  · simp
  · intro x hx
    simp only [bne_iff_ne, ne_eq]
    rintro rfl
    exact h hx

/-- Memory at a pointer is its C string followed by nothing or by a `NUL`
and the rest. -/
theorem cstr_decompose (m : List Char) :
    m = cstr m ∨ ∃ r, m = cstr m ++ NUL :: r := by
  induction m with
  | nil => left; rfl
  | cons c cs ih =>
    by_cases hc : c = NUL
    · right
      refine ⟨cs, ?_⟩
      simp [cstr, hc]
    · have hc2 : cstr (c :: cs) = c :: cstr cs := by simp [cstr, hc]
      rcases ih with h | ⟨r, h⟩
      · left; rw [hc2, ← h]
      · right; exact ⟨r, by rw [hc2, List.cons_append, ← h]⟩

theorem cstr_drop {m : List Char} {n : Nat} (h : n ≤ (cstr m).length) :
    cstr (m.drop n) = (cstr m).drop n := by
  rcases cstr_decompose m with hm | ⟨r, hm⟩
  · have h2 : NUL ∉ (cstr m).drop n := fun hx => nul_not_mem_cstr m (List.mem_of_mem_drop hx)
    conv_lhs => rw [hm]
    exact cstr_of_nul_free h2
  · have h2 : NUL ∉ (cstr m).drop n := fun hx => nul_not_mem_cstr m (List.mem_of_mem_drop hx)
    conv_lhs => rw [hm]
    rw [List.drop_append_of_le_length h]
    exact cstr_append_nul h2 r

theorem skip_past_nul_append {t : List Char} (h : NUL ∉ t) (r : List Char) :
    skip_past_nul (t ++ NUL :: r) = r := by
  unfold skip_past_nul
  rw [List.dropWhile_append_of_pos]
  · simp
  · intro x hx
    simp only [bne_iff_ne, ne_eq]
    rintro rfl
    exact h hx

theorem skip_past_nul_of_nul_free {t : List Char} (h : NUL ∉ t) :
    skip_past_nul t = [] := by
  unfold skip_past_nul
  have : t.dropWhile (fun c => c != NUL) = [] := by
    rw [List.dropWhile_eq_nil_iff]
    intro x hx
    simp only [bne_iff_ne, ne_eq]
    rintro rfl
    exact h hx
  rw [this]; rfl

theorem skip_past_nul_drop {m : List Char} {n : Nat} (h : n ≤ (cstr m).length) :
    skip_past_nul (m.drop n) = skip_past_nul m := by
  have h2 : NUL ∉ (cstr m).drop n := fun hx => nul_not_mem_cstr m (List.mem_of_mem_drop hx)
  rcases cstr_decompose m with hm | ⟨r, hm⟩
  · have h3 : NUL ∉ m := by rw [hm]; exact nul_not_mem_cstr m
    rw [skip_past_nul_of_nul_free h3]
    exact skip_past_nul_of_nul_free (fun hx => h3 (List.mem_of_mem_drop hx))
  · have e1 : skip_past_nul m = r := by
      conv_lhs => rw [hm]
      exact skip_past_nul_append (nul_not_mem_cstr m) r
    rw [e1]
    conv_lhs => rw [hm]
    rw [List.drop_append_of_le_length h]
    exact skip_past_nul_append h2 r

/-! ## `atoi` reads no further than the C string -/

theorem digits_value_cstr (s : List Char) : digits_value (cstr s) = digits_value s := by
  have h : (cstr s).takeWhile isdigit = s.takeWhile isdigit := by
    induction s with
    | nil => rfl
    | cons c cs ih =>
      by_cases hc : c = NUL
      · subst hc
        have : isdigit NUL = false := by decide
        simp [cstr, this]
      · have hc2 : cstr (c :: cs) = c :: cstr cs := by simp [cstr, hc]
        rw [hc2, List.takeWhile_cons, List.takeWhile_cons, ih]
  unfold digits_value
  rw [h]

theorem signed_value_cstr (s : List Char) : signed_value (cstr s) = signed_value s := by
  cases s with
  | nil => rfl
  | cons c cs =>
    by_cases hc : c = NUL
    · subst hc
      have h1 : cstr (NUL :: cs) = [] := by simp [cstr]
      have h2 : NUL ≠ Char.ofNat 45 := by decide
      have h3 : NUL ≠ Char.ofNat 43 := by decide
      have h4 : isdigit NUL = false := by decide
      rw [h1]
      simp [signed_value, h2, h3, digits_value, h4]
    · have hc2 : cstr (c :: cs) = c :: cstr cs := by simp [cstr, hc]
      rw [hc2]
      have h5 := digits_value_cstr (c :: cs)
      rw [hc2] at h5
      simp only [signed_value, digits_value_cstr, h5]

theorem dropWhile_isspace_cstr (m : List Char) :
    cstr (m.dropWhile isspace) = (cstr m).dropWhile isspace := by
  induction m with
  | nil => rfl
  | cons c cs ih =>
    by_cases hc : c = NUL
    · subst hc
      have h4 : isspace NUL = false := by decide
      simp [cstr, h4]
    · have hc2 : cstr (c :: cs) = c :: cstr cs := by simp [cstr, hc]
      rw [hc2, List.dropWhile_cons, List.dropWhile_cons]
      by_cases hs : isspace c = true
      · simp [hs, ih]
      · simp [hs, hc2]

theorem atoi_cstr (m : List Char) : atoi (cstr m) = atoi m := by
  unfold atoi
  rw [← dropWhile_isspace_cstr, signed_value_cstr]

/-! ## The key chain of `parse_event` -/

theorem strncmp0_iff (t key : List Char) (n : Nat) (hk : NUL ∉ key) (hn : key.length = n) :
    strncmp0 t key n = true ↔ key <+: cstr t := by
  unfold strncmp0
  rw [cstr_of_nul_free hk, List.prefix_iff_eq_take, hn]
  have : List.take n key = key := by rw [← hn]; exact List.take_length key
  rw [this, beq_iff_eq]
  exact eq_comm

/-- Case analysis on the key chain of `parse_event`: the branch taken is the
one of the key the C string at `msg` begins with. -/
theorem parse_event_keys_cases (msg : List Char) (e : uevent)
    (P : List Char × uevent → Prop)
    (h1 : "ACTION=".toList <+: cstr msg →
      P (msg.drop 7, { e with action := cstr (msg.drop 7) }))
    (h2 : "DEVPATH=".toList <+: cstr msg →
      P (msg.drop 8, { e with path := cstr (msg.drop 8) }))
    (h3 : "SUBSYSTEM=".toList <+: cstr msg →
      P (msg.drop 10, { e with subsystem := cstr (msg.drop 10) }))
    (h4 : "FIRMWARE=".toList <+: cstr msg →
      P (msg.drop 9, { e with firmware := cstr (msg.drop 9) }))
    (h5 : "MAJOR=".toList <+: cstr msg →
      P (msg.drop 6, { e with major := atoi (msg.drop 6) }))
    (h6 : "MINOR=".toList <+: cstr msg →
      P (msg.drop 6, { e with minor := atoi (msg.drop 6) }))
    (h7 : "PARTN=".toList <+: cstr msg →
      P (msg.drop 6, { e with partition_num := atoi (msg.drop 6) }))
    (h8 : "PARTNAME=".toList <+: cstr msg →
      P (msg.drop 9, { e with partition_name := some (cstr (msg.drop 9)) }))
    (h9 : "DEVNAME=".toList <+: cstr msg →
      P (msg.drop 8, { e with device_name := some (cstr (msg.drop 8)) }))
    (h10 : "TYPE=".toList <+: cstr msg →
      P (msg.drop 5, { e with type := some (cstr (msg.drop 5)) }))
    (h11 : "MODALIAS=".toList <+: cstr msg →
      P (msg.drop 9, { e with modalias := some (cstr (msg.drop 9)) }))
    (h0 : (∀ k ∈ recognised_keys, ¬ k <+: cstr msg) → P (msg, e)) :
    P (parse_event_keys msg e) := by
  unfold parse_event_keys
  by_cases c1 : strncmp0 msg "ACTION=".toList 7 = true
  · rw [if_pos c1]
    exact h1 ((strncmp0_iff msg _ _ (by decide) (by decide)).1 c1)
  rw [if_neg c1]
  by_cases c2 : strncmp0 msg "DEVPATH=".toList 8 = true
  · rw [if_pos c2]
    exact h2 ((strncmp0_iff msg _ _ (by decide) (by decide)).1 c2)
  rw [if_neg c2]
  by_cases c3 : strncmp0 msg "SUBSYSTEM=".toList 10 = true
  · rw [if_pos c3]
    exact h3 ((strncmp0_iff msg _ _ (by decide) (by decide)).1 c3)
  rw [if_neg c3]
  by_cases c4 : strncmp0 msg "FIRMWARE=".toList 9 = true
  · rw [if_pos c4]
    exact h4 ((strncmp0_iff msg _ _ (by decide) (by decide)).1 c4)
  rw [if_neg c4]
  by_cases c5 : strncmp0 msg "MAJOR=".toList 6 = true
  · rw [if_pos c5]
    exact h5 ((strncmp0_iff msg _ _ (by decide) (by decide)).1 c5)
  rw [if_neg c5]
  by_cases c6 : strncmp0 msg "MINOR=".toList 6 = true
  · rw [if_pos c6]
    exact h6 ((strncmp0_iff msg _ _ (by decide) (by decide)).1 c6)
  rw [if_neg c6]
  by_cases c7 : strncmp0 msg "PARTN=".toList 6 = true
  · rw [if_pos c7]
    exact h7 ((strncmp0_iff msg _ _ (by decide) (by decide)).1 c7)
  rw [if_neg c7]
  by_cases c8 : strncmp0 msg "PARTNAME=".toList 9 = true
  · rw [if_pos c8]
    exact h8 ((strncmp0_iff msg _ _ (by decide) (by decide)).1 c8)
  rw [if_neg c8]
  by_cases c9 : strncmp0 msg "DEVNAME=".toList 8 = true
  · rw [if_pos c9]
    exact h9 ((strncmp0_iff msg _ _ (by decide) (by decide)).1 c9)
  rw [if_neg c9]
  by_cases c10 : strncmp0 msg "TYPE=".toList 5 = true
  · rw [if_pos c10]
    exact h10 ((strncmp0_iff msg _ _ (by decide) (by decide)).1 c10)
  rw [if_neg c10]
  by_cases c11 : strncmp0 msg "MODALIAS=".toList 9 = true
  · rw [if_pos c11]
    exact h11 ((strncmp0_iff msg _ _ (by decide) (by decide)).1 c11)
  rw [if_neg c11]
  · apply h0
    intro k hk hp
    have hf : strncmp0 msg k k.length = true := by
      unfold strncmp0
      have hn : NUL ∉ k := by
        revert hk; unfold recognised_keys; intro hk
        simp only [List.mem_cons, List.mem_singleton, List.not_mem_nil, or_false] at hk
        rcases hk with rfl | rfl | rfl | rfl | rfl | rfl | rfl | rfl | rfl | rfl | rfl <;> decide
      rw [cstr_of_nul_free hn, List.take_length, beq_iff_eq]
      exact (List.prefix_iff_eq_take.1 hp).symm
    revert hk hf; unfold recognised_keys; intro hk hf
    simp only [List.mem_cons, List.mem_singleton, List.not_mem_nil, or_false] at hk
    rcases hk with rfl | rfl | rfl | rfl | rfl | rfl | rfl | rfl | rfl | rfl | rfl
    · exact c1 hf
    · exact c2 hf
    · exact c3 hf
    · exact c4 hf
    · exact c5 hf
    · exact c6 hf
    · exact c7 hf
    · exact c8 hf
    · exact c9 hf
    · exact c10 hf
    · exact c11 hf

/-! ## What each branch of the key chain does -/

/-- Two different recognised keys cannot both begin the same string. -/
theorem keys_exclusive {k1 k2 l : List Char} (h1 : k1 <+: l) (h2 : k2 <+: l)
    (hne : ¬ k1 <+: k2 ∧ ¬ k2 <+: k1) : False := by
  rcases List.prefix_or_prefix_of_prefix h1 h2 with h | h
  · exact hne.1 h
  · exact hne.2 h

theorem parse_event_keys_ACTION (msg : List Char) (e : uevent)
    (h : "ACTION=".toList <+: cstr msg) :
    parse_event_keys msg e = (msg.drop 7, { e with action := cstr (msg.drop 7) }) := by
  refine parse_event_keys_cases msg e
    (fun r => r = (msg.drop 7, { e with action := cstr (msg.drop 7) }))
    ?_ ?_ ?_ ?_ ?_ ?_ ?_ ?_ ?_ ?_ ?_ ?_
    <;> intro h2
    <;> first
      | rfl
      | exact (keys_exclusive h h2 (by decide)).elim
      | exact (h2 _ (by decide) h).elim

theorem parse_event_keys_DEVPATH (msg : List Char) (e : uevent)
    (h : "DEVPATH=".toList <+: cstr msg) :
    parse_event_keys msg e = (msg.drop 8, { e with path := cstr (msg.drop 8) }) := by
  refine parse_event_keys_cases msg e
    (fun r => r = (msg.drop 8, { e with path := cstr (msg.drop 8) }))
    ?_ ?_ ?_ ?_ ?_ ?_ ?_ ?_ ?_ ?_ ?_ ?_
    <;> intro h2
    <;> first
      | rfl
      | exact (keys_exclusive h h2 (by decide)).elim
      | exact (h2 _ (by decide) h).elim

theorem parse_event_keys_SUBSYSTEM (msg : List Char) (e : uevent)
    (h : "SUBSYSTEM=".toList <+: cstr msg) :
    parse_event_keys msg e = (msg.drop 10, { e with subsystem := cstr (msg.drop 10) }) := by
  refine parse_event_keys_cases msg e
    (fun r => r = (msg.drop 10, { e with subsystem := cstr (msg.drop 10) }))
    ?_ ?_ ?_ ?_ ?_ ?_ ?_ ?_ ?_ ?_ ?_ ?_
    <;> intro h2
    <;> first
      | rfl
      | exact (keys_exclusive h h2 (by decide)).elim
      | exact (h2 _ (by decide) h).elim

theorem parse_event_keys_FIRMWARE (msg : List Char) (e : uevent)
    (h : "FIRMWARE=".toList <+: cstr msg) :
    parse_event_keys msg e = (msg.drop 9, { e with firmware := cstr (msg.drop 9) }) := by
  refine parse_event_keys_cases msg e
    (fun r => r = (msg.drop 9, { e with firmware := cstr (msg.drop 9) }))
    ?_ ?_ ?_ ?_ ?_ ?_ ?_ ?_ ?_ ?_ ?_ ?_
    <;> intro h2
    <;> first
      | rfl
      | exact (keys_exclusive h h2 (by decide)).elim
      | exact (h2 _ (by decide) h).elim

theorem parse_event_keys_MAJOR (msg : List Char) (e : uevent)
    (h : "MAJOR=".toList <+: cstr msg) :
    parse_event_keys msg e = (msg.drop 6, { e with major := atoi (msg.drop 6) }) := by
  refine parse_event_keys_cases msg e
    (fun r => r = (msg.drop 6, { e with major := atoi (msg.drop 6) }))
    ?_ ?_ ?_ ?_ ?_ ?_ ?_ ?_ ?_ ?_ ?_ ?_
    <;> intro h2
    <;> first
      | rfl
      | exact (keys_exclusive h h2 (by decide)).elim
      | exact (h2 _ (by decide) h).elim

theorem parse_event_keys_MINOR (msg : List Char) (e : uevent)
    (h : "MINOR=".toList <+: cstr msg) :
    parse_event_keys msg e = (msg.drop 6, { e with minor := atoi (msg.drop 6) }) := by
  refine parse_event_keys_cases msg e
    (fun r => r = (msg.drop 6, { e with minor := atoi (msg.drop 6) }))
    ?_ ?_ ?_ ?_ ?_ ?_ ?_ ?_ ?_ ?_ ?_ ?_
    <;> intro h2
    <;> first
      | rfl
      | exact (keys_exclusive h h2 (by decide)).elim
      | exact (h2 _ (by decide) h).elim

theorem parse_event_keys_PARTN (msg : List Char) (e : uevent)
    (h : "PARTN=".toList <+: cstr msg) :
    parse_event_keys msg e = (msg.drop 6, { e with partition_num := atoi (msg.drop 6) }) := by
  refine parse_event_keys_cases msg e
    (fun r => r = (msg.drop 6, { e with partition_num := atoi (msg.drop 6) }))
    ?_ ?_ ?_ ?_ ?_ ?_ ?_ ?_ ?_ ?_ ?_ ?_
    <;> intro h2
    <;> first
      | rfl
      | exact (keys_exclusive h h2 (by decide)).elim
      | exact (h2 _ (by decide) h).elim

theorem parse_event_keys_PARTNAME (msg : List Char) (e : uevent)
    (h : "PARTNAME=".toList <+: cstr msg) :
    parse_event_keys msg e = (msg.drop 9, { e with partition_name := some (cstr (msg.drop 9)) }) := by
  refine parse_event_keys_cases msg e
    (fun r => r = (msg.drop 9, { e with partition_name := some (cstr (msg.drop 9)) }))
    ?_ ?_ ?_ ?_ ?_ ?_ ?_ ?_ ?_ ?_ ?_ ?_
    <;> intro h2
    <;> first
      | rfl
      | exact (keys_exclusive h h2 (by decide)).elim
      | exact (h2 _ (by decide) h).elim

theorem parse_event_keys_DEVNAME (msg : List Char) (e : uevent)
    (h : "DEVNAME=".toList <+: cstr msg) :
    parse_event_keys msg e = (msg.drop 8, { e with device_name := some (cstr (msg.drop 8)) }) := by
  refine parse_event_keys_cases msg e
    (fun r => r = (msg.drop 8, { e with device_name := some (cstr (msg.drop 8)) }))
    ?_ ?_ ?_ ?_ ?_ ?_ ?_ ?_ ?_ ?_ ?_ ?_
    <;> intro h2
    <;> first
      | rfl
      | exact (keys_exclusive h h2 (by decide)).elim
      | exact (h2 _ (by decide) h).elim

theorem parse_event_keys_TYPE (msg : List Char) (e : uevent)
    (h : "TYPE=".toList <+: cstr msg) :
    parse_event_keys msg e = (msg.drop 5, { e with type := some (cstr (msg.drop 5)) }) := by
  refine parse_event_keys_cases msg e
    (fun r => r = (msg.drop 5, { e with type := some (cstr (msg.drop 5)) }))
    ?_ ?_ ?_ ?_ ?_ ?_ ?_ ?_ ?_ ?_ ?_ ?_
    <;> intro h2
    <;> first
      | rfl
      | exact (keys_exclusive h h2 (by decide)).elim
      | exact (h2 _ (by decide) h).elim

theorem parse_event_keys_MODALIAS (msg : List Char) (e : uevent)
    (h : "MODALIAS=".toList <+: cstr msg) :
    parse_event_keys msg e = (msg.drop 9, { e with modalias := some (cstr (msg.drop 9)) }) := by
  refine parse_event_keys_cases msg e
    (fun r => r = (msg.drop 9, { e with modalias := some (cstr (msg.drop 9)) }))
    ?_ ?_ ?_ ?_ ?_ ?_ ?_ ?_ ?_ ?_ ?_ ?_
    <;> intro h2
    <;> first
      | rfl
      | exact (keys_exclusive h h2 (by decide)).elim
      | exact (h2 _ (by decide) h).elim

theorem parse_event_keys_none (msg : List Char) (e : uevent)
    (h : ∀ k ∈ recognised_keys, ¬ k <+: cstr msg) :
    parse_event_keys msg e = (msg, e) := by
  refine parse_event_keys_cases msg e (fun r => r = (msg, e))
    ?_ ?_ ?_ ?_ ?_ ?_ ?_ ?_ ?_ ?_ ?_ ?_
    <;> intro h2
    <;> first
      | rfl
      | exact (h _ (by decide) h2).elim

/-- The chain reads only the C string at `msg`: the event it gives is the one
the token gives, and the inner loop ends where it would without the advance. -/
theorem parse_event_keys_cstr (msg : List Char) (e : uevent) :
    (parse_event_keys msg e).2 = apply_token e (cstr msg) ∧
    skip_past_nul (parse_event_keys msg e).1 = skip_past_nul msg := by
  have hd : ∀ (k : List Char), k <+: cstr msg →
      cstr ((cstr msg).drop k.length) = cstr (msg.drop k.length) ∧
      atoi ((cstr msg).drop k.length) = atoi (msg.drop k.length) ∧
      skip_past_nul (msg.drop k.length) = skip_past_nul msg := by
    intro k hp
    have hl : k.length ≤ (cstr msg).length := hp.length_le
    refine ⟨?_, ?_, skip_past_nul_drop hl⟩
    · rw [cstr_drop hl]
      exact cstr_of_nul_free (fun hx => nul_not_mem_cstr msg (List.mem_of_mem_drop hx))
    · rw [← atoi_cstr (msg.drop k.length), cstr_drop hl]
  unfold apply_token
  refine parse_event_keys_cases msg e
    (fun r => r.2 = (parse_event_keys (cstr msg) e).2 ∧ skip_past_nul r.1 = skip_past_nul msg)
    ?_ ?_ ?_ ?_ ?_ ?_ ?_ ?_ ?_ ?_ ?_ ?_
  · intro h
    obtain ⟨a, b, c⟩ := hd _ h
    rw [parse_event_keys_ACTION (cstr msg) e (by rw [cstr_cstr]; exact h)]
    exact ⟨by simpa using a.symm, c⟩
  · intro h
    obtain ⟨a, b, c⟩ := hd _ h
    rw [parse_event_keys_DEVPATH (cstr msg) e (by rw [cstr_cstr]; exact h)]
    exact ⟨by simpa using a.symm, c⟩
  · intro h
    obtain ⟨a, b, c⟩ := hd _ h
    rw [parse_event_keys_SUBSYSTEM (cstr msg) e (by rw [cstr_cstr]; exact h)]
    exact ⟨by simpa using a.symm, c⟩
  · intro h
    obtain ⟨a, b, c⟩ := hd _ h
    rw [parse_event_keys_FIRMWARE (cstr msg) e (by rw [cstr_cstr]; exact h)]
    exact ⟨by simpa using a.symm, c⟩
  · intro h
    obtain ⟨a, b, c⟩ := hd _ h
    rw [parse_event_keys_MAJOR (cstr msg) e (by rw [cstr_cstr]; exact h)]
    exact ⟨by simpa using b.symm, c⟩
  · intro h
    obtain ⟨a, b, c⟩ := hd _ h
    rw [parse_event_keys_MINOR (cstr msg) e (by rw [cstr_cstr]; exact h)]
    exact ⟨by simpa using b.symm, c⟩
  · intro h
    obtain ⟨a, b, c⟩ := hd _ h
    rw [parse_event_keys_PARTN (cstr msg) e (by rw [cstr_cstr]; exact h)]
    exact ⟨by simpa using b.symm, c⟩
  · intro h
    obtain ⟨a, b, c⟩ := hd _ h
    rw [parse_event_keys_PARTNAME (cstr msg) e (by rw [cstr_cstr]; exact h)]
    exact ⟨by simpa using a.symm, c⟩
  · intro h
    obtain ⟨a, b, c⟩ := hd _ h
    rw [parse_event_keys_DEVNAME (cstr msg) e (by rw [cstr_cstr]; exact h)]
    exact ⟨by simpa using a.symm, c⟩
  · intro h
    obtain ⟨a, b, c⟩ := hd _ h
    rw [parse_event_keys_TYPE (cstr msg) e (by rw [cstr_cstr]; exact h)]
    exact ⟨by simpa using a.symm, c⟩
  · intro h
    obtain ⟨a, b, c⟩ := hd _ h
    rw [parse_event_keys_MODALIAS (cstr msg) e (by rw [cstr_cstr]; exact h)]
    exact ⟨by simpa using a.symm, c⟩
  · intro h
    rw [parse_event_keys_none (cstr msg) e (by rw [cstr_cstr]; exact h)]
    exact ⟨rfl, rfl⟩

/-! ## What each kind of token does to the event -/

theorem apply_token_no_key (e : uevent) (t : List Char) (ht : NUL ∉ t) (h : no_key t) :
    apply_token e t = e := by
  unfold apply_token
  rw [parse_event_keys_none t e (by rw [cstr_of_nul_free ht]; exact h)]

theorem apply_token_ACTION (e : uevent) (v : List Char) (hv : NUL ∉ v) :
    apply_token e ("ACTION=".toList ++ v) = { e with action := v } := by
  have hk : NUL ∉ "ACTION=".toList := by decide
  have ht : cstr ("ACTION=".toList ++ v) = "ACTION=".toList ++ v :=
    cstr_of_nul_free (by simp only [List.mem_append, not_or]; exact ⟨hk, hv⟩)
  have hd : ("ACTION=".toList ++ v).drop 7 = v := List.drop_left' (by decide)
  unfold apply_token
  rw [parse_event_keys_ACTION _ e (by rw [ht]; exact List.prefix_append _ _), hd, cstr_of_nul_free hv]

theorem apply_token_DEVPATH (e : uevent) (v : List Char) (hv : NUL ∉ v) :
    apply_token e ("DEVPATH=".toList ++ v) = { e with path := v } := by
  have hk : NUL ∉ "DEVPATH=".toList := by decide
  have ht : cstr ("DEVPATH=".toList ++ v) = "DEVPATH=".toList ++ v :=
    cstr_of_nul_free (by simp only [List.mem_append, not_or]; exact ⟨hk, hv⟩)
  have hd : ("DEVPATH=".toList ++ v).drop 8 = v := List.drop_left' (by decide)
  unfold apply_token
  rw [parse_event_keys_DEVPATH _ e (by rw [ht]; exact List.prefix_append _ _), hd, cstr_of_nul_free hv]

theorem apply_token_SUBSYSTEM (e : uevent) (v : List Char) (hv : NUL ∉ v) :
    apply_token e ("SUBSYSTEM=".toList ++ v) = { e with subsystem := v } := by
  have hk : NUL ∉ "SUBSYSTEM=".toList := by decide
  have ht : cstr ("SUBSYSTEM=".toList ++ v) = "SUBSYSTEM=".toList ++ v :=
    cstr_of_nul_free (by simp only [List.mem_append, not_or]; exact ⟨hk, hv⟩)
  have hd : ("SUBSYSTEM=".toList ++ v).drop 10 = v := List.drop_left' (by decide)
  unfold apply_token
  rw [parse_event_keys_SUBSYSTEM _ e (by rw [ht]; exact List.prefix_append _ _), hd, cstr_of_nul_free hv]

theorem apply_token_FIRMWARE (e : uevent) (v : List Char) (hv : NUL ∉ v) :
    apply_token e ("FIRMWARE=".toList ++ v) = { e with firmware := v } := by
  have hk : NUL ∉ "FIRMWARE=".toList := by decide
  have ht : cstr ("FIRMWARE=".toList ++ v) = "FIRMWARE=".toList ++ v :=
    cstr_of_nul_free (by simp only [List.mem_append, not_or]; exact ⟨hk, hv⟩)
  have hd : ("FIRMWARE=".toList ++ v).drop 9 = v := List.drop_left' (by decide)
  unfold apply_token
  rw [parse_event_keys_FIRMWARE _ e (by rw [ht]; exact List.prefix_append _ _), hd, cstr_of_nul_free hv]

theorem apply_token_MAJOR (e : uevent) (v : List Char) (hv : NUL ∉ v) :
    apply_token e ("MAJOR=".toList ++ v) = { e with major := atoi v } := by
  have hk : NUL ∉ "MAJOR=".toList := by decide
  have ht : cstr ("MAJOR=".toList ++ v) = "MAJOR=".toList ++ v :=
    cstr_of_nul_free (by simp only [List.mem_append, not_or]; exact ⟨hk, hv⟩)
  have hd : ("MAJOR=".toList ++ v).drop 6 = v := List.drop_left' (by decide)
  unfold apply_token
  rw [parse_event_keys_MAJOR _ e (by rw [ht]; exact List.prefix_append _ _), hd]

theorem apply_token_MINOR (e : uevent) (v : List Char) (hv : NUL ∉ v) :
    apply_token e ("MINOR=".toList ++ v) = { e with minor := atoi v } := by
  have hk : NUL ∉ "MINOR=".toList := by decide
  have ht : cstr ("MINOR=".toList ++ v) = "MINOR=".toList ++ v :=
    cstr_of_nul_free (by simp only [List.mem_append, not_or]; exact ⟨hk, hv⟩)
  have hd : ("MINOR=".toList ++ v).drop 6 = v := List.drop_left' (by decide)
  unfold apply_token
  rw [parse_event_keys_MINOR _ e (by rw [ht]; exact List.prefix_append _ _), hd]

theorem apply_token_PARTN (e : uevent) (v : List Char) (hv : NUL ∉ v) :
    apply_token e ("PARTN=".toList ++ v) = { e with partition_num := atoi v } := by
  have hk : NUL ∉ "PARTN=".toList := by decide
  have ht : cstr ("PARTN=".toList ++ v) = "PARTN=".toList ++ v :=
    cstr_of_nul_free (by simp only [List.mem_append, not_or]; exact ⟨hk, hv⟩)
  have hd : ("PARTN=".toList ++ v).drop 6 = v := List.drop_left' (by decide)
  unfold apply_token
  rw [parse_event_keys_PARTN _ e (by rw [ht]; exact List.prefix_append _ _), hd]

theorem apply_token_PARTNAME (e : uevent) (v : List Char) (hv : NUL ∉ v) :
    apply_token e ("PARTNAME=".toList ++ v) = { e with partition_name := some v } := by
  have hk : NUL ∉ "PARTNAME=".toList := by decide
  have ht : cstr ("PARTNAME=".toList ++ v) = "PARTNAME=".toList ++ v :=
    cstr_of_nul_free (by simp only [List.mem_append, not_or]; exact ⟨hk, hv⟩)
  have hd : ("PARTNAME=".toList ++ v).drop 9 = v := List.drop_left' (by decide)
  unfold apply_token
  rw [parse_event_keys_PARTNAME _ e (by rw [ht]; exact List.prefix_append _ _), hd, cstr_of_nul_free hv]

theorem apply_token_DEVNAME (e : uevent) (v : List Char) (hv : NUL ∉ v) :
    apply_token e ("DEVNAME=".toList ++ v) = { e with device_name := some v } := by
  have hk : NUL ∉ "DEVNAME=".toList := by decide
  have ht : cstr ("DEVNAME=".toList ++ v) = "DEVNAME=".toList ++ v :=
    cstr_of_nul_free (by simp only [List.mem_append, not_or]; exact ⟨hk, hv⟩)
  have hd : ("DEVNAME=".toList ++ v).drop 8 = v := List.drop_left' (by decide)
  unfold apply_token
  rw [parse_event_keys_DEVNAME _ e (by rw [ht]; exact List.prefix_append _ _), hd, cstr_of_nul_free hv]

theorem apply_token_TYPE (e : uevent) (v : List Char) (hv : NUL ∉ v) :
    apply_token e ("TYPE=".toList ++ v) = { e with type := some v } := by
  have hk : NUL ∉ "TYPE=".toList := by decide
  have ht : cstr ("TYPE=".toList ++ v) = "TYPE=".toList ++ v :=
    cstr_of_nul_free (by simp only [List.mem_append, not_or]; exact ⟨hk, hv⟩)
  have hd : ("TYPE=".toList ++ v).drop 5 = v := List.drop_left' (by decide)
  unfold apply_token
  rw [parse_event_keys_TYPE _ e (by rw [ht]; exact List.prefix_append _ _), hd, cstr_of_nul_free hv]

theorem apply_token_MODALIAS (e : uevent) (v : List Char) (hv : NUL ∉ v) :
    apply_token e ("MODALIAS=".toList ++ v) = { e with modalias := some v } := by
  have hk : NUL ∉ "MODALIAS=".toList := by decide
  have ht : cstr ("MODALIAS=".toList ++ v) = "MODALIAS=".toList ++ v :=
    cstr_of_nul_free (by simp only [List.mem_append, not_or]; exact ⟨hk, hv⟩)
  have hd : ("MODALIAS=".toList ++ v).drop 9 = v := List.drop_left' (by decide)
  unfold apply_token
  rw [parse_event_keys_MODALIAS _ e (by rw [ht]; exact List.prefix_append _ _), hd, cstr_of_nul_free hv]

theorem apply_token_frame_action (e : uevent) (t : List Char)
    (h : ¬ "ACTION=".toList <+: cstr t) : (apply_token e t).action = e.action := by
  unfold apply_token
  refine parse_event_keys_cases t e (fun r => r.2.action = e.action) ?_ ?_ ?_ ?_ ?_ ?_ ?_ ?_ ?_ ?_ ?_ ?_
    <;> intro h2
    <;> first
      | rfl
      | exact (h h2).elim

theorem apply_token_frame_path (e : uevent) (t : List Char)
    (h : ¬ "DEVPATH=".toList <+: cstr t) : (apply_token e t).path = e.path := by
  unfold apply_token
  refine parse_event_keys_cases t e (fun r => r.2.path = e.path) ?_ ?_ ?_ ?_ ?_ ?_ ?_ ?_ ?_ ?_ ?_ ?_
    <;> intro h2
    <;> first
      | rfl
      | exact (h h2).elim

theorem apply_token_frame_subsystem (e : uevent) (t : List Char)
    (h : ¬ "SUBSYSTEM=".toList <+: cstr t) : (apply_token e t).subsystem = e.subsystem := by
  unfold apply_token
  refine parse_event_keys_cases t e (fun r => r.2.subsystem = e.subsystem) ?_ ?_ ?_ ?_ ?_ ?_ ?_ ?_ ?_ ?_ ?_ ?_
    <;> intro h2
    <;> first
      | rfl
      | exact (h h2).elim

theorem apply_token_frame_firmware (e : uevent) (t : List Char)
    (h : ¬ "FIRMWARE=".toList <+: cstr t) : (apply_token e t).firmware = e.firmware := by
  unfold apply_token
  refine parse_event_keys_cases t e (fun r => r.2.firmware = e.firmware) ?_ ?_ ?_ ?_ ?_ ?_ ?_ ?_ ?_ ?_ ?_ ?_
    <;> intro h2
    <;> first
      | rfl
      | exact (h h2).elim

theorem apply_token_frame_major (e : uevent) (t : List Char)
    (h : ¬ "MAJOR=".toList <+: cstr t) : (apply_token e t).major = e.major := by
  unfold apply_token
  refine parse_event_keys_cases t e (fun r => r.2.major = e.major) ?_ ?_ ?_ ?_ ?_ ?_ ?_ ?_ ?_ ?_ ?_ ?_
    <;> intro h2
    <;> first
      | rfl
      | exact (h h2).elim

theorem apply_token_frame_minor (e : uevent) (t : List Char)
    (h : ¬ "MINOR=".toList <+: cstr t) : (apply_token e t).minor = e.minor := by
  unfold apply_token
  refine parse_event_keys_cases t e (fun r => r.2.minor = e.minor) ?_ ?_ ?_ ?_ ?_ ?_ ?_ ?_ ?_ ?_ ?_ ?_
    <;> intro h2
    <;> first
      | rfl
      | exact (h h2).elim

theorem apply_token_frame_partition_num (e : uevent) (t : List Char)
    (h : ¬ "PARTN=".toList <+: cstr t) : (apply_token e t).partition_num = e.partition_num := by
  unfold apply_token
  refine parse_event_keys_cases t e (fun r => r.2.partition_num = e.partition_num) ?_ ?_ ?_ ?_ ?_ ?_ ?_ ?_ ?_ ?_ ?_ ?_
    <;> intro h2
    <;> first
      | rfl
      | exact (h h2).elim

theorem apply_token_frame_partition_name (e : uevent) (t : List Char)
    (h : ¬ "PARTNAME=".toList <+: cstr t) : (apply_token e t).partition_name = e.partition_name := by
  unfold apply_token
  refine parse_event_keys_cases t e (fun r => r.2.partition_name = e.partition_name) ?_ ?_ ?_ ?_ ?_ ?_ ?_ ?_ ?_ ?_ ?_ ?_
    <;> intro h2
    <;> first
      | rfl
      | exact (h h2).elim

theorem apply_token_frame_device_name (e : uevent) (t : List Char)
    (h : ¬ "DEVNAME=".toList <+: cstr t) : (apply_token e t).device_name = e.device_name := by
  unfold apply_token
  refine parse_event_keys_cases t e (fun r => r.2.device_name = e.device_name) ?_ ?_ ?_ ?_ ?_ ?_ ?_ ?_ ?_ ?_ ?_ ?_
    <;> intro h2
    <;> first
      | rfl
      | exact (h h2).elim

theorem apply_token_frame_type (e : uevent) (t : List Char)
    (h : ¬ "TYPE=".toList <+: cstr t) : (apply_token e t).type = e.type := by
  unfold apply_token
  refine parse_event_keys_cases t e (fun r => r.2.type = e.type) ?_ ?_ ?_ ?_ ?_ ?_ ?_ ?_ ?_ ?_ ?_ ?_
    <;> intro h2
    <;> first
      | rfl
      | exact (h h2).elim

theorem apply_token_frame_modalias (e : uevent) (t : List Char)
    (h : ¬ "MODALIAS=".toList <+: cstr t) : (apply_token e t).modalias = e.modalias := by
  unfold apply_token
  refine parse_event_keys_cases t e (fun r => r.2.modalias = e.modalias) ?_ ?_ ?_ ?_ ?_ ?_ ?_ ?_ ?_ ?_ ?_ ?_
    <;> intro h2
    <;> first
      | rfl
      | exact (h h2).elim

/-! ## The loop of `parse_event` as a fold over the tokens it visits -/

theorem split_nul_of_nul_free {t : List Char} (h : NUL ∉ t) : split_nul t = [t] := by
  induction t with
  | nil => rfl
  | cons c cs ih =>
    have hc : c ≠ NUL := fun hc => h (by rw [hc]; exact List.mem_cons_self _ _)
    have hcs : NUL ∉ cs := fun hx => h (List.mem_cons_of_mem _ hx)
    simp [split_nul, hc, ih hcs]

theorem split_nul_append {t : List Char} (h : NUL ∉ t) (r : List Char) :
    split_nul (t ++ NUL :: r) = t :: split_nul r := by
  induction t with
  | nil => simp [split_nul]
  | cons c cs ih =>
    have hc : c ≠ NUL := fun hc => h (by rw [hc]; exact List.mem_cons_self _ _)
    have hcs : NUL ∉ cs := fun hx => h (List.mem_cons_of_mem _ hx)
    simp [split_nul, hc, ih hcs]

theorem scanned_tokens_nil : scanned_tokens [] = [] := rfl

theorem scanned_tokens_nul (r : List Char) : scanned_tokens (NUL :: r) = [] := by
  simp [scanned_tokens, split_nul]

/-- The first token visited is the C string at the pointer, and the scan goes
on after its `NUL`. -/
theorem scanned_tokens_step (c : Char) (cs : List Char) (hc : c ≠ NUL) :
    scanned_tokens (c :: cs) =
      cstr (c :: cs) :: scanned_tokens (skip_past_nul (c :: cs)) := by
  have hne : cstr (c :: cs) ≠ [] := by simp [cstr, hc]
  rcases cstr_decompose (c :: cs) with hm | ⟨r, hm⟩
  · have hf : NUL ∉ c :: cs := by rw [hm]; exact nul_not_mem_cstr _
    rw [skip_past_nul_of_nul_free hf, scanned_tokens_nil, cstr_of_nul_free hf]
    unfold scanned_tokens
    rw [split_nul_of_nul_free hf]
    simp
  · have hs : skip_past_nul (c :: cs) = r := by
      conv_lhs => rw [hm]
      exact skip_past_nul_append (nul_not_mem_cstr _) r
    rw [hs]
    unfold scanned_tokens
    conv_lhs => rw [hm]
    rw [split_nul_append (nul_not_mem_cstr _)]
    rw [List.takeWhile_cons_of_pos]
    simpa using hne

theorem skip_past_nul_length (m : List Char) : (skip_past_nul m).length ≤ m.length := by
  unfold skip_past_nul
  have h1 : (m.dropWhile (fun c => c != NUL)).length ≤ m.length :=
    (List.dropWhile_sublist _).length_le
  rw [List.length_drop]
  omega

theorem skip_past_nul_cons (c : Char) (cs : List Char) (hc : c ≠ NUL) :
    skip_past_nul (c :: cs) = skip_past_nul cs := by
  simp [skip_past_nul, hc]

/-- With enough iterations allowed, the loop folds `apply_token` over the
tokens before the first empty one. -/
theorem parse_event_loop_eq (k : Nat) : ∀ (msg : List Char) (e : uevent),
    msg.length ≤ k →
    parse_event_loop k msg e = (scanned_tokens msg).foldl apply_token e := by
  induction k with
  | zero =>
    intro msg e h
    have : msg = [] := List.length_eq_zero.1 (Nat.le_zero.1 h)
    subst this
    rfl
  | succ k ih =>
    intro msg e h
    cases msg with
    | nil => rfl
    | cons c cs =>
      by_cases hc : c = NUL
      · subst hc
        rw [scanned_tokens_nul]
        simp [parse_event_loop]
      · obtain ⟨h1, h2⟩ := parse_event_keys_cstr (c :: cs) e
        have hl : (skip_past_nul (c :: cs)).length ≤ k := by
          rw [skip_past_nul_cons c cs hc]
          have := skip_past_nul_length cs
          simp only [List.length_cons] at h
          omega
        rw [scanned_tokens_step c cs hc, List.foldl_cons, ← ih _ _ hl]
        simp only [parse_event_loop, hc, if_false]
        rw [h1, h2]

/-- The bound used by `parse_event` is enough: allowing more iterations gives
the same event. -/
theorem parse_event_loop_stable (k : Nat) (msg : List Char) (e : uevent)
    (h : msg.length ≤ k) :
    parse_event_loop k msg e = parse_event_loop msg.length msg e := by
  rw [parse_event_loop_eq k msg e h, parse_event_loop_eq msg.length msg e (le_refl _)]

theorem parse_event_eq_fold (msg : List Char) :
    parse_event msg = (scanned_tokens msg).foldl apply_token uevent_init :=
  parse_event_loop_eq msg.length msg uevent_init (le_refl _)

/-- The tokens of a buffer are free of `NUL`. -/
theorem nul_not_mem_of_mem_split_nul : ∀ (msg : List Char) (t : List Char),
    t ∈ split_nul msg → NUL ∉ t := by
  intro msg
  induction msg with
  | nil =>
    intro t ht
    simp only [split_nul, List.mem_singleton] at ht
    subst ht
    exact List.not_mem_nil _
  | cons c cs ih =>
    intro t ht
    by_cases hc : c = NUL
    · simp only [split_nul, hc, if_true, List.mem_cons] at ht
      rcases ht with rfl | ht
      · exact List.not_mem_nil _
      · exact ih t ht
    · simp only [split_nul, hc, if_false] at ht
      cases hs : split_nul cs with
      | nil =>
        rw [hs] at ht
        simp only [List.mem_singleton] at ht
        subst ht
        simpa using fun h => hc h.symm
      | cons t0 ts =>
        rw [hs] at ht
        simp only [List.mem_cons] at ht
        rcases ht with rfl | ht
        · have h0 : NUL ∉ t0 := ih t0 (by rw [hs]; exact List.mem_cons_self _ _)
          simp only [List.mem_cons, not_or]
          exact ⟨fun h => hc h.symm, h0⟩
        · exact ih t (by rw [hs]; exact List.mem_cons_of_mem _ ht)

theorem mem_split_nul_of_mem_scanned {msg t : List Char} (h : t ∈ scanned_tokens msg) :
    t ∈ split_nul msg :=
  (List.takeWhile_sublist _).subset h

/-- A buffer that starts with a message on the wire, whatever follows it: the
tokens visited are the tokens of the message. -/
theorem scanned_tokens_wire (toks : List (List Char)) (rest : List Char)
    (h : ∀ t ∈ toks, t ≠ [] ∧ NUL ∉ t) :
    scanned_tokens (wire toks ++ rest) = toks := by
  induction toks with
  | nil => simp [wire, scanned_tokens, split_nul]
  | cons t ts ih =>
    obtain ⟨hne, hf⟩ := h t (List.mem_cons_self _ _)
    have ih2 := ih (fun x hx => h x (List.mem_cons_of_mem _ hx))
    have e1 : wire (t :: ts) ++ rest = t ++ NUL :: (wire ts ++ rest) := by
      simp [wire]
    unfold scanned_tokens at ih2 ⊢
    rw [e1, split_nul_append hf, List.takeWhile_cons_of_pos (by simpa using hne), ih2]

theorem parse_event_wire (toks : List (List Char)) (rest : List Char)
    (h : ∀ t ∈ toks, t ≠ [] ∧ NUL ∉ t) :
    parse_event (wire toks ++ rest) = toks.foldl apply_token uevent_init := by
  rw [parse_event_eq_fold, scanned_tokens_wire toks rest h]

/-! ## Folding tokens: fields whose key no token carries keep their value -/

theorem foldl_apply_token_frame {α : Type} (f : uevent → α) (key : List Char)
    (hframe : ∀ e t, ¬ key <+: cstr t → f (apply_token e t) = f e) :
    ∀ (toks : List (List Char)) (e : uevent),
      (∀ t ∈ toks, ¬ key <+: cstr t) → f (toks.foldl apply_token e) = f e := by
  intro toks
  induction toks with
  | nil => intro e _; rfl
  | cons t ts ih =>
    intro e h
    rw [List.foldl_cons, ih _ (fun x hx => h x (List.mem_cons_of_mem _ hx))]
    exact hframe e t (h t (List.mem_cons_self _ _))

/-- A field keeps the value `parse_event` starts with when its key begins no
token of the buffer. -/
theorem parse_event_keeps_initial {α : Type} (f : uevent → α) (key : List Char)
    (hframe : ∀ e t, ¬ key <+: cstr t → f (apply_token e t) = f e)
    (msg : List Char) (h : ∀ t ∈ split_nul msg, ¬ key <+: t) :
    f (parse_event msg) = f uevent_init := by
  rw [parse_event_eq_fold]
  apply foldl_apply_token_frame f key hframe
  intro t ht
  have hm := mem_split_nul_of_mem_scanned ht
  rw [cstr_of_nul_free (nul_not_mem_of_mem_split_nul msg t hm)]
  exact h t hm

theorem foldl_apply_token_insert (toks1 toks2 : List (List Char)) (t : List Char)
    (e : uevent) (ht : NUL ∉ t) (hk : no_key t) :
    (toks1 ++ t :: toks2).foldl apply_token e = (toks1 ++ toks2).foldl apply_token e := by
  rw [List.foldl_append, List.foldl_append, List.foldl_cons, apply_token_no_key _ t ht hk]

theorem well_formed_insert {toks1 toks2 : List (List Char)} {t : List Char}
    (h1 : well_formed toks1) (h2 : well_formed toks2) (ht : t ≠ []) (htn : NUL ∉ t) :
    well_formed (toks1 ++ t :: toks2) := by
  intro x hx
  simp only [List.mem_append, List.mem_cons] at hx
  rcases hx with hx | rfl | hx
  · exact h1 x hx
  · exact ⟨ht, htn⟩
  · exact h2 x hx

theorem well_formed_append {toks1 toks2 : List (List Char)}
    (h1 : well_formed toks1) (h2 : well_formed toks2) : well_formed (toks1 ++ toks2) := by
  intro x hx
  simp only [List.mem_append] at hx
  rcases hx with hx | hx
  · exact h1 x hx
  · exact h2 x hx

theorem well_formed_cons {toks : List (List Char)} {t : List Char}
    (ht : t ≠ []) (htn : NUL ∉ t) (h : well_formed toks) : well_formed (t :: toks) := by
  intro x hx
  simp only [List.mem_cons] at hx
  rcases hx with rfl | hx
  · exact ⟨ht, htn⟩
  · exact h x hx

/-! ## Properties of the parser -/

/-- C2. Parser defaults: for every buffer, each of the string fields action,
path, subsystem and firmware whose key (`ACTION=`, `DEVPATH=`, `SUBSYSTEM=`,
`FIRMWARE=`) begins no token of the buffer is the empty string after
`parse_event`, and each of the numeric fields major, minor and partition number
whose key (`MAJOR=`, `MINOR=`, `PARTN=`) begins no token is `-1`. -/
theorem parse_event_defaults (msg : List Char) :
    ((∀ t ∈ split_nul msg, ¬ "ACTION=".toList <+: t) → (parse_event msg).action = []) ∧
    ((∀ t ∈ split_nul msg, ¬ "DEVPATH=".toList <+: t) → (parse_event msg).path = []) ∧
    ((∀ t ∈ split_nul msg, ¬ "SUBSYSTEM=".toList <+: t) → (parse_event msg).subsystem = []) ∧
    ((∀ t ∈ split_nul msg, ¬ "FIRMWARE=".toList <+: t) → (parse_event msg).firmware = []) ∧
    ((∀ t ∈ split_nul msg, ¬ "MAJOR=".toList <+: t) → (parse_event msg).major = -1) ∧
    ((∀ t ∈ split_nul msg, ¬ "MINOR=".toList <+: t) → (parse_event msg).minor = -1) ∧
    ((∀ t ∈ split_nul msg, ¬ "PARTN=".toList <+: t) → (parse_event msg).partition_num = -1) :=
  ⟨parse_event_keeps_initial (fun e => e.action) _ apply_token_frame_action msg,
   parse_event_keeps_initial (fun e => e.path) _ apply_token_frame_path msg,
   parse_event_keeps_initial (fun e => e.subsystem) _ apply_token_frame_subsystem msg,
   parse_event_keeps_initial (fun e => e.firmware) _ apply_token_frame_firmware msg,
   parse_event_keeps_initial (fun e => e.major) _ apply_token_frame_major msg,
   parse_event_keeps_initial (fun e => e.minor) _ apply_token_frame_minor msg,
   parse_event_keeps_initial (fun e => e.partition_num) _ apply_token_frame_partition_num msg⟩

/-- C2 at the message `add@/x NUL SUBSYSTEM=block NUL MINOR=3 NUL NUL`: no
token begins with `ACTION=` or `MAJOR=`, so the action is empty and the major
number is `-1`. -/
theorem parse_event_defaults_witness :
    (∀ t ∈ split_nul (wire ["add@/x".toList, "SUBSYSTEM=block".toList, "MINOR=3".toList]),
        ¬ "ACTION=".toList <+: t) ∧
    (∀ t ∈ split_nul (wire ["add@/x".toList, "SUBSYSTEM=block".toList, "MINOR=3".toList]),
        ¬ "MAJOR=".toList <+: t) ∧
    (parse_event (wire ["add@/x".toList, "SUBSYSTEM=block".toList, "MINOR=3".toList])).action
      = [] ∧
    (parse_event (wire ["add@/x".toList, "SUBSYSTEM=block".toList, "MINOR=3".toList])).major
      = -1 :=
  ⟨by decide, by decide,
   (parse_event_defaults
      (wire ["add@/x".toList, "SUBSYSTEM=block".toList, "MINOR=3".toList])).1 (by decide),
   (parse_event_defaults
      (wire ["add@/x".toList, "SUBSYSTEM=block".toList, "MINOR=3".toList])).2.2.2.2.1
        (by decide)⟩

/-- C3. Unknown keys are skipped: for every message made of non-empty
`NUL`-terminated tokens, inserting at any position a non-empty token that
begins with none of the eleven recognised keys changes no field of the event
`parse_event` produces (`rest` is what follows the message in the buffer). -/
theorem parse_event_unknown_key_skipped (toks1 toks2 : List (List Char))
    (t rest : List Char)
    (h1 : well_formed toks1) (h2 : well_formed toks2)
    (ht : t ≠ []) (htn : NUL ∉ t) (hk : no_key t) :
    parse_event (wire (toks1 ++ t :: toks2) ++ rest)
      = parse_event (wire (toks1 ++ toks2) ++ rest) := by
  rw [parse_event_wire _ rest (well_formed_insert h1 h2 ht htn),
    parse_event_wire _ rest (well_formed_append h1 h2)]
  exact foldl_apply_token_insert toks1 toks2 t uevent_init htn hk

/-- C3 at `SEQNUM=42` inserted between `add@/x` and `ACTION=add`. -/
theorem parse_event_unknown_key_skipped_witness :
    parse_event (wire (["add@/x".toList] ++ "SEQNUM=42".toList :: ["ACTION=add".toList])
        ++ [NUL])
      = parse_event (wire (["add@/x".toList] ++ ["ACTION=add".toList]) ++ [NUL]) :=
  parse_event_unknown_key_skipped ["add@/x".toList] ["ACTION=add".toList]
    "SEQNUM=42".toList [NUL] (by decide) (by decide) (by decide) (by decide) (by decide)

/-- C4 fails as stated: the first token is compared with the keys like every
other one.  Replacing the first token `add@/d` by `ACTION=x` changes the action
from the empty string to `x`. -/
theorem parse_event_first_token_is_parsed :
    (parse_event (wire ["add@/d".toList, "DEVPATH=/d".toList] ++ [NUL])).action = [] ∧
    (parse_event (wire ["ACTION=x".toList, "DEVPATH=/d".toList] ++ [NUL])).action
      = "x".toList ∧
    parse_event (wire ["ACTION=x".toList, "DEVPATH=/d".toList] ++ [NUL])
      ≠ parse_event (wire ["add@/d".toList, "DEVPATH=/d".toList] ++ [NUL]) := by
  decide

/-- C4, amended. A first token that begins with none of the recognised keys is
skipped: for every message, replacing such a first token by any other
non-empty `NUL`-free token that begins with none of the recognised keys leaves
every field of the event `parse_event` produces unchanged. -/
theorem parse_event_first_token_skipped (first first2 : List Char)
    (toks : List (List Char)) (rest : List Char)
    (h : well_formed toks)
    (h1 : first ≠ []) (h1n : NUL ∉ first) (h1k : no_key first)
    (h2 : first2 ≠ []) (h2n : NUL ∉ first2) (h2k : no_key first2) :
    parse_event (wire (first2 :: toks) ++ rest) = parse_event (wire (first :: toks) ++ rest) := by
  rw [parse_event_wire _ rest (well_formed_cons h1 h1n h),
    parse_event_wire _ rest (well_formed_cons h2 h2n h),
    List.foldl_cons, List.foldl_cons,
    apply_token_no_key _ first h1n h1k, apply_token_no_key _ first2 h2n h2k]

/-- C4, amended, at `add@/d` replaced by `change@/other`. -/
theorem parse_event_first_token_skipped_witness :
    parse_event (wire ("change@/other".toList :: ["ACTION=add".toList, "MAJOR=7".toList])
        ++ [NUL])
      = parse_event (wire ("add@/d".toList :: ["ACTION=add".toList, "MAJOR=7".toList])
        ++ [NUL]) :=
  parse_event_first_token_skipped "add@/d".toList "change@/other".toList
    ["ACTION=add".toList, "MAJOR=7".toList] [NUL]
    (by decide) (by decide) (by decide) (by decide) (by decide) (by decide) (by decide)

/-! ## `atoi` reads back what `%d` prints -/

theorem digit_char_facts (d : Nat) (h : d < 10) :
    (digit_char d).toNat = 48 + d ∧ isdigit (digit_char d) = true ∧
    isspace (digit_char d) = false ∧ digit_char d ≠ Char.ofNat 45 ∧
    digit_char d ≠ Char.ofNat 43 ∧ digit_char d ≠ NUL := by
  interval_cases d <;> decide

/-- The digits printed are digits, there is at least one, and they read back
as the number. -/
theorem decimal_digits_spec (k : Nat) : ∀ n, n < k →
    (∀ c ∈ decimal_digits k n, isdigit c = true) ∧ decimal_digits k n ≠ [] ∧
    (decimal_digits k n).foldl (fun a c => a * 10 + (c.toNat - 48)) 0 = n := by
  induction k with
  | zero => intro n h; omega
  | succ k ih =>
    intro n h
    by_cases hn : n < 10
    · obtain ⟨f1, f2, -⟩ := digit_char_facts n hn
      simp only [decimal_digits, hn, if_true]
      refine ⟨?_, by simp, ?_⟩
      · intro c hc
        simp only [List.mem_singleton] at hc
        rw [hc]; exact f2
      · simp only [List.foldl_cons, List.foldl_nil, f1]
        omega
    · have hlt : n / 10 < k := by omega
      obtain ⟨i1, i2, i3⟩ := ih (n / 10) hlt
      obtain ⟨f1, f2, -⟩ := digit_char_facts (n % 10) (Nat.mod_lt _ (by decide))
      simp only [decimal_digits, hn, if_false]
      refine ⟨?_, by simp, ?_⟩
      · intro c hc
        simp only [List.mem_append, List.mem_singleton] at hc
        rcases hc with hc | hc
        · exact i1 c hc
        · rw [hc]; exact f2
      · rw [List.foldl_append, i3]
        simp only [List.foldl_cons, List.foldl_nil, f1]
        omega

theorem digits_value_of_digits {ds : List Char} (h : ∀ c ∈ ds, isdigit c = true) :
    digits_value ds = ds.foldl (fun a c => a * 10 + (c.toNat - 48)) 0 := by
  unfold digits_value
  rw [List.takeWhile_eq_self_iff.2 h]

theorem isdigit_facts (c : Char) (h : isdigit c = true) :
    isspace c = false ∧ c ≠ Char.ofNat 45 ∧ c ≠ Char.ofNat 43 ∧ c ≠ NUL := by
  have h1 : 48 ≤ c.toNat := by
    simp only [isdigit, Bool.and_eq_true, decide_eq_true_eq] at h; exact h.1
  refine ⟨?_, ?_, ?_, ?_⟩
  · simp only [isspace, Bool.or_eq_false_iff, beq_eq_false_iff_ne, ne_eq,
      Bool.and_eq_false_imp, decide_eq_true_eq, decide_eq_false_iff_not]
    refine ⟨?_, fun _ => by omega⟩
    rintro rfl
    revert h1; decide
  · rintro rfl; revert h1; decide
  · rintro rfl; revert h1; decide
  · rintro rfl; revert h1; decide

theorem nul_not_mem_decimal_digits (k n : Nat) (h : n < k) : NUL ∉ decimal_digits k n := by
  intro hx
  exact (isdigit_facts NUL ((decimal_digits_spec k n h).1 NUL hx)).2.2.2 rfl

theorem nul_not_mem_decimal (i : Int) : NUL ∉ decimal i := by
  have h := nul_not_mem_decimal_digits (i.natAbs + 1) i.natAbs (Nat.lt_succ_self _)
  unfold decimal
  split_ifs
  · simp only [List.mem_cons, not_or]
    exact ⟨by decide, h⟩
  · exact h

theorem atoi_of_signed_value (p : List Char) (x : Int)
    (h1 : signed_value (p.dropWhile isspace) = x) (h2 : is_int x) : atoi p = x := by
  obtain ⟨lo, hi⟩ := h2
  unfold atoi
  simp only [h1]
  rw [if_neg (not_lt.2 lo), if_neg (not_lt.2 hi)]

/-- For every value of type `int`, `atoi` of its decimal form is the value. -/
theorem atoi_decimal (i : Int) (h : is_int i) : atoi (decimal i) = i := by
  obtain ⟨d1, d2, d3⟩ := decimal_digits_spec (i.natAbs + 1) i.natAbs (Nat.lt_succ_self _)
  have hv := digits_value_of_digits d1
  rw [d3] at hv
  apply atoi_of_signed_value _ _ _ h
  by_cases hneg : i < 0
  · have hs : ¬ isspace (Char.ofNat 45) = true := by decide
    simp only [decimal, hneg, if_true]
    rw [List.dropWhile_cons_of_neg hs]
    simp only [signed_value, if_true, hv]
    omega
  · cases hds : decimal_digits (i.natAbs + 1) i.natAbs with
    | nil => exact (d2 hds).elim
    | cons c r =>
      rw [hds] at d1 hv
      obtain ⟨g1, g2, g3, -⟩ := isdigit_facts c (d1 c (List.mem_cons_self _ _))
      simp only [decimal, hneg, if_false, hds]
      rw [List.dropWhile_cons_of_neg (by simp [g1])]
      simp only [signed_value, g2, g3, if_false, hv]
      omega

/-! ## The round trip -/

theorem well_formed_key_token (key v : List Char) (hk : NUL ∉ key) (hne : key ≠ [])
    (hv : NUL ∉ v) : key ++ v ≠ [] ∧ NUL ∉ key ++ v := by
  refine ⟨by simp [hne], ?_⟩
  simp only [List.mem_append, not_or]
  exact ⟨hk, hv⟩

theorem well_formed_optional_token (key : List Char) (o : Option (List Char))
    (hk : NUL ∉ key) (hne : key ≠ []) (ho : ∀ v, o = some v → NUL ∉ v) :
    well_formed (optional_token key o) := by
  cases o with
  | none => intro x hx; simp [optional_token] at hx
  | some v =>
    intro x hx
    simp only [optional_token, List.mem_singleton] at hx
    subst hx
    exact well_formed_key_token key v hk hne (ho v rfl)

theorem well_formed_serialize (e : uevent) (hn : nul_free e) : well_formed (serialize e) := by
  obtain ⟨h1, h2, h3, h4, h5, h6, h7, h8⟩ := hn
  have hat : NUL ∉ "@".toList := by decide
  unfold serialize
  refine well_formed_append (well_formed_append (well_formed_append (well_formed_append ?_
    (well_formed_optional_token _ _ (by decide) (by decide) h5))
    (well_formed_optional_token _ _ (by decide) (by decide) h6))
    (well_formed_optional_token _ _ (by decide) (by decide) h8))
    (well_formed_optional_token _ _ (by decide) (by decide) h7)
  intro x hx
  simp only [List.mem_cons, List.mem_singleton, List.not_mem_nil, or_false] at hx
  rcases hx with rfl | rfl | rfl | rfl | rfl | rfl | rfl | rfl
  · refine ⟨by simp [lead_token], ?_⟩
    simp only [lead_token, List.mem_append, not_or]
    exact ⟨⟨h1, hat⟩, h2⟩
  · exact well_formed_key_token _ _ (by decide) (by decide) h1
  · exact well_formed_key_token _ _ (by decide) (by decide) h2
  · exact well_formed_key_token _ _ (by decide) (by decide) h3
  · exact well_formed_key_token _ _ (by decide) (by decide) h4
  · exact well_formed_key_token _ _ (by decide) (by decide) (nul_not_mem_decimal _)
  · exact well_formed_key_token _ _ (by decide) (by decide) (nul_not_mem_decimal _)
  · exact well_formed_key_token _ _ (by decide) (by decide) (nul_not_mem_decimal _)

theorem foldl_optional_PARTNAME (x : uevent) (o : Option (List Char))
    (hn : ∀ v, o = some v → NUL ∉ v) (hx : o = none → x.partition_name = none) :
    (optional_token "PARTNAME=".toList o).foldl apply_token x = { x with partition_name := o } := by
  cases o with
  | none =>
    have h := hx rfl
    cases x
    simp only at h
    simp only [optional_token, List.foldl_nil, h]
  | some v =>
    simp only [optional_token, List.foldl_cons, List.foldl_nil]
    exact apply_token_PARTNAME x v (hn v rfl)

theorem foldl_optional_DEVNAME (x : uevent) (o : Option (List Char))
    (hn : ∀ v, o = some v → NUL ∉ v) (hx : o = none → x.device_name = none) :
    (optional_token "DEVNAME=".toList o).foldl apply_token x = { x with device_name := o } := by
  cases o with
  | none =>
    have h := hx rfl
    cases x
    simp only at h
    simp only [optional_token, List.foldl_nil, h]
  | some v =>
    simp only [optional_token, List.foldl_cons, List.foldl_nil]
    exact apply_token_DEVNAME x v (hn v rfl)

theorem foldl_optional_TYPE (x : uevent) (o : Option (List Char))
    (hn : ∀ v, o = some v → NUL ∉ v) (hx : o = none → x.type = none) :
    (optional_token "TYPE=".toList o).foldl apply_token x = { x with type := o } := by
  cases o with
  | none =>
    have h := hx rfl
    cases x
    simp only at h
    simp only [optional_token, List.foldl_nil, h]
  | some v =>
    simp only [optional_token, List.foldl_cons, List.foldl_nil]
    exact apply_token_TYPE x v (hn v rfl)

theorem foldl_optional_MODALIAS (x : uevent) (o : Option (List Char))
    (hn : ∀ v, o = some v → NUL ∉ v) (hx : o = none → x.modalias = none) :
    (optional_token "MODALIAS=".toList o).foldl apply_token x = { x with modalias := o } := by
  cases o with
  | none =>
    have h := hx rfl
    cases x
    simp only at h
    simp only [optional_token, List.foldl_nil, h]
  | some v =>
    simp only [optional_token, List.foldl_cons, List.foldl_nil]
    exact apply_token_MODALIAS x v (hn v rfl)

/-- C1 fails as stated: the event whose action is `TYPE=x` and that has no
type is serialised with the leading token `TYPE=x@/p`, which `parse_event`
reads as the key `TYPE=`; the event parsed has the type `x@/p`. -/
theorem round_trip_fails_on_key_in_action :
    nul_free event_with_key_in_action ∧ int_fields event_with_key_in_action ∧
    event_with_key_in_action.type = none ∧
    (parse_event (wire (serialize event_with_key_in_action))).type = some "x@/p".toList ∧
    parse_event (wire (serialize event_with_key_in_action)) ≠ event_with_key_in_action := by
  refine ⟨?_, ?_, rfl, by decide, by decide⟩
  · refine ⟨by decide, by decide, by decide, by decide, ?_, ?_, ?_, ?_⟩ <;>
      intro v hv <;> exact Option.noConfusion hv
  · exact ⟨by decide, by decide, by decide⟩

/-- C1, amended. Parsing round trip: for every event record whose string
fields contain no `NUL` byte, whose numeric fields are values of type `int`
and whose leading `action@path` token does not begin with the key of an
optional field the event lacks (`PARTNAME=`, `DEVNAME=`, `TYPE=`,
`MODALIAS=`), serialising it as the leading token followed by the `KEY=value`
tokens, each ended by a `NUL`, with one more `NUL` at the end, and running
`parse_event` on the result (whatever follows it in the buffer) yields the
event itself: equal action, path, subsystem, firmware, partition name, device
name, modalias, type, partition number, major and minor. -/
theorem parse_event_round_trip (e : uevent) (rest : List Char)
    (hn : nul_free e) (hi : int_fields e) (hl : lead_clear e) :
    parse_event (wire (serialize e) ++ rest) = e := by
  rw [parse_event_wire _ rest (well_formed_serialize e hn)]
  have hlead : NUL ∉ lead_token e := (well_formed_serialize e hn (lead_token e)
    (by simp [serialize])).2
  have hc : cstr (lead_token e) = lead_token e := cstr_of_nul_free hlead
  obtain ⟨n1, n2, n3, n4, n5, n6, n7, n8⟩ := hn
  obtain ⟨i1, i2, i3⟩ := hi
  obtain ⟨l1, l2, l3, l4⟩ := hl
  have f1 : e.partition_name = none →
      (apply_token uevent_init (lead_token e)).partition_name = none := fun h =>
    apply_token_frame_partition_name uevent_init _ (by rw [hc]; exact l1 h)
  have f2 : e.device_name = none →
      (apply_token uevent_init (lead_token e)).device_name = none := fun h =>
    apply_token_frame_device_name uevent_init _ (by rw [hc]; exact l2 h)
  have f3 : e.type = none →
      (apply_token uevent_init (lead_token e)).type = none := fun h =>
    apply_token_frame_type uevent_init _ (by rw [hc]; exact l3 h)
  have f4 : e.modalias = none →
      (apply_token uevent_init (lead_token e)).modalias = none := fun h =>
    apply_token_frame_modalias uevent_init _ (by rw [hc]; exact l4 h)
  unfold serialize
  simp only [List.foldl_append, List.foldl_cons, List.foldl_nil]
  generalize apply_token uevent_init (lead_token e) = e1 at f1 f2 f3 f4 ⊢
  obtain ⟨a1, p1, s1, fw1, pn1, dn1, ma1, ty1, pnum1, maj1, mi1⟩ := e1
  simp only at f1 f2 f3 f4
  rw [apply_token_ACTION _ e.action n1]
  dsimp only
  rw [apply_token_DEVPATH _ e.path n2]
  dsimp only
  rw [apply_token_SUBSYSTEM _ e.subsystem n3]
  dsimp only
  rw [apply_token_FIRMWARE _ e.firmware n4]
  dsimp only
  rw [apply_token_MAJOR _ (decimal e.major) (nul_not_mem_decimal _)]
  dsimp only
  rw [apply_token_MINOR _ (decimal e.minor) (nul_not_mem_decimal _)]
  dsimp only
  rw [apply_token_PARTN _ (decimal e.partition_num) (nul_not_mem_decimal _)]
  dsimp only
  rw [atoi_decimal _ i1, atoi_decimal _ i2, atoi_decimal _ i3]
  rw [foldl_optional_PARTNAME _ e.partition_name n5 f1]
  dsimp only
  rw [foldl_optional_DEVNAME _ e.device_name n6 f2]
  dsimp only
  rw [foldl_optional_TYPE _ e.type n8 f3]
  dsimp only
  rw [foldl_optional_MODALIAS _ e.modalias n7 f4]

/-- C1, amended, at the block-device event of the specification's first
scenario. -/
theorem parse_event_round_trip_witness :
    parse_event (wire (serialize event_block_add) ++ [NUL]) = event_block_add :=
  parse_event_round_trip event_block_add [NUL]
    ⟨by decide, by decide, by decide, by decide,
      fun v hv => by
        have : v = "system".toList := (Option.some.inj hv).symm
        subst this; decide,
      fun v hv => Option.noConfusion hv, fun v hv => Option.noConfusion hv,
      fun v hv => Option.noConfusion hv⟩
    ⟨⟨by decide, by decide⟩, ⟨by decide, by decide⟩, ⟨by decide, by decide⟩⟩
    ⟨fun h => Option.noConfusion h, fun _ => by decide, fun _ => by decide,
      fun _ => by decide⟩

/-! ## The drain loop -/

theorem split_nul_ne_nil (msg : List Char) : split_nul msg ≠ [] := by
  cases msg with
  | nil => simp [split_nul]
  | cons c cs =>
    by_cases hc : c = NUL
    · simp [split_nul, hc]
    · simp only [split_nul, hc, if_false]
      cases split_nul cs <;> simp

theorem split_nul_append_nul (a b : List Char) :
    split_nul (a ++ NUL :: b) = split_nul a ++ split_nul b := by
  induction a with
  | nil => simp [split_nul]
  | cons c cs ih =>
    by_cases hc : c = NUL
    · simp [split_nul, hc, ih]
    · have e1 : split_nul (c :: (cs ++ NUL :: b)) =
          match split_nul (cs ++ NUL :: b) with
          | [] => [[c]]
          | t :: ts => (c :: t) :: ts := by simp [split_nul, hc]
      have e2 : split_nul (c :: cs) =
          match split_nul cs with
          | [] => [[c]]
          | t :: ts => (c :: t) :: ts := by simp [split_nul, hc]
      rw [List.cons_append, e1, e2, ih]
      cases hs : split_nul cs with
      | nil => exact (split_nul_ne_nil cs hs).elim
      | cons t ts => rfl

theorem takeWhile_append_stop {α : Type} (p : α → Bool) (xs ys : List α) (a : α)
    (ha : p a = false) : (xs ++ a :: ys).takeWhile p = xs.takeWhile p := by
  induction xs with
  | nil => simp [ha]
  | cons x xs ih =>
    simp only [List.cons_append, List.takeWhile_cons, ih]

/-- The parser never reads past two consecutive `NUL` bytes: what follows
them in the buffer does not matter. -/
theorem parse_event_stale (data stale : List Char) :
    parse_event (data ++ NUL :: NUL :: stale) = parse_event (data ++ [NUL, NUL]) := by
  have h : ∀ j, scanned_tokens (data ++ NUL :: NUL :: j)
      = (split_nul data).takeWhile (fun t => !t.isEmpty) := by
    intro j
    unfold scanned_tokens
    rw [split_nul_append_nul]
    have e1 : split_nul (NUL :: j) = [] :: split_nul j := by simp [split_nul]
    rw [e1]
    exact takeWhile_append_stop _ _ _ _ rfl
  rw [parse_event_eq_fold, parse_event_eq_fold, h, h]

/-- Storing the two terminators after the `n` bytes received. -/
theorem set_terminators (data old : List Char) (h : data.length + 2 ≤ old.length) :
    ((data ++ old.drop data.length).set data.length NUL).set (data.length + 1) NUL
      = data ++ NUL :: NUL :: old.drop (data.length + 2) := by
  have hl : 2 ≤ (old.drop data.length).length := by
    rw [List.length_drop]; omega
  have hd : old.drop (data.length + 2) = (old.drop data.length).drop 2 := by
    rw [List.drop_drop]
  rw [hd]
  generalize old.drop data.length = tl at hl
  match tl, hl with
  | t0 :: t1 :: tl2, _ =>
    simp [List.set_append]

theorem length_store (data old : List Char) :
    old.length ≤ (data ++ old.drop data.length).length := by
  rw [List.length_append, List.length_drop]
  omega

/-- The run of `handle_events_fd` from any content of the buffer: the handler
is folded over the events of `drained_events`. -/
theorem handle_events_fd_eq {σ : Type} (handler : σ → uevent → σ) :
    ∀ (rs : List recv_result) (msg : List Char) (s : σ),
      UEVENT_MSG_LEN + 2 ≤ msg.length →
      handle_events_fd handler rs msg s = (drained_events rs).foldl handler s := by
  intro rs
  induction rs with
  | nil => intro msg s _; rfl
  | cons r rs ih =>
    intro msg s hlen
    cases r with
    | nothing k =>
      have hn : ¬ (0 : Int) < -(k : Int) := by omega
      simp [handle_events_fd, drained_events, recv_result.n, hn]
    | message data =>
      by_cases hpos : (0 : Int) < (data.length : Int)
      · have hlen2 : UEVENT_MSG_LEN + 2 ≤ (data ++ msg.drop data.length).length :=
          le_trans hlen (length_store data msg)
        by_cases hbig : (UEVENT_MSG_LEN : Int) ≤ (data.length : Int)
        · have hnl : ¬ (data.length : Int) < (UEVENT_MSG_LEN : Int) := by omega
          have e := ih (data ++ msg.drop data.length) s hlen2
          simp only [drained_events] at e
          simp only [handle_events_fd, recv_result.n, recv_result.store, gt_iff_lt, hpos,
            if_true, ge_iff_le, hbig, drained_events, decide_True,
            List.takeWhile_cons_of_pos, hnl, decide_False, Bool.false_eq_true,
            not_false_eq_true, List.filter_cons_of_neg, e]
        · have hnl : (data.length : Int) < (UEVENT_MSG_LEN : Int) := by omega
          have hfit : data.length + 2 ≤ msg.length := by
            unfold UEVENT_MSG_LEN at hlen hnl; omega
          have hset := set_terminators data msg hfit
          have hlen3 : UEVENT_MSG_LEN + 2 ≤
              (data ++ NUL :: NUL :: msg.drop (data.length + 2)).length := by
            rw [← hset, List.length_set, List.length_set]; exact hlen2
          have e := ih (data ++ NUL :: NUL :: msg.drop (data.length + 2))
            (handler s (parse_event (data ++ [NUL, NUL]))) hlen3
          simp only [drained_events] at e
          simp only [handle_events_fd, recv_result.n, recv_result.store, gt_iff_lt, hpos,
            if_true, ge_iff_le, hbig, if_false, Int.toNat_ofNat, hset, parse_event_stale,
            drained_events, decide_True, List.takeWhile_cons_of_pos, hnl,
            List.filter_cons_of_pos, List.map_cons, List.foldl_cons, recv_result.bytes, e]
      · simp [handle_events_fd, drained_events, recv_result.n, hpos]

/-- C5. Drain semantics of `handle_events_fd`: for every finite sequence of
receive results (each a message of length `n`, or a result `<= 0`), started on
the 1026-byte buffer with any content, the handler is invoked exactly once, in
receive order, with the parse of each message whose length satisfies
`0 < n < 1024` and that precedes the first result `<= 0`; a message with
`n >= 1024` is dropped without invoking the handler and without stopping the
drain; nothing after the first result `<= 0` is handled.  Stated for every
handler as a fold, and for the handler that records its arguments. -/
theorem handle_events_fd_drains {σ : Type} (handler : σ → uevent → σ)
    (rs : List recv_result) (msg : List Char) (s : σ)
    (hmsg : msg.length = UEVENT_MSG_LEN + 2) :
    handle_events_fd handler rs msg s = (drained_events rs).foldl handler s ∧
    handle_events_fd (fun tr e => tr ++ [e]) rs msg [] = drained_events rs ∧
    (∀ data, UEVENT_MSG_LEN ≤ data.length →
      drained_events (recv_result.message data :: rs) = drained_events rs) ∧
    (∀ data, 0 < data.length → data.length < UEVENT_MSG_LEN →
      drained_events (recv_result.message data :: rs)
        = parse_event (data ++ [NUL, NUL]) :: drained_events rs) ∧
    (∀ r, r.n ≤ 0 → drained_events (r :: rs) = []) := by
  refine ⟨handle_events_fd_eq handler rs msg s (le_of_eq hmsg.symm), ?_, ?_, ?_, ?_⟩
  · rw [handle_events_fd_eq _ rs msg [] (le_of_eq hmsg.symm)]
    generalize drained_events rs = l
    have : ∀ (l acc : List uevent), l.foldl (fun tr e => tr ++ [e]) acc = acc ++ l := by
      intro l
      induction l with
      | nil => intro acc; simp
      | cons x xs ih => intro acc; simp [ih]
    simpa using this l []
  · intro data h
    have h1 : (0 : Int) < (data.length : Int) := by unfold UEVENT_MSG_LEN at h; omega
    have h2 : ¬ (data.length : Int) < (UEVENT_MSG_LEN : Int) := by omega
    simp [drained_events, recv_result.n, h1, h2]
  · intro data h0 h
    have h1 : (0 : Int) < (data.length : Int) := by omega
    have h2 : (data.length : Int) < (UEVENT_MSG_LEN : Int) := by omega
    simp [drained_events, recv_result.n, recv_result.bytes, h1, h2]
  · intro r h
    have h1 : ¬ (0 : Int) < r.n := by omega
    simp [drained_events, h1]

/-- C5 at a run of three results: a message, the end of the queue, and a
message that is never read. -/
theorem handle_events_fd_drains_witness :
    (List.replicate 1026 NUL).length = UEVENT_MSG_LEN + 2 ∧
    handle_events_fd (fun tr e => tr ++ [e])
        [recv_result.message (wire ["add@/x".toList, "ACTION=add".toList]),
         recv_result.nothing 1,
         recv_result.message (wire ["remove@/x".toList, "ACTION=remove".toList])]
        (List.replicate 1026 NUL) []
      = drained_events
        [recv_result.message (wire ["add@/x".toList, "ACTION=add".toList]),
         recv_result.nothing 1,
         recv_result.message (wire ["remove@/x".toList, "ACTION=remove".toList])] ∧
    drained_events
        [recv_result.message (wire ["add@/x".toList, "ACTION=add".toList]),
         recv_result.nothing 1,
         recv_result.message (wire ["remove@/x".toList, "ACTION=remove".toList])]
      = [{ uevent_init with action := "add".toList }] :=
  ⟨List.length_replicate 1026 NUL,
   (handle_events_fd_drains (fun tr e => tr ++ [e])
      [recv_result.message (wire ["add@/x".toList, "ACTION=add".toList]),
       recv_result.nothing 1,
       recv_result.message (wire ["remove@/x".toList, "ACTION=remove".toList])]
      (List.replicate 1026 NUL) [] (List.length_replicate 1026 NUL)).2.1,
   by decide⟩

/-! ## Rule tables -/

theorem get_device_perm_loop_none (fnmatch : List Char → List Char → Int → Int)
    (path : List Char) (l : List perms_)
    (h : ∀ q ∈ l, dev_rule_matches fnmatch path q = false) :
    get_device_perm_loop fnmatch path l = (0o600, 0, 0) := by
  induction l with
  | nil => rfl
  | cons q qs ih =>
    have hq := h q (List.mem_cons_self _ _)
    unfold dev_rule_matches at hq
    simp only [get_device_perm_loop, hq, Bool.not_false, if_true]
    exact ih (fun x hx => h x (List.mem_cons_of_mem _ hx))

theorem get_device_perm_loop_first (fnmatch : List Char → List Char → Int → Int)
    (path : List Char) (l1 l2 : List perms_) (dp : perms_)
    (h : ∀ q ∈ l1, dev_rule_matches fnmatch path q = false)
    (hdp : dev_rule_matches fnmatch path dp = true) :
    get_device_perm_loop fnmatch path (l1 ++ dp :: l2) = (dp.perm, dp.uid, dp.gid) := by
  induction l1 with
  | nil =>
    unfold dev_rule_matches at hdp
    simp [get_device_perm_loop, hdp]
  | cons q qs ih =>
    have hq := h q (List.mem_cons_self _ _)
    unfold dev_rule_matches at hq
    simp only [List.cons_append, get_device_perm_loop, hq, Bool.not_false, if_true]
    exact ih (fun x hx => h x (List.mem_cons_of_mem _ hx))

/-- C6. Device-permission lookup: for every device table and path,
`get_device_perm` returns the `(perm, uid, gid)` of the most recently added
rule that matches the path (a wildcard rule matches by `fnmatch`, a literal
rule only by equality of the strings), and `(0600, 0, 0)` when no rule
matches; so after `add_dev_perms` adds a rule without `attr` that matches the
path, the lookup returns that rule's triple whatever the table held. -/
theorem get_device_perm_last_match (fnmatch : List Char → List Char → Int → Int)
    (path : List Char) (g : globals) :
    (∀ earlier later dp, g.dev_perms = earlier ++ dp :: later →
      dev_rule_matches fnmatch path dp = true →
      (∀ q ∈ later, dev_rule_matches fnmatch path q = false) →
      get_device_perm fnmatch path g = (dp.perm, dp.uid, dp.gid)) ∧
    ((∀ q ∈ g.dev_perms, dev_rule_matches fnmatch path q = false) →
      get_device_perm fnmatch path g = (0o600, 0, 0)) ∧
    (∀ (dp : perms_), dp.wildcard ≠ 0 →
      (dev_rule_matches fnmatch path dp = true ↔ fnmatch dp.name path 0 = 0)) ∧
    (∀ (dp : perms_), dp.wildcard = 0 →
      (dev_rule_matches fnmatch path dp = true ↔ cstr path = cstr dp.name)) ∧
    (∀ attr_ok name perm uid gid wildcard,
      dev_rule_matches fnmatch path
        { name := strdup name, attr := none, perm := perm, uid := uid, gid := gid,
          wildcard := wildcard } = true →
      (add_dev_perms true true attr_ok name none perm uid gid wildcard g).1 = 0 ∧
      get_device_perm fnmatch path
        (add_dev_perms true true attr_ok name none perm uid gid wildcard g).2
        = (perm, uid, gid)) := by
  refine ⟨?_, ?_, ?_, ?_, ?_⟩
  · intro earlier later dp hg hdp hl
    unfold get_device_perm
    rw [hg, List.reverse_append, List.reverse_cons, List.append_assoc, List.singleton_append]
    exact get_device_perm_loop_first fnmatch path _ _ dp
      (fun q hq => hl q (List.mem_reverse.1 hq)) hdp
  · intro h
    unfold get_device_perm
    exact get_device_perm_loop_none fnmatch path _ (fun q hq => h q (List.mem_reverse.1 hq))
  · intro dp hw
    simp [dev_rule_matches, rule_matches, hw]
  · intro dp hw
    simp [dev_rule_matches, rule_matches, hw, strcmp0]
  · intro attr_ok name perm uid gid wildcard hm
    refine ⟨by simp [add_dev_perms], ?_⟩
    have e : (add_dev_perms true true attr_ok name none perm uid gid wildcard g).2.dev_perms
        = g.dev_perms ++ [{ name := strdup name, attr := none, perm := perm, uid := uid,
                            gid := gid, wildcard := wildcard }] := by
      simp [add_dev_perms]
    unfold get_device_perm
    rw [e, List.reverse_append, List.reverse_singleton, List.singleton_append]
    exact get_device_perm_loop_first fnmatch path [] _ _ (fun q hq => by simp at hq) hm

/-- C6 at a table with the rules `/dev/null 0666 0 0` and then
`/dev/null 0660 1000 1001`: the later rule wins, and a path no rule names gets
the default. -/
theorem get_device_perm_last_match_witness :
    get_device_perm fnmatch_never "/dev/null".toList
        { dev_perms :=
            [{ name := "/dev/null".toList, attr := none, perm := 0o666, uid := 0, gid := 0,
               wildcard := 0 },
             { name := "/dev/null".toList, attr := none, perm := 0o660, uid := 1000,
               gid := 1001, wildcard := 0 }] }
      = (0o660, 1000, 1001) ∧
    get_device_perm fnmatch_never "/dev/zero".toList
        { dev_perms :=
            [{ name := "/dev/null".toList, attr := none, perm := 0o666, uid := 0, gid := 0,
               wildcard := 0 },
             { name := "/dev/null".toList, attr := none, perm := 0o660, uid := 1000,
               gid := 1001, wildcard := 0 }] }
      = (0o600, 0, 0) :=
  ⟨(get_device_perm_last_match fnmatch_never "/dev/null".toList _).1
      [{ name := "/dev/null".toList, attr := none, perm := 0o666, uid := 0, gid := 0,
         wildcard := 0 }] []
      { name := "/dev/null".toList, attr := none, perm := 0o660, uid := 1000,
        gid := 1001, wildcard := 0 } rfl (by decide) (by decide),
   (get_device_perm_last_match fnmatch_never "/dev/zero".toList _).2.1 (by decide)⟩

/-- C7 fails as stated: when `calloc` returns no memory the call returns
`-ENOMEM`, not 0, and appends to neither table. -/
theorem add_dev_perms_without_memory :
    add_dev_perms false true true "/dev/null".toList none 0o666 0 0 0 {} = (-12, {}) ∧
    add_dev_perms true false true "/dev/null".toList none 0o666 0 0 0 {} = (-12, {}) ∧
    add_dev_perms true true false "/sys/devices/x".toList (some "enable".toList) 0o666 0 0 0 {}
      = (-12, {}) := by
  decide

/-- C7, amended. `add_dev_perms` routes by `attr` when its allocations succeed:
with `attr` present the new rule `(name, attr, perm, uid, gid, wildcard)` is
appended at the tail of the sysfs table and the device table is unchanged; with
`attr` absent it is appended at the tail of the device table and the sysfs
table is unchanged; in both cases the existing entries keep their order and
the call returns 0.  Whether or not the allocations succeed, adding a rule
with `attr` never changes the result of `get_device_perm` for any path. -/
theorem add_dev_perms_routes (g : globals) (name : List Char)
    (perm uid gid wildcard : Nat) :
    (∀ attr, add_dev_perms true true true name (some attr) perm uid gid wildcard g
      = (0, { g with sys_perms := g.sys_perms ++
                [{ name := strdup name, attr := some (strdup attr), perm := perm,
                   uid := uid, gid := gid, wildcard := wildcard }] })) ∧
    (∀ attr_ok, add_dev_perms true true attr_ok name none perm uid gid wildcard g
      = (0, { g with dev_perms := g.dev_perms ++
                [{ name := strdup name, attr := none, perm := perm,
                   uid := uid, gid := gid, wildcard := wildcard }] })) ∧
    (∀ calloc_ok name_ok attr_ok attr fnmatch path,
      get_device_perm fnmatch path
        (add_dev_perms calloc_ok name_ok attr_ok name (some attr) perm uid gid wildcard g).2
        = get_device_perm fnmatch path g) := by
  refine ⟨?_, ?_, ?_⟩
  · intro attr
    simp [add_dev_perms]
  · intro attr_ok
    simp [add_dev_perms]
  · intro calloc_ok name_ok attr_ok attr fnmatch path
    unfold get_device_perm add_dev_perms
    cases calloc_ok <;> cases name_ok <;> cases attr_ok <;> simp

/-- Every node of `sys_perms` has an `attr`: `add_dev_perms` keeps it so. -/
theorem add_dev_perms_sys_perms_attr (calloc_ok name_ok attr_ok : Bool)
    (name : List Char) (attr : Option (List Char)) (perm uid gid wildcard : Nat)
    (g : globals) (h : ∀ dp ∈ g.sys_perms, dp.attr ≠ none) :
    ∀ dp ∈ (add_dev_perms calloc_ok name_ok attr_ok name attr perm uid gid wildcard g).2.sys_perms,
      dp.attr ≠ none := by
  unfold add_dev_perms
  cases calloc_ok <;> cases name_ok <;> cases attr_ok <;> cases attr <;>
    simp only [Bool.not_true, Bool.not_false, Bool.false_eq_true, if_false, if_true,
      Option.isSome_none, Option.isSome_some, Bool.and_false, Bool.and_true, Bool.false_and,
      Bool.true_and] <;>
    first
      | exact h
      | (intro dp hdp
         simp only [List.mem_append, List.mem_singleton] at hdp
         rcases hdp with hdp | rfl
         · exact h dp hdp
         · simp)

/-- The loop of `fixup_sys_perms` when every matching rule has an `attr` and
builds a path that fits the buffer. -/
theorem fixup_sys_perms_loop_eq (fnmatch : List Char → List Char → Int → Int)
    (sehandle : Option (List Char → Nat → Option (List Char)))
    (upath : List Char) (l : List perms_)
    (hattr : ∀ dp ∈ l, dp.attr ≠ none)
    (hfit : ∀ dp ∈ l, sys_rule_matches fnmatch upath dp = true → sys_rule_fits upath dp) :
    (fixup_sys_perms_loop fnmatch sehandle upath l).filter syscall.is_chown_chmod
      = (l.filter (sys_rule_matches fnmatch upath)).flatMap (sys_rule_calls upath) := by
  induction l with
  | nil => rfl
  | cons dp rest ih =>
    have ih2 := ih (fun x hx => hattr x (List.mem_cons_of_mem _ hx))
      (fun x hx => hfit x (List.mem_cons_of_mem _ hx))
    by_cases hm : sys_rule_matches fnmatch upath dp = true
    · have hm2 : rule_matches fnmatch dp.wildcard (dp.name.drop 4) upath = true := hm
      cases ha : dp.attr with
      | none => exact (hattr dp (List.mem_cons_self _ _) ha).elim
      | some attr =>
        have hf : ¬ strlen upath + strlen attr + 6 > 512 := by
          have := hfit dp (List.mem_cons_self _ _) hm
          unfold sys_rule_fits at this
          rw [ha] at this
          simp only [Option.getD_some] at this
          omega
        rw [List.filter_cons_of_pos hm, List.flatMap_cons]
        simp only [fixup_sys_perms_loop, hm2, Bool.not_true, Bool.false_eq_true, if_false, ha, hf]
        rw [List.filter_append, List.filter_append, ih2]
        congr 1
        simp only [sys_rule_calls, ha, sys_attr_path]
        generalize "/sys".toList ++ cstr upath ++ "/".toList ++ cstr attr = buf
        cases sehandle with
        | none => rfl
        | some lookup =>
          cases hlk : lookup buf 0 <;>
            simp [hlk, List.filter, syscall.is_chown_chmod]
    · have hm2 : rule_matches fnmatch dp.wildcard (dp.name.drop 4) upath = false := by
        simpa [sys_rule_matches] using hm
      rw [List.filter_cons_of_neg hm]
      simp only [fixup_sys_perms_loop, hm2, Bool.not_false, if_true]
      exact ih2

theorem strlen_long_attr : strlen (List.replicate 505 (Char.ofNat 97)) = 505 := by
  have h : NUL ∉ List.replicate 505 (Char.ofNat 97) := by
    intro h
    exact absurd (List.mem_replicate.1 h).2 (by decide)
  unfold strlen
  rw [cstr_of_nul_free h, List.length_replicate]

/-- C8 fails as stated: the rule `/sys/d` with an attribute of 505 bytes
matches the path `/d`, but the path built would need 513 bytes, so
`fixup_sys_perms` returns without any `chown` or `chmod`; and a rule that
follows it in the table is not applied either. -/
theorem fixup_sys_perms_stops_at_long_path :
    sys_rule_matches fnmatch_never "/d".toList long_attr_rule = true ∧
    4 ≤ long_attr_rule.name.length ∧
    fixup_sys_perms fnmatch_never none "/d".toList { sys_perms := [long_attr_rule] } = [] ∧
    ([long_attr_rule].filter (sys_rule_matches fnmatch_never "/d".toList)).flatMap
        (sys_rule_calls "/d".toList) ≠ [] ∧
    fixup_sys_perms fnmatch_never none "/d".toList
      { sys_perms := [long_attr_rule,
          { name := "/sys/d".toList, attr := some "enable".toList, perm := 0o644,
            uid := 0, gid := 0, wildcard := 0 }] } = [] := by
  have hm : rule_matches fnmatch_never long_attr_rule.wildcard
      (long_attr_rule.name.drop 4) "/d".toList = true := by decide
  have ha : long_attr_rule.attr = some (List.replicate 505 (Char.ofNat 97)) := rfl
  have hu : strlen "/d".toList = 2 := by decide
  have hbig : strlen "/d".toList + strlen (List.replicate 505 (Char.ofNat 97)) + 6 > 512 := by
    rw [hu, strlen_long_attr]; decide
  refine ⟨hm, by decide, ?_, ?_, ?_⟩
  · simp only [fixup_sys_perms, fixup_sys_perms_loop, hm, ha, hbig, Bool.not_true,
      Bool.false_eq_true, if_false, if_true]
  · have hf : sys_rule_matches fnmatch_never "/d".toList long_attr_rule = true := hm
    have hc : sys_rule_calls "/d".toList long_attr_rule
        = [syscall.chown (sys_attr_path "/d".toList (List.replicate 505 (Char.ofNat 97)))
             1000 1000,
           syscall.chmod (sys_attr_path "/d".toList (List.replicate 505 (Char.ofNat 97)))
             0o644] := rfl
    rw [List.filter_cons_of_pos hf, List.flatMap_cons, hc]
    exact List.cons_ne_nil _ _
  · simp only [fixup_sys_perms, fixup_sys_perms_loop, hm, ha, hbig, Bool.not_true,
      Bool.false_eq_true, if_false, if_true]

/-- C8, amended. `fixup_sys_perms` applies every matching sysfs rule whose path
fits the buffer: for every sysfs table whose rule names have at least 4 bytes
and every `upath`, if for each matching rule `strlen(upath) + strlen(attr) + 6`
is at most 512, then the sequence of paths that receive `chown`/`chmod` is
exactly, in insertion order, `/sys` ++ upath ++ `/` ++ attr for each rule whose
name with its first 4 bytes dropped matches `upath` (`fnmatch` for wildcard
rules, equality for literal rules), each with that rule's uid, gid and perm. -/
theorem fixup_sys_perms_applies_matching (fnmatch : List Char → List Char → Int → Int)
    (sehandle : Option (List Char → Nat → Option (List Char)))
    (upath : List Char) (g : globals)
    (_hname : ∀ dp ∈ g.sys_perms, 4 ≤ dp.name.length)
    (hattr : ∀ dp ∈ g.sys_perms, dp.attr ≠ none)
    (hfit : ∀ dp ∈ g.sys_perms,
      sys_rule_matches fnmatch upath dp = true → sys_rule_fits upath dp) :
    (fixup_sys_perms fnmatch sehandle upath g).filter syscall.is_chown_chmod
      = (g.sys_perms.filter (sys_rule_matches fnmatch upath)).flatMap
          (sys_rule_calls upath) :=
  fixup_sys_perms_loop_eq fnmatch sehandle upath g.sys_perms hattr hfit

/-- C8, amended, at a table of two literal rules and the path `/devices/x`:
the first rule alone matches. -/
theorem fixup_sys_perms_applies_matching_witness :
    (fixup_sys_perms fnmatch_never none "/devices/x".toList sample_sys_table).filter
        syscall.is_chown_chmod
      = [syscall.chown "/sys/devices/x/enable".toList 1000 1001,
         syscall.chmod "/sys/devices/x/enable".toList 0o644] :=
  (fixup_sys_perms_applies_matching fnmatch_never none "/devices/x".toList sample_sys_table
    (by decide) (by decide) (by decide)).trans (by decide)

/-! ## USB device-class rules -/

theorem strstr_iff (haystack needle : List Char) (hn : NUL ∉ needle) :
    strstr haystack needle = true ↔ contains_substring haystack needle := by
  unfold strstr contains_substring
  rw [cstr_of_nul_free hn, List.any_eq_true]
  constructor
  · rintro ⟨t, ht, hp⟩
    exact List.infix_iff_prefix_suffix.2
      ⟨t, List.isPrefixOf_iff_prefix.1 hp, (List.mem_tails _ _).1 ht⟩
  · intro h
    obtain ⟨t, hp, hs⟩ := List.infix_iff_prefix_suffix.1 h
    exact ⟨t, (List.mem_tails _ _).2 hs, List.isPrefixOf_iff_prefix.2 hp⟩

/-- C9 fails as stated: with the options `suspend_auto,suspend_on` the rule
stored has `pwr_ctrl_auto` clear and `pwr_ctrl_on` set. -/
theorem usb_class_on_overrides_auto :
    contains_substring "suspend_auto,suspend_on".toList "suspend_auto".toList ∧
    contains_substring "suspend_auto,suspend_on".toList "suspend_on".toList ∧
    add_usb_device_class_matching true true "USB_CLASS_*".toList 0o660 0 0
        (some "suspend_auto,suspend_on".toList) {}
      = (0, { usb_device_classes :=
                [{ devclass := "USB_CLASS_*".toList, perm := 0o660, uid := 0, gid := 0,
                   pwr_ctrl_auto := 0, pwr_ctrl_on := 1, pwr_ctrl_perm := 0 }] }) := by
  refine ⟨?_, ?_, by decide⟩
  · exact (strstr_iff _ _ (by decide)).1 (by decide)
  · exact (strstr_iff _ _ (by decide)).1 (by decide)

/-- C9, amended. USB class options, both suspend tokens present: for every
options string that contains both the substring `suspend_auto` and the
substring `suspend_on`, the rule stored by `add_usb_device_class_matching` has
`pwr_ctrl_on` set and `pwr_ctrl_auto` clear (the `on` one is stored). -/
theorem add_usb_device_class_both_tokens_on (devclass options : List Char)
    (perm uid gid : Nat) (g : globals)
    (hauto : contains_substring options "suspend_auto".toList)
    (hon : contains_substring options "suspend_on".toList) :
    ∃ node : usb_device_class_node,
      add_usb_device_class_matching true true devclass perm uid gid (some options) g
        = (0, { g with usb_device_classes := g.usb_device_classes ++ [node] }) ∧
      node.pwr_ctrl_on = 1 ∧ node.pwr_ctrl_auto = 0 := by
  have h1 := (strstr_iff _ _ (by decide)).2 hauto
  have h2 := (strstr_iff _ _ (by decide)).2 hon
  by_cases h3 : strstr options "pwr_ctrl_perm".toList = true
  · exact ⟨_, by simp only [add_usb_device_class_matching, h1, h2, h3]; rfl, rfl, rfl⟩
  · exact ⟨_, by simp only [add_usb_device_class_matching, h1, h2, h3]; rfl, rfl, rfl⟩

/-- C9, amended, at the options `suspend_auto,suspend_on`. -/
theorem add_usb_device_class_both_tokens_on_witness :
    ∃ node : usb_device_class_node,
      add_usb_device_class_matching true true "USB_CLASS_*".toList 0o660 0 0
          (some "suspend_auto,suspend_on".toList) {}
        = (0, { ({} : globals) with
                usb_device_classes := ({} : globals).usb_device_classes ++ [node] }) ∧
      node.pwr_ctrl_on = 1 ∧ node.pwr_ctrl_auto = 0 :=
  add_usb_device_class_both_tokens_on "USB_CLASS_*".toList "suspend_auto,suspend_on".toList
    0o660 0 0 {}
    ((strstr_iff _ _ (by decide)).1 (by decide))
    ((strstr_iff _ _ (by decide)).1 (by decide))

/-- C10. USB class power flags are mutually exclusive: for every options value
(absent or any string), the rule stored by `add_usb_device_class_matching`
never has both `pwr_ctrl_auto` and `pwr_ctrl_on` set; with options absent all
three flags are clear, and `pwr_ctrl_perm` is set exactly when options
contains the substring `pwr_ctrl_perm`. -/
theorem add_usb_device_class_flags (devclass : List Char) (options : Option (List Char))
    (perm uid gid : Nat) (g : globals) :
    ∃ node : usb_device_class_node,
      add_usb_device_class_matching true true devclass perm uid gid options g
        = (0, { g with usb_device_classes := g.usb_device_classes ++ [node] }) ∧
      ¬ (node.pwr_ctrl_auto ≠ 0 ∧ node.pwr_ctrl_on ≠ 0) ∧
      (options = none →
        node.pwr_ctrl_auto = 0 ∧ node.pwr_ctrl_on = 0 ∧ node.pwr_ctrl_perm = 0) ∧
      (node.pwr_ctrl_perm ≠ 0 ↔
        ∃ o, options = some o ∧ contains_substring o "pwr_ctrl_perm".toList) := by
  cases options with
  | none =>
    refine ⟨_, by simp only [add_usb_device_class_matching]; rfl, ?_, ?_, ?_⟩
    · simp
    · intro _; exact ⟨rfl, rfl, rfl⟩
    · simp
  | some o =>
    have hp := strstr_iff o "pwr_ctrl_perm".toList (by decide)
    by_cases h1 : strstr o "suspend_auto".toList = true <;>
    by_cases h2 : strstr o "suspend_on".toList = true <;>
    by_cases h3 : strstr o "pwr_ctrl_perm".toList = true <;>
    refine ⟨_, by simp only [add_usb_device_class_matching, h1, h2, h3]; rfl,
      by simp, fun h => Option.noConfusion h, ?_⟩ <;>
    constructor <;>
    first
      | (intro _; exact ⟨o, rfl, hp.1 h3⟩)
      | (intro hne; exact absurd rfl hne)
      | (rintro ⟨o2, ho, hc⟩
         cases ho
         first
           | exact absurd (hp.2 hc) h3
           | simp)

/-- C10 with the options absent: the three flags are clear. -/
theorem add_usb_device_class_flags_witness :
    ∃ node : usb_device_class_node,
      add_usb_device_class_matching true true "USB_CLASS_*".toList 0o660 0 0 none {}
        = (0, { ({} : globals) with
                usb_device_classes := ({} : globals).usb_device_classes ++ [node] }) ∧
      node.pwr_ctrl_auto = 0 ∧ node.pwr_ctrl_on = 0 ∧ node.pwr_ctrl_perm = 0 := by
  obtain ⟨node, h1, -, h3, -⟩ :=
    add_usb_device_class_flags "USB_CLASS_*".toList none 0o660 0 0 {}
  exact ⟨node, h1, h3 rfl⟩

/-! ## The registry of platform devices -/

theorem getElem?_cstr (path : List Char) (n : Nat) (h : n < (cstr path).length) :
    path[n]? = (cstr path)[n]? := by
  rcases cstr_decompose path with hm | ⟨r, hm⟩
  · rw [← hm]
  · conv_lhs => rw [hm]
    exact List.getElem?_append_left h

/-- The test of the two loops, for a record as `add_platform_device` writes
it: the C string at `path` is the record's path, a slash, and more. -/
theorem is_subdevice_iff (path : List Char) (bus : platform_node)
    (hl : bus.path_len = bus.path.length) (hn : NUL ∉ bus.path) :
    is_subdevice path bus = true ↔ is_below (cstr path) bus.path := by
  unfold is_subdevice is_below strlen strncmp0
  rw [cstr_of_nul_free hn, hl, List.take_length]
  simp only [Bool.and_eq_true, decide_eq_true_eq, beq_iff_eq]
  constructor
  · rintro ⟨⟨h1, h2⟩, h3⟩
    rw [getElem?_cstr path _ h1] at h2
    refine ⟨(cstr path).drop (bus.path.length + 1), ?_⟩
    have h4 : (cstr path)[bus.path.length] = SLASH := by
      rw [List.getElem?_eq_getElem h1] at h2
      exact Option.some.inj h2
    conv_lhs => rw [← List.take_append_drop bus.path.length (cstr path)]
    rw [h3, List.drop_eq_getElem_cons h1, h4]
  · rintro ⟨s, hs⟩
    have h1 : bus.path.length < (cstr path).length := by
      rw [hs, List.length_append, List.length_cons]; omega
    refine ⟨⟨h1, ?_⟩, ?_⟩
    · rw [getElem?_cstr path _ h1, hs, List.getElem?_append_right (le_refl _)]
      simp
    · rw [hs]
      simp

theorem registry_ok_empty : registry_ok {} := by
  intro b hb
  simp at hb

theorem registry_ok_add (path : List Char) (g : globals) (h : registry_ok g) :
    registry_ok (add_platform_device path g) := by
  unfold add_platform_device
  cases find_platform_device_eq : g.platform_names.reverse.find? (is_subdevice path) with
  | some r => exact h
  | none =>
    intro b hb
    simp only [List.mem_append, List.mem_singleton] at hb
    rcases hb with hb | rfl
    · exact h b hb
    · exact ⟨rfl, nul_not_mem_cstr path⟩

theorem remove_platform_device_sublist (path : List Char) (g : globals) :
    (remove_platform_device path g).platform_names.Sublist g.platform_names := by
  unfold remove_platform_device
  have h := (List.eraseP_sublist (p := fun bus => strcmp0 path bus.path)
    g.platform_names.reverse).reverse
  rw [List.reverse_reverse] at h
  exact h

theorem registry_ok_remove (path : List Char) (g : globals) (h : registry_ok g) :
    registry_ok (remove_platform_device path g) := by
  intro b hb
  exact h b ((remove_platform_device_sublist path g).subset hb)

theorem registry_ok_handle (e : uevent) (g : globals) (h : registry_ok g) :
    registry_ok (handle_platform_device_event e g) := by
  unfold handle_platform_device_event
  split_ifs
  · exact registry_ok_add _ g h
  · exact registry_ok_remove _ g h
  · exact h

theorem registry_ok_run (es : List uevent) : registry_ok (run_platform_events es) := by
  unfold run_platform_events
  generalize hg0 : ({} : globals) = g0
  have h0 : registry_ok g0 := hg0 ▸ registry_ok_empty
  clear hg0
  induction es generalizing g0 with
  | nil => exact h0
  | cons e es ih => exact ih _ (registry_ok_handle e g0 h0)

/-- What `add_platform_device` does when the path is below no record. -/
theorem add_platform_device_registers (path : List Char) (g : globals) (hp : NUL ∉ path)
    (h : find_platform_device path g = none) :
    add_platform_device path g
      = { g with platform_names := g.platform_names ++ [platform_record path] } := by
  unfold find_platform_device at h
  unfold add_platform_device
  rw [h]
  have h1 : strncmp0 path "/devices/".toList 9 = true ↔ "/devices/".toList <+: path := by
    rw [strncmp0_iff _ _ _ (by decide) (by decide), cstr_of_nul_free hp]
  have h2 : strncmp0 (path.drop 9) "platform/".toList 9 = true
      ↔ "platform/".toList <+: path.drop 9 := by
    rw [strncmp0_iff _ _ _ (by decide) (by decide),
      cstr_of_nul_free (fun hx => hp (List.mem_of_mem_drop hx))]
  have h3 : "/devices/platform/".toList <+: path
      ↔ ("/devices/".toList <+: path ∧ "platform/".toList <+: path.drop 9) := by
    constructor
    · rintro ⟨t, rfl⟩
      exact ⟨⟨"platform/".toList ++ t, by simp⟩, ⟨t, by simp⟩⟩
    · rintro ⟨⟨t, rfl⟩, ⟨u, hu⟩⟩
      have : t = "platform/".toList ++ u := by
        rw [List.drop_left' (by decide)] at hu
        exact hu.symm
      exact ⟨u, by rw [this]; simp⟩
  simp only [strdup, strlen, cstr_of_nul_free hp, platform_record]
  by_cases c1 : "/devices/".toList <+: path
  · by_cases c2 : "platform/".toList <+: path.drop 9
    · rw [if_pos (h1.2 c1), if_pos (h2.2 c2), if_pos (h3.2 ⟨c1, c2⟩)]
    · rw [if_pos (h1.2 c1), if_neg (fun hx => c2 (h2.1 hx)),
        if_neg (fun hx => c2 (h3.1 hx).2), if_pos c1]
  · rw [if_neg (fun hx => c1 (h1.1 hx)), if_neg (fun hx => c1 (h3.1 hx).1), if_neg c1,
      List.drop_zero]

/-- What `add_platform_device` does when the path is below a record. -/
theorem add_platform_device_ignores (path : List Char) (g : globals) (r : platform_node)
    (h : find_platform_device path g = some r) : add_platform_device path g = g := by
  unfold find_platform_device at h
  unfold add_platform_device
  rw [h]

/-- In a registry as the code builds it, `find_platform_device` is the search
for the last record the path is below. -/
theorem find_platform_device_some (path : List Char) (g : globals) (hg : registry_ok g)
    (bus : platform_node) (hb : bus ∈ g.platform_names)
    (hq : is_below (cstr path) bus.path) :
    ∃ r, find_platform_device path g = some r ∧ r ∈ g.platform_names ∧
      is_below (cstr path) r.path := by
  unfold find_platform_device
  cases hf : g.platform_names.reverse.find? (is_subdevice path) with
  | none =>
    have h1 := List.find?_eq_none.1 hf bus (List.mem_reverse.2 hb)
    exact (h1 ((is_subdevice_iff path bus (hg bus hb).1 (hg bus hb).2).2 hq)).elim
  | some r =>
    have hr : r ∈ g.platform_names := List.mem_reverse.1 (List.mem_of_find?_eq_some hf)
    exact ⟨r, rfl, hr,
      (is_subdevice_iff path r (hg r hr).1 (hg r hr).2).1 (List.find?_some hf)⟩

theorem find_platform_device_none (path : List Char) (g : globals) (hg : registry_ok g)
    (h : ∀ b ∈ g.platform_names, ¬ is_below (cstr path) b.path) :
    find_platform_device path g = none := by
  unfold find_platform_device
  rw [List.find?_eq_none]
  intro b hb hs
  have hb2 := List.mem_reverse.1 hb
  exact h b hb2 ((is_subdevice_iff path b (hg b hb2).1 (hg b hb2).2).1 hs)

/-- C11. Platform subdevice suppression: for every registry (with records as
`add_platform_device` writes them) that holds a record with path `P`, and every
path `Q = P ++ "/" ++ s`, a platform `add` event for `Q` leaves the registry
unchanged, and `find_platform_device(Q)` returns a record of the registry whose
path is a strict, slash-bounded beginning of `Q` (the record of `P` when it is
the only such record). -/
theorem platform_subdevice_suppressed (g : globals) (bus : platform_node)
    (s : List Char) (e : uevent)
    (hg : registry_ok g) (hb : bus ∈ g.platform_names)
    (ha : e.action = "add".toList) (hq : e.path = bus.path ++ SLASH :: s) (hs : NUL ∉ s) :
    handle_platform_device_event e g = g ∧
    ∃ r, find_platform_device e.path g = some r ∧ r ∈ g.platform_names ∧
      is_below e.path r.path ∧
      ((∀ b ∈ g.platform_names, is_below e.path b.path → b = bus) → r = bus) := by
  have hn : NUL ∉ e.path := by
    rw [hq]
    simp only [List.mem_append, List.mem_cons, not_or]
    exact ⟨(hg bus hb).2, by decide, hs⟩
  have hc : cstr e.path = e.path := cstr_of_nul_free hn
  obtain ⟨r, h1, h2, h3⟩ := find_platform_device_some e.path g hg bus hb
    (by rw [hc]; exact ⟨s, hq⟩)
  rw [hc] at h3
  refine ⟨?_, r, h1, h2, h3, fun hu => hu r h2 h3⟩
  have hadd : strcmp0 e.action "add".toList = true := by rw [ha]; decide
  unfold handle_platform_device_event
  rw [if_pos hadd]
  exact add_platform_device_ignores e.path g r h1

/-- C11 at the registry that holds `/devices/platform/sdhci` and an `add`
event for `/devices/platform/sdhci/mmc_host`. -/
theorem platform_subdevice_suppressed_witness :
    handle_platform_device_event
        (platform_event "add".toList "/devices/platform/sdhci/mmc_host".toList) registry_sdhci
      = registry_sdhci ∧
    ∃ r, find_platform_device
        (platform_event "add".toList "/devices/platform/sdhci/mmc_host".toList).path
        registry_sdhci = some r ∧ r ∈ registry_sdhci.platform_names ∧
      is_below (platform_event "add".toList "/devices/platform/sdhci/mmc_host".toList).path
        r.path ∧
      ((∀ b ∈ registry_sdhci.platform_names,
          is_below (platform_event "add".toList "/devices/platform/sdhci/mmc_host".toList).path
            b.path → b = platform_record "/devices/platform/sdhci".toList) →
        r = platform_record "/devices/platform/sdhci".toList) :=
  platform_subdevice_suppressed registry_sdhci
    (platform_record "/devices/platform/sdhci".toList) "mmc_host".toList
    (platform_event "add".toList "/devices/platform/sdhci/mmc_host".toList)
    (by decide) (by decide) rfl (by decide) (by decide)

/-- C12 fails as stated: after `/devices/platform/soc` is registered and
`/devices/platform/soc/i2c-0` is attempted, `find_platform_device` returns the
record of `soc` for the subdevice path but nothing for the path of `soc`
itself, which is not longer than the record's path. -/
theorem find_platform_device_own_path :
    (registered_then_subdevice "/devices/platform/soc".toList "i2c-0".toList).platform_names
      = [platform_record "/devices/platform/soc".toList] ∧
    find_platform_device "/devices/platform/soc/i2c-0".toList
        (registered_then_subdevice "/devices/platform/soc".toList "i2c-0".toList)
      = some (platform_record "/devices/platform/soc".toList) ∧
    find_platform_device "/devices/platform/soc".toList
        (registered_then_subdevice "/devices/platform/soc".toList "i2c-0".toList)
      = none := by
  decide

/-- C12, amended. After registering platform path `P` in an empty registry and
then attempting to register a subdevice `Q = P ++ "/" ++ s`, the registry holds
the record of `P` alone, `find_platform_device(Q)` returns the record of `P`,
and `find_platform_device(P)` returns no record. -/
theorem find_platform_device_after_subdevice (p s : List Char)
    (hp : NUL ∉ p) (hs : NUL ∉ s) :
    (registered_then_subdevice p s).platform_names = [platform_record p] ∧
    find_platform_device (p ++ SLASH :: s) (registered_then_subdevice p s)
      = some (platform_record p) ∧
    find_platform_device p (registered_then_subdevice p s) = none := by
  have hadd : strcmp0 "add".toList "add".toList = true := by decide
  have h0 : find_platform_device p {} = none := rfl
  have h1 : handle_platform_device_event (platform_event "add".toList p) {}
      = { platform_names := [platform_record p] } := by
    unfold handle_platform_device_event platform_event
    simp only [hadd, if_true]
    rw [add_platform_device_registers p {} hp h0]
    rfl
  have hok : registry_ok { platform_names := [platform_record p] } := by
    intro b hb
    simp only [List.mem_singleton] at hb
    subst hb
    exact ⟨rfl, hp⟩
  have hq : NUL ∉ p ++ SLASH :: s := by
    simp only [List.mem_append, List.mem_cons, not_or]
    exact ⟨hp, by decide, hs⟩
  obtain ⟨r, f1, f2, -⟩ := find_platform_device_some (p ++ SLASH :: s)
    { platform_names := [platform_record p] } hok (platform_record p)
    (List.mem_singleton.2 rfl) (by rw [cstr_of_nul_free hq]; exact ⟨s, rfl⟩)
  simp only [List.mem_singleton] at f2
  subst f2
  have h2 : registered_then_subdevice p s = { platform_names := [platform_record p] } := by
    unfold registered_then_subdevice
    rw [h1]
    unfold handle_platform_device_event platform_event
    simp only [hadd, if_true]
    exact add_platform_device_ignores _ _ _ f1
  rw [h2]
  refine ⟨rfl, f1, ?_⟩
  apply find_platform_device_none p _ hok
  intro b hb
  simp only [List.mem_singleton] at hb
  subst hb
  rintro ⟨t, ht⟩
  rw [cstr_of_nul_free hp] at ht
  have := congrArg List.length ht
  simp [platform_record] at this

/-- C12, amended, at `/devices/platform/soc` and `i2c-0`. -/
theorem find_platform_device_after_subdevice_witness :
    (registered_then_subdevice "/devices/platform/soc".toList "i2c-0".toList).platform_names
      = [platform_record "/devices/platform/soc".toList] ∧
    find_platform_device ("/devices/platform/soc".toList ++ SLASH :: "i2c-0".toList)
        (registered_then_subdevice "/devices/platform/soc".toList "i2c-0".toList)
      = some (platform_record "/devices/platform/soc".toList) ∧
    find_platform_device "/devices/platform/soc".toList
        (registered_then_subdevice "/devices/platform/soc".toList "i2c-0".toList) = none :=
  find_platform_device_after_subdevice "/devices/platform/soc".toList "i2c-0".toList
    (by decide) (by decide)

/-- C13 fails as stated: when the `add` event of `/devices/platform/soc/i2c-0`
comes before the one of `/devices/platform/soc`, both are registered, and the
path of the first record is the path of the second, a slash, and `i2c-0`. -/
theorem platform_registry_child_before_parent :
    (run_platform_events
        [platform_event "add".toList "/devices/platform/soc/i2c-0".toList,
         platform_event "add".toList "/devices/platform/soc".toList]).platform_names
      = [platform_record "/devices/platform/soc/i2c-0".toList,
         platform_record "/devices/platform/soc".toList] ∧
    is_below (platform_record "/devices/platform/soc/i2c-0".toList).path
      (platform_record "/devices/platform/soc".toList).path :=
  ⟨by decide, ⟨"i2c-0".toList, by decide⟩⟩

/-- C13, amended. Platform registry order invariant: in every registry state
reachable from the empty registry by any sequence of platform events, there
are no two records with paths `P` and `Q` such that `Q = P ++ "/" ++ s` for
some `s` and the record of `P` precedes the record of `Q` in the registry (no
record is a subdevice of a record registered before it and still present). -/
theorem platform_registry_order_invariant (es : List uevent) :
    List.Pairwise (fun a b => ¬ is_below b.path a.path)
      (run_platform_events es).platform_names := by
  have key : ∀ (es : List uevent) (g0 : globals), registry_ok g0 →
      List.Pairwise (fun a b => ¬ is_below b.path a.path) g0.platform_names →
      List.Pairwise (fun a b => ¬ is_below b.path a.path)
        (es.foldl (fun g e => handle_platform_device_event e g) g0).platform_names := by
    intro es
    induction es with
    | nil => intro g0 _ h; exact h
    | cons e es ih =>
      intro g0 hok h
      refine ih _ (registry_ok_handle e g0 hok) ?_
      show List.Pairwise (fun a b => ¬ is_below b.path a.path)
        (handle_platform_device_event e g0).platform_names
      unfold handle_platform_device_event
      split_ifs
      · cases hf : find_platform_device e.path g0 with
        | some r => rw [add_platform_device_ignores e.path g0 r hf]; exact h
        | none =>
          have hf2 : g0.platform_names.reverse.find? (is_subdevice e.path) = none := hf
          unfold add_platform_device
          rw [hf2]
          simp only
          rw [List.pairwise_append]
          refine ⟨h, List.pairwise_singleton _ _, ?_⟩
          intro a ha b hb
          simp only [List.mem_singleton] at hb
          subst hb
          intro hbelow
          have hna := List.find?_eq_none.1 hf2 a (List.mem_reverse.2 ha)
          exact hna ((is_subdevice_iff e.path a (hok a ha).1 (hok a ha).2).2 hbelow)
      · exact h.sublist (remove_platform_device_sublist e.path g0)
      · exact h
  exact key es {} registry_ok_empty List.Pairwise.nil

/-- C14. Canonical platform name: for every path that `add_platform_device`
registers, the stored name is the path with a leading `/devices/` removed and
then, if what remains starts with `platform/`, that segment removed too; a
path that does not start with `/devices/` is stored as its own name unchanged;
the stored `path_len` equals the length of the path and the name is a suffix
of the stored path. -/
theorem add_platform_device_canonical_name (path : List Char) (g : globals)
    (hp : NUL ∉ path) (h : find_platform_device path g = none) :
    ∃ r, add_platform_device path g
        = { g with platform_names := g.platform_names ++ [r] } ∧
      r.path = path ∧ r.path_len = path.length ∧ r.name <:+ r.path ∧
      (∀ rest, path = "/devices/platform/".toList ++ rest → r.name = rest) ∧
      (∀ rest, path = "/devices/".toList ++ rest → ¬ "platform/".toList <+: rest →
        r.name = rest) ∧
      (¬ "/devices/".toList <+: path → r.name = path) := by
  refine ⟨platform_record path, add_platform_device_registers path g hp h, rfl, rfl,
    ?_, ?_, ?_, ?_⟩
  · unfold platform_record
    simp only
    split_ifs
    · exact List.drop_suffix _ _
    · exact List.drop_suffix _ _
    · exact List.suffix_refl _
  · intro rest hr
    unfold platform_record
    simp only
    rw [if_pos ⟨rest, hr.symm⟩, hr]
    exact List.drop_left' (by decide)
  · intro rest hr hnp
    have h1 : ¬ "/devices/platform/".toList <+: path := by
      rintro ⟨t, ht⟩
      rw [hr] at ht
      have h2 : "/devices/platform/".toList = "/devices/".toList ++ "platform/".toList := by
        decide
      rw [h2, List.append_assoc] at ht
      exact hnp ⟨t, List.append_cancel_left ht⟩
    unfold platform_record
    simp only
    rw [if_neg h1, if_pos ⟨rest, hr.symm⟩, hr]
    exact List.drop_left' (by decide)
  · intro hnd
    have h1 : ¬ "/devices/platform/".toList <+: path := by
      rintro ⟨t, ht⟩
      apply hnd
      have h2 : "/devices/platform/".toList = "/devices/".toList ++ "platform/".toList := by
        decide
      rw [h2, List.append_assoc] at ht
      exact ⟨_, ht⟩
    unfold platform_record
    simp only
    rw [if_neg h1, if_neg hnd]

/-- C14 at `/devices/platform/sdhci` registered in the empty registry: the
name stored is `sdhci`. -/
theorem add_platform_device_canonical_name_witness :
    ∃ r, add_platform_device "/devices/platform/sdhci".toList {}
        = { ({} : globals) with platform_names := ({} : globals).platform_names ++ [r] } ∧
      r.path = "/devices/platform/sdhci".toList ∧ r.name = "sdhci".toList := by
  obtain ⟨r, h1, h2, -, -, h5, -, -⟩ :=
    add_platform_device_canonical_name "/devices/platform/sdhci".toList {}
      (by decide) (by decide)
  exact ⟨r, h1, h2, h5 "sdhci".toList (by decide)⟩

/-! ## Routing -/

theorem strcmp0_literal (s lit : List Char) (hl : NUL ∉ lit) :
    strcmp0 s lit = true ↔ cstr s = lit := by
  unfold strcmp0
  rw [cstr_of_nul_free hl, beq_iff_eq]

/-- C15. Event routing in `handle_device_event`: for every event, the module
autoloader is invoked with the event's modalias iff the action is exactly
`add`; then `fixup_sys_perms(path)` is invoked iff the action is exactly `add`
or `change`; then exactly one handler runs: the block handler if the subsystem
starts with `block`, otherwise the platform handler if the subsystem starts
with `platform`, otherwise the generic handler; in this order.  Stated for
all functions called, as a composition, and for the functions that record
their call. -/
theorem handle_device_event_routing (e : uevent) :
    (∀ (σ : Type) (hm : Option (List Char) → σ → σ) (fx : List Char → σ → σ)
        (hb hp hg : uevent → σ → σ) (s : σ),
      handle_device_event hm fx hb hp hg e s
        = (if "block".toList <+: cstr e.subsystem then hb e
           else if "platform".toList <+: cstr e.subsystem then hp e
           else hg e)
          ((if cstr e.action = "add".toList ∨ cstr e.action = "change".toList
              then fx e.path else id)
            ((if cstr e.action = "add".toList then hm e.modalias else id) s))) ∧
    handle_device_event
        (fun m tr => tr ++ [routed_call.module_loading m])
        (fun p tr => tr ++ [routed_call.fixup p])
        (fun x tr => tr ++ [routed_call.block x])
        (fun x tr => tr ++ [routed_call.platform x])
        (fun x tr => tr ++ [routed_call.generic x]) e []
      = (if cstr e.action = "add".toList then [routed_call.module_loading e.modalias] else [])
        ++ (if cstr e.action = "add".toList ∨ cstr e.action = "change".toList
              then [routed_call.fixup e.path] else [])
        ++ [if "block".toList <+: cstr e.subsystem then routed_call.block e
            else if "platform".toList <+: cstr e.subsystem then routed_call.platform e
            else routed_call.generic e] := by
  have ha := strcmp0_literal e.action "add".toList (by decide)
  have hc := strcmp0_literal e.action "change".toList (by decide)
  have hb := strncmp0_iff e.subsystem "block".toList 5 (by decide) (by decide)
  have hp := strncmp0_iff e.subsystem "platform".toList 8 (by decide) (by decide)
  have gen : ∀ (σ : Type) (hm : Option (List Char) → σ → σ) (fx : List Char → σ → σ)
        (hb hp hg : uevent → σ → σ) (s : σ),
      handle_device_event hm fx hb hp hg e s
        = (if "block".toList <+: cstr e.subsystem then hb e
           else if "platform".toList <+: cstr e.subsystem then hp e
           else hg e)
          ((if cstr e.action = "add".toList ∨ cstr e.action = "change".toList
              then fx e.path else id)
            ((if cstr e.action = "add".toList then hm e.modalias else id) s)) := by
    intro σ hm fx hb2 hp2 hg s
    unfold handle_device_event
    simp only [Bool.or_eq_true, ha, hc, hb, hp]
    split_ifs <;> rfl
  refine ⟨gen, ?_⟩
  rw [gen]
  split_ifs <;> rfl

/-! ## Device names -/

theorem strrchr_none (s : List Char) (c : Char) (h : c ∉ s) : strrchr s c = none := by
  induction s with
  | nil => rfl
  | cons x xs ih =>
    have hx : x ≠ c := fun hx => h (by rw [hx]; exact List.mem_cons_self _ _)
    have hxs : c ∉ xs := fun hx => h (List.mem_cons_of_mem _ hx)
    simp only [strrchr, ih hxs, hx, if_false]
    split_ifs <;> rfl

/-- The last slash of a path: `strrchr` finds the slash before the name. -/
theorem strrchr_slash (dir n : List Char) (hd : NUL ∉ dir) (hn : SLASH ∉ n) :
    strrchr (dir ++ SLASH :: n) SLASH = some (SLASH :: n) := by
  induction dir with
  | nil =>
    have h1 : SLASH ≠ NUL := by decide
    simp only [List.nil_append, strrchr, h1, if_false, strrchr_none n SLASH hn, if_true]
  | cons x xs ih =>
    have hx : x ≠ NUL := fun hx => hd (by rw [hx]; exact List.mem_cons_self _ _)
    have hxs : NUL ∉ xs := fun h => hd (List.mem_cons_of_mem _ h)
    have h1 : strrchr (x :: (xs ++ SLASH :: n)) SLASH
        = match strrchr (xs ++ SLASH :: n) SLASH with
          | some r => some r
          | none => if x = SLASH then some (x :: (xs ++ SLASH :: n)) else none := by
      simp only [strrchr, hx, if_false]
    rw [List.cons_append, h1, ih hxs]

theorem parse_device_name_slash (e : uevent) (len : Nat) (dir n : List Char)
    (hp : NUL ∉ e.path) (hq : e.path = dir ++ SLASH :: n) (hn : SLASH ∉ n) :
    parse_device_name e len = if n.length > len then none else some n := by
  have hd : NUL ∉ dir := fun h => hp (by rw [hq]; exact List.mem_append_left _ h)
  have hnn : NUL ∉ n := fun h =>
    hp (by rw [hq]; exact List.mem_append_right _ (List.mem_cons_of_mem _ h))
  unfold parse_device_name
  rw [hq, strrchr_slash dir n hd hn]
  simp only [List.drop_succ_cons, List.drop_zero, strlen, cstr_of_nul_free hnn]

theorem parse_device_name_no_slash (e : uevent) (len : Nat) (h : SLASH ∉ e.path) :
    parse_device_name e len = none := by
  unfold parse_device_name
  rw [strrchr_none e.path SLASH h]

theorem snprintf_fits (size : Nat) (s : List Char) (hs : NUL ∉ s)
    (hl : s.length ≤ size - 1) : snprintf size s = s := by
  unfold snprintf
  rw [cstr_of_nul_free hs]
  exact List.take_of_length_le hl

/-- C16. Block device name and path: for every block event, if the sysfs path
contains no slash or the part after its last slash is longer than 64 bytes,
the block handler performs no directory, node or link operation at all;
otherwise the device path it hands to `handle_device` is exactly
`/dev/block/` followed by the name, never truncated by the 96-byte buffer,
with `block` true. -/
theorem handle_block_device_event_path (env : environment) (e : uevent) (g : globals)
    (hp : NUL ∉ e.path) :
    (SLASH ∉ e.path → handle_block_device_event env e g = []) ∧
    (∀ dir n, e.path = dir ++ SLASH :: n → SLASH ∉ n → 64 < n.length →
      handle_block_device_event env e g = []) ∧
    (∀ dir n, e.path = dir ++ SLASH :: n → SLASH ∉ n → n.length ≤ 64 →
      handle_block_device_event env e g
        = syscall.make_dir "/dev/block/".toList 0o755 ::
          handle_device env e.action ("/dev/block/".toList ++ n) e.path true
            e.major e.minor
            (if "/devices/".toList <+: e.path then parse_platform_block_device env e g
             else none) g) := by
  refine ⟨?_, ?_, ?_⟩
  · intro h
    unfold handle_block_device_event
    rw [parse_device_name_no_slash e 64 h]
  · intro dir n hq hn hl
    unfold handle_block_device_event
    rw [parse_device_name_slash e 64 dir n hp hq hn, if_pos hl]
  · intro dir n hq hn hl
    have hnn : NUL ∉ n := fun h =>
      hp (by rw [hq]; exact List.mem_append_right _ (List.mem_cons_of_mem _ h))
    have hb : NUL ∉ "/dev/block/".toList := by decide
    have hfit : snprintf 96 ("/dev/block/".toList ++ cstr n) = "/dev/block/".toList ++ n := by
      rw [cstr_of_nul_free hnn]
      apply snprintf_fits
      · simp only [List.mem_append, not_or]; exact ⟨hb, hnn⟩
      · have : "/dev/block/".toList.length = 11 := by decide
        rw [List.length_append, this]; omega
    have hdev : (strncmp0 e.path "/devices/".toList 9 = true) ↔ "/devices/".toList <+: e.path := by
      rw [strncmp0_iff _ _ _ (by decide) (by decide), cstr_of_nul_free hp]
    unfold handle_block_device_event
    rw [parse_device_name_slash e 64 dir n hp hq hn, if_neg (by omega)]
    simp only [hfit, hdev, List.singleton_append]

/-- C16 at the block event of `/devices/platform/sdhci/mmcblk0p1`; the path
has no `NUL`, a name of 9 bytes, and begins with `/devices/`. -/
theorem handle_block_device_event_path_witness :
    handle_block_device_event env_ok event_block_add registry_sdhci
      = syscall.make_dir "/dev/block/".toList 0o755 ::
        handle_device env_ok event_block_add.action ("/dev/block/".toList ++ "mmcblk0p1".toList)
          event_block_add.path true event_block_add.major event_block_add.minor
          (if "/devices/".toList <+: event_block_add.path then
             parse_platform_block_device env_ok event_block_add registry_sdhci
           else none) registry_sdhci :=
  (handle_block_device_event_path env_ok event_block_add registry_sdhci (by decide)).2.2
    "/devices/platform/sdhci".toList "mmcblk0p1".toList (by decide) (by decide) (by decide)

/-! ## Symlinks of block devices -/

/-- C17 fails as stated: when `malloc` returns no memory for the array of
links, `parse_platform_block_device` returns no links at all, although the
path is below the registered platform device `sdhci`. -/
theorem parse_platform_block_device_without_memory :
    find_platform_device event_block_add.path registry_sdhci
      = some (platform_record "/devices/platform/sdhci".toList) ∧
    parse_platform_block_device env_no_memory event_block_add registry_sdhci = none := by
  decide

/-- C17, amended. Block symlink set for a platform device: for every block
event whose path lies below a registered platform device, found by
`find_platform_device`, with canonical name `D` (with `/dev/block/platform/D`
shorter than 256 bytes), when `malloc` and `asprintf` return memory,
`parse_platform_block_device` returns, in this order,
`/dev/block/platform/D/by-name/` and the sanitized partition name iff a
partition name is present, `/dev/block/platform/D/by-num/p` and the decimal
partition number iff the partition number is `>= 0`, and always last
`/dev/block/platform/D/` and the name after the last slash of the path; so
between 1 and 3 links. -/
theorem parse_platform_block_device_links (env : environment) (e : uevent) (g : globals)
    (pdev : platform_node) (dir n : List Char)
    (hm : env.malloc_ok = true) (h0 : env.asprintf_ok 0 = true)
    (h1 : env.asprintf_ok 1 = true) (h2 : env.asprintf_ok 2 = true)
    (hn : nul_free e)
    (hf : find_platform_device e.path g = some pdev) (hname : NUL ∉ pdev.name)
    (hlen : ("/dev/block/platform/".toList ++ pdev.name).length < 256)
    (hq : e.path = dir ++ SLASH :: n) (hs : SLASH ∉ n) :
    parse_platform_block_device env e g
      = some ((match e.partition_name with
                | some pn => ["/dev/block/platform/".toList ++ pdev.name
                                ++ "/by-name/".toList ++ cstr (env.sanitize pn)]
                | none => [])
              ++ (if e.partition_num ≥ 0 then
                    ["/dev/block/platform/".toList ++ pdev.name ++ "/by-num/p".toList
                      ++ decimal e.partition_num]
                  else [])
              ++ ["/dev/block/platform/".toList ++ pdev.name ++ "/".toList ++ n]) ∧
    (∀ links, parse_platform_block_device env e g = some links →
      1 ≤ links.length ∧ links.length ≤ 3) := by
  obtain ⟨-, hp, -, -, hpn, -, -, -⟩ := hn
  have hd : NUL ∉ dir := fun h => hp (by rw [hq]; exact List.mem_append_left _ h)
  have hnn : NUL ∉ n := fun h =>
    hp (by rw [hq]; exact List.mem_append_right _ (List.mem_cons_of_mem _ h))
  have hlp : snprintf 256 ("/dev/block/platform/".toList ++ pdev.name)
      = "/dev/block/platform/".toList ++ pdev.name := by
    apply snprintf_fits
    · simp only [List.mem_append, not_or]
      exact ⟨by decide, hname⟩
    · omega
  have hslash : strrchr e.path SLASH = some (SLASH :: n) := by
    rw [hq]; exact strrchr_slash dir n hd hs
  have hmain : parse_platform_block_device env e g
      = some ((match e.partition_name with
                | some pn => ["/dev/block/platform/".toList ++ pdev.name
                                ++ "/by-name/".toList ++ cstr (env.sanitize pn)]
                | none => [])
              ++ (if e.partition_num ≥ 0 then
                    ["/dev/block/platform/".toList ++ pdev.name ++ "/by-num/p".toList
                      ++ decimal e.partition_num]
                  else [])
              ++ ["/dev/block/platform/".toList ++ pdev.name ++ "/".toList ++ n]) := by
    unfold parse_platform_block_device
    simp only [hf, hm, h0, h1, h2, hlp, hslash, Bool.not_true, Bool.false_eq_true, if_false,
      if_true, List.drop_succ_cons, List.drop_zero, cstr_of_nul_free hnn]
    cases hpe : e.partition_name with
    | none => rfl
    | some pn =>
      have : strdup pn = pn := cstr_of_nul_free (hpn pn hpe)
      simp only [this]
  refine ⟨hmain, ?_⟩
  intro links hl
  rw [hmain] at hl
  have hl2 := Option.some.inj hl
  rw [← hl2]
  cases e.partition_name <;> by_cases hnum : e.partition_num ≥ 0 <;>
    simp [hnum]

/-- C17, amended, at the event of the specification's first scenario: path
`/devices/platform/sdhci/mmcblk0p1`, `PARTN=1`, `PARTNAME=system`, with
`sdhci` registered. -/
theorem parse_platform_block_device_links_witness :
    parse_platform_block_device env_ok event_block_add registry_sdhci
      = some ["/dev/block/platform/sdhci/by-name/system".toList,
              "/dev/block/platform/sdhci/by-num/p1".toList,
              "/dev/block/platform/sdhci/mmcblk0p1".toList] :=
  (parse_platform_block_device_links env_ok event_block_add registry_sdhci
    (platform_record "/devices/platform/sdhci".toList)
    "/devices/platform/sdhci".toList "mmcblk0p1".toList
    rfl rfl rfl rfl
    ⟨by decide, by decide, by decide, by decide,
      fun v hv => by
        have : v = "system".toList := (Option.some.inj hv).symm
        subst this; decide,
      fun v hv => Option.noConfusion hv, fun v hv => Option.noConfusion hv,
      fun v hv => Option.noConfusion hv⟩
    (by decide) (by decide) (by decide) (by decide) (by decide)).1.trans (by decide)

/-! ## The generic handler: USB device paths -/

theorem decimal_digits_length (k : Nat) : ∀ n d, n < k → n < 10 ^ (d + 1) →
    (decimal_digits k n).length ≤ d + 1 := by
  induction k with
  | zero => intro n d h; omega
  | succ k ih =>
    intro n d h hd
    by_cases hn : n < 10
    · simp [decimal_digits, hn]
    · simp only [decimal_digits, hn, if_false, List.length_append, List.length_singleton]
      cases d with
      | zero => omega
      | succ d =>
        have h1 : n / 10 < 10 ^ (d + 1) := by
          rw [Nat.div_lt_iff_lt_mul (by decide)]
          rw [pow_succ] at hd
          exact hd
        have := ih (n / 10) d (by omega) h1
        omega

theorem nul_not_mem_pad3 (i : Int) : NUL ∉ pad3 i := by
  have h := nul_not_mem_decimal_digits (i.natAbs + 1) i.natAbs (Nat.lt_succ_self _)
  have hz : NUL ≠ Char.ofNat 48 := by decide
  unfold pad3
  split_ifs
  · simp only [List.mem_cons, List.mem_append, List.mem_replicate, not_or, not_and]
    exact ⟨by decide, fun _ => hz, h⟩
  · simp only [List.mem_append, List.mem_replicate, not_or, not_and]
    exact ⟨fun _ => hz, h⟩

theorem pad3_length (i : Int) (d : Nat) (h : i.natAbs < 10 ^ (d + 3)) :
    (pad3 i).length ≤ d + 4 := by
  have h1 := decimal_digits_length (i.natAbs + 1) i.natAbs (d + 2) (Nat.lt_succ_self _) h
  unfold pad3
  split_ifs
  · simp only [List.length_cons, List.length_append, List.length_replicate]
    omega
  · simp only [List.length_append, List.length_replicate]
    omega

/-- For a non-negative number `pad3` is the decimal form with zeros in front
up to three digits. -/
theorem pad3_natCast (k : Nat) :
    pad3 (k : Int)
      = List.replicate (3 - (decimal (k : Int)).length) (Char.ofNat 48) ++ decimal (k : Int) := by
  have h : ¬ ((k : Int) < 0) := by omega
  simp only [pad3, decimal, h, if_false]

theorem tdiv_tmod_bounds (m : Int) (h : is_int m) :
    (Int.tdiv m 128 + 1).natAbs < 10 ^ 10 ∧ (Int.tmod m 128 + 1).natAbs < 10 ^ 3 := by
  obtain ⟨lo, hi⟩ := h
  unfold INT_MIN at lo
  unfold INT_MAX at hi
  cases m with
  | ofNat n =>
    have e1 : Int.tdiv (Int.ofNat n) 128 = ((n / 128 : Nat) : Int) := rfl
    have e2 : Int.tmod (Int.ofNat n) 128 = ((n % 128 : Nat) : Int) := rfl
    rw [e1, e2]
    have hn : n ≤ 2147483647 := by
      have : (Int.ofNat n) = (n : Int) := rfl
      omega
    constructor <;> omega
  | negSucc n =>
    have e1 : Int.tdiv (Int.negSucc n) 128 = -(((n + 1) / 128 : Nat) : Int) := rfl
    have e2 : Int.tmod (Int.negSucc n) 128 = -(((n + 1) % 128 : Nat) : Int) := rfl
    rw [e1, e2]
    have hn : n + 1 ≤ 2147483648 := by
      have : Int.negSucc n = -((n : Int) + 1) := rfl
      omega
    constructor <;> omega

/-- C18. USB synthetic bus numbering: for every event whose subsystem is
exactly `usb`, whose `DEVNAME` is absent and whose path has a name of at most
64 bytes after its last slash, the generic handler makes the directories
`/dev/bus`, `/dev/bus/usb` and `/dev/bus/usb/BBB`, and the device path it
computes is `/dev/bus/usb/BBB/DDD` with `BBB = pad3(minor / 128 + 1)` and
`DDD = pad3(minor % 128 + 1)`, where `/` and `%` are C integer division and
remainder and `pad3` is `%03d`: decimal, zero-padded to at least three digits
for a non-negative number. -/
theorem handle_generic_usb_bus_path (env : environment) (e : uevent) (g : globals)
    (dir n : List Char)
    (hp : NUL ∉ e.path) (hsub : e.subsystem = "usb".toList) (hd : e.device_name = none)
    (hi : is_int e.minor)
    (hq : e.path = dir ++ SLASH :: n) (hs : SLASH ∉ n) (hl : n.length ≤ 64) :
    handle_generic_device_event env e g
      = [syscall.make_dir "/dev/bus".toList 0o755,
         syscall.make_dir "/dev/bus/usb".toList 0o755,
         syscall.make_dir ("/dev/bus/usb/".toList ++ pad3 (Int.tdiv e.minor 128 + 1)) 0o755]
        ++ generic_device_finish env e
            ("/dev/bus/usb/".toList ++ pad3 (Int.tdiv e.minor 128 + 1) ++ "/".toList
              ++ pad3 (Int.tmod e.minor 128 + 1)) true g ∧
    (∀ k : Nat, pad3 (k : Int)
      = List.replicate (3 - (decimal (k : Int)).length) (Char.ofNat 48) ++ decimal (k : Int)) := by
  refine ⟨?_, pad3_natCast⟩
  obtain ⟨b1, b2⟩ := tdiv_tmod_bounds e.minor hi
  have l1 := pad3_length (Int.tdiv e.minor 128 + 1) 7 b1
  have l2 := pad3_length (Int.tmod e.minor 128 + 1) 0 b2
  have n1 := nul_not_mem_pad3 (Int.tdiv e.minor 128 + 1)
  have n2 := nul_not_mem_pad3 (Int.tmod e.minor 128 + 1)
  have hk : NUL ∉ "/dev/bus/usb/".toList := by decide
  have hkl : "/dev/bus/usb/".toList.length = 13 := by decide
  have hsl : NUL ∉ "/".toList := by decide
  have hsll : "/".toList.length = 1 := by decide
  have f1 : snprintf 96 ("/dev/bus/usb/".toList ++ pad3 (Int.tdiv e.minor 128 + 1))
      = "/dev/bus/usb/".toList ++ pad3 (Int.tdiv e.minor 128 + 1) := by
    apply snprintf_fits
    · simp only [List.mem_append, not_or]; exact ⟨hk, n1⟩
    · rw [List.length_append, hkl]; omega
  have f2 : snprintf 96 ("/dev/bus/usb/".toList ++ pad3 (Int.tdiv e.minor 128 + 1)
        ++ "/".toList ++ pad3 (Int.tmod e.minor 128 + 1))
      = "/dev/bus/usb/".toList ++ pad3 (Int.tdiv e.minor 128 + 1) ++ "/".toList
        ++ pad3 (Int.tmod e.minor 128 + 1) := by
    apply snprintf_fits
    · simp only [List.mem_append, not_or]; exact ⟨⟨⟨hk, n1⟩, hsl⟩, n2⟩
    · rw [List.length_append, List.length_append, List.length_append, hkl, hsll]; omega
  have u1 : strncmp0 e.subsystem "usb".toList 3 = true := by rw [hsub]; decide
  have u2 : strcmp0 e.subsystem "usb".toList = true := by rw [hsub]; decide
  unfold handle_generic_device_event
  rw [parse_device_name_slash e 64 dir n hp hq hs, if_neg (by omega)]
  simp only [u1, u2, hd, if_true, f1, f2]

/-- C18 at minor 130: the device path is `/dev/bus/usb/002/003`. -/
theorem handle_generic_usb_bus_path_witness :
    handle_generic_device_event env_ok event_usb_minor_130 {}
      = [syscall.make_dir "/dev/bus".toList 0o755,
         syscall.make_dir "/dev/bus/usb".toList 0o755,
         syscall.make_dir "/dev/bus/usb/002".toList 0o755]
        ++ generic_device_finish env_ok event_usb_minor_130
            "/dev/bus/usb/002/003".toList true {} :=
  (handle_generic_usb_bus_path env_ok event_usb_minor_130 {}
    "/devices/pci0000:00".toList "usb1".toList (by decide) rfl rfl (by decide)
    (by decide) (by decide) (by decide)).1.trans (by decide)

/-! ## The generic handler: USB device names -/

theorem build_directories_eq : ∀ (rest done : List Char),
    build_directories done rest
      = ((List.range rest.length).filter (fun i => rest[i]? == some SLASH)).map
          (fun i => syscall.make_dir (done ++ rest.take i) 0o755) := by
  intro rest
  induction rest with
  | nil => intro done; rfl
  | cons c r ih =>
    intro done
    have htail : List.map (fun i => syscall.make_dir (done ++ List.take i (c :: r)) 0o755)
          (List.filter (fun i => (c :: r)[i]? == some SLASH)
            (List.map Nat.succ (List.range r.length)))
        = List.map (fun i => syscall.make_dir (done ++ [c] ++ List.take i r) 0o755)
          (List.filter (fun i => r[i]? == some SLASH) (List.range r.length)) := by
      rw [List.filter_map, List.map_map]
      have hf : ((fun i => (c :: r)[i]? == some SLASH) ∘ Nat.succ)
          = (fun i => r[i]? == some SLASH) := by
        funext i; simp
      rw [hf]
      apply List.map_congr_left
      intro i _
      simp
    rw [build_directories, ih (done ++ [c]), List.length_cons, List.range_succ_eq_map]
    by_cases hc : c = SLASH
    · have h0 : ((c :: r)[0]? == some SLASH) = true := by simp [hc]
      rw [if_pos hc, List.filter_cons, if_pos h0, List.map_cons, htail]
      simp
    · have h0 : ¬ ((c :: r)[0]? == some SLASH) = true := by simp [hc]
      rw [if_neg hc, List.filter_cons, if_neg h0, htail]
      simp

theorem get_character_device_symlinks_calls (env : environment) (e : uevent) (g : globals) :
    (get_character_device_symlinks env e g).2 = [] ∨
    (get_character_device_symlinks env e g).2 = [syscall.mkdir "/dev/usb".toList 0o755] := by
  unfold get_character_device_symlinks
  dsimp only
  repeat' split
  all_goals first | (left; rfl) | (right; rfl)

theorem mem_ite_singleton {α : Type} {c : Prop} [Decidable c] {a x : α}
    (h : x ∈ (if c then [a] else [])) : x = a := by
  split_ifs at h
  · exact List.mem_singleton.1 h
  · exact absurd h (List.not_mem_nil _)

theorem make_device_no_make_dir (env : environment) (path upath : List Char) (block : Bool)
    (major minor : Int) (g : globals) :
    (make_device env path upath block major minor g).filter syscall.is_make_dir = [] := by
  rw [List.filter_eq_nil_iff]
  intro x hx
  unfold make_device at hx
  simp only [List.mem_append, List.mem_cons, List.mem_singleton, List.not_mem_nil,
    or_false] at hx
  rcases hx with (hx | hx | hx | hx | hx) | hx
  · rw [mem_ite_singleton hx]; simp [syscall.is_make_dir]
  · rw [hx]; simp [syscall.is_make_dir]
  · rw [hx]; simp [syscall.is_make_dir]
  · rw [hx]; simp [syscall.is_make_dir]
  · rw [hx]; simp [syscall.is_make_dir]
  · rw [mem_ite_singleton hx]; simp [syscall.is_make_dir]

theorem filter_map_eq_nil {α β : Type} (p : β → Bool) (f : α → β) (l : List α)
    (h : ∀ a, p (f a) = false) : (l.map f).filter p = [] := by
  induction l with
  | nil => rfl
  | cons a l ih => simp [h a, ih]

theorem handle_device_no_make_dir (env : environment) (action devpath path : List Char)
    (block : Bool) (major minor : Int) (links : Option (List (List Char))) (g : globals) :
    (handle_device env action devpath path block major minor links g).filter
      syscall.is_make_dir = [] := by
  have h1 := make_device_no_make_dir env devpath path block major minor g
  have h2 := filter_map_eq_nil syscall.is_make_dir (fun l => syscall.make_link devpath l)
    (links.getD []) (fun _ => rfl)
  have h3 := filter_map_eq_nil syscall.is_make_dir (fun l => syscall.remove_link devpath l)
    (links.getD []) (fun _ => rfl)
  unfold handle_device
  simp only [List.filter_append]
  split_ifs <;>
    simp only [List.filter_append, h1, h2, h3, List.filter_nil, List.append_nil,
      List.nil_append] <;> rfl

theorem filter_flatMap_eq_nil {α β : Type} (p : β → Bool) (f : α → List β) (l : List α)
    (h : ∀ a, (f a).filter p = []) : (l.flatMap f).filter p = [] := by
  induction l with
  | nil => rfl
  | cons a l ih => rw [List.flatMap_cons, List.filter_append, h a, ih]; rfl

theorem usb_device_class_rule_calls_no_make_dir (env : environment) (e : uevent)
    (type devpath : List Char) (usbdc : usb_device_class_node) :
    (usb_device_class_rule_calls env e type devpath usbdc).filter syscall.is_make_dir
      = [] := by
  unfold usb_device_class_rule_calls
  split_ifs <;> rfl

theorem usb_device_class_rule_no_make_dir (env : environment) (e : uevent)
    (devpath : List Char) (g : globals) :
    (handle_usb_device_class_rule env e devpath g).filter syscall.is_make_dir = [] := by
  unfold handle_usb_device_class_rule
  cases e.type with
  | none => rfl
  | some type =>
    exact filter_flatMap_eq_nil _ _ _
      (usb_device_class_rule_calls_no_make_dir env e type devpath)

/-- The end of the generic handler makes no directory by `make_dir`. -/
theorem generic_device_finish_no_make_dir (env : environment) (e : uevent)
    (devpath : List Char) (is_usb_dev : Bool) (g : globals) :
    (generic_device_finish env e devpath is_usb_dev g).filter syscall.is_make_dir = [] := by
  unfold generic_device_finish
  simp only [List.filter_append, handle_device_no_make_dir]
  have h4 : (if is_usb_dev = true then handle_usb_device_class_rule env e devpath g
      else []).filter syscall.is_make_dir = [] := by
    split_ifs
    · exact usb_device_class_rule_no_make_dir env e devpath g
    · rfl
  rw [h4]
  rcases get_character_device_symlinks_calls env e g with h | h <;> rw [h] <;> rfl

/-- C19 fails as stated.  With a `DEVNAME` of 91 bytes the device path is cut
to the 95 bytes that fit `devpath[96]`: the node is made at `/dev/` followed
by 90 bytes of the name, not at `/dev/` followed by the name.  And with the
path below a registered platform device the handler also creates `/dev/usb`
with mode 0755, which is no prefix of the device path
`/dev/bus/usb/001/004`. -/
theorem usb_devname_path_truncated :
    event_usb_long_devname.device_name = some (List.replicate 91 (Char.ofNat 97)) ∧
    syscall.mknod ("/dev/".toList ++ List.replicate 90 (Char.ofNat 97)) 0o20600 189 0
      ∈ handle_generic_device_event env_ok event_usb_long_devname {} ∧
    syscall.mknod ("/dev/".toList ++ List.replicate 91 (Char.ofNat 97)) 0o20600 189 0
      ∉ handle_generic_device_event env_ok event_usb_long_devname {} ∧
    syscall.mkdir "/dev/usb".toList 0o755
      ∈ handle_generic_device_event env_ok event_usb_devname registry_ehci := by
  decide

/-- C19, amended. USB node path from `DEVNAME`: for every event whose
subsystem is exactly `usb` and that supplies `DEVNAME = d` of at most 90 bytes
(path name at most 64 bytes), the device path used by the generic handler is
exactly `/dev/` followed by `d`, and the directories it creates by `make_dir`,
all with mode 0755, are exactly the prefixes of that path that end just before
each slash occurring after the leading `/dev/`, in left-to-right order. -/
theorem handle_generic_usb_devname_path (env : environment) (e : uevent) (g : globals)
    (dir n d : List Char)
    (hp : NUL ∉ e.path) (hsub : e.subsystem = "usb".toList)
    (hd : e.device_name = some d) (hdn : NUL ∉ d) (hdl : d.length ≤ 90)
    (hq : e.path = dir ++ SLASH :: n) (hs : SLASH ∉ n) (hl : n.length ≤ 64) :
    handle_generic_device_event env e g
      = devname_directories d
        ++ generic_device_finish env e ("/dev/".toList ++ d) true g ∧
    (handle_generic_device_event env e g).filter syscall.is_make_dir
      = devname_directories d := by
  have hk : NUL ∉ "/dev/".toList := by decide
  have hkl : "/dev/".toList.length = 5 := by decide
  have f1 : snprintf 96 ("/dev/".toList ++ cstr d) = "/dev/".toList ++ d := by
    rw [cstr_of_nul_free hdn]
    apply snprintf_fits
    · simp only [List.mem_append, not_or]; exact ⟨hk, hdn⟩
    · rw [List.length_append, hkl]; omega
  have t5 : ("/dev/".toList ++ d).take 5 = "/dev/".toList := by
    rw [List.take_append_eq_append_take, hkl]; simp
  have d5 : ("/dev/".toList ++ d).drop 5 = d := List.drop_left' hkl
  have u1 : strncmp0 e.subsystem "usb".toList 3 = true := by rw [hsub]; decide
  have u2 : strcmp0 e.subsystem "usb".toList = true := by rw [hsub]; decide
  have hmain : handle_generic_device_event env e g
      = devname_directories d
        ++ generic_device_finish env e ("/dev/".toList ++ d) true g := by
    unfold handle_generic_device_event
    rw [parse_device_name_slash e 64 dir n hp hq hs, if_neg (by omega)]
    simp only [u1, u2, hd, if_true, f1, t5, d5, build_directories_eq]
    rfl
  refine ⟨hmain, ?_⟩
  rw [hmain, List.filter_append, generic_device_finish_no_make_dir, List.append_nil]
  unfold devname_directories
  exact List.filter_eq_self.2 (fun x hx => by
    obtain ⟨i, -, rfl⟩ := List.mem_map.1 hx
    rfl)

/-- C19, amended, at `DEVNAME=bus/usb/001/004`: the node is
`/dev/bus/usb/001/004` and the directories are `/dev/bus`, `/dev/bus/usb` and
`/dev/bus/usb/001`. -/
theorem handle_generic_usb_devname_path_witness :
    handle_generic_device_event env_ok event_usb_devname registry_ehci
      = [syscall.make_dir "/dev/bus".toList 0o755,
         syscall.make_dir "/dev/bus/usb".toList 0o755,
         syscall.make_dir "/dev/bus/usb/001".toList 0o755]
        ++ generic_device_finish env_ok event_usb_devname "/dev/bus/usb/001/004".toList
            true registry_ehci :=
  (handle_generic_usb_devname_path env_ok event_usb_devname registry_ehci
    "/devices/platform/ehci/usb1/1-1/1-1:1.0".toList "dev".toList "bus/usb/001/004".toList
    (by decide) rfl rfl (by decide) (by decide) (by decide) (by decide) (by decide)).1.trans
    (by decide)

/-! ## The generic handler: the table of subsystems -/

theorem snprintf_base_name (base n : List Char) (hb : NUL ∉ base) (hn : NUL ∉ n)
    (hl : base.length + n.length ≤ 95) : snprintf 96 (base ++ cstr n) = base ++ n := by
  rw [cstr_of_nul_free hn]
  apply snprintf_fits
  · simp only [List.mem_append, not_or]; exact ⟨hb, hn⟩
  · rw [List.length_append]; omega

theorem handle_generic_subsystem_graphics (env : environment) (e : uevent) (g : globals)
    (dir n : List Char) (hp : NUL ∉ e.path) (hq : e.path = dir ++ SLASH :: n)
    (hs : SLASH ∉ n) (hl : n.length ≤ 64) (hsub : e.subsystem = "graphics".toList) :
    handle_generic_device_event env e g
      = syscall.make_dir "/dev/graphics/".toList 0o755 ::
        generic_device_finish env e ("/dev/graphics/".toList ++ n) false g := by
  have hnn : NUL ∉ n := fun h =>
    hp (by rw [hq]; exact List.mem_append_right _ (List.mem_cons_of_mem _ h))
  have t0 : strncmp0 e.subsystem "usb".toList 3 = false := by rw [hsub]; decide
  have t1 : strncmp0 e.subsystem "graphics".toList 8 = true := by rw [hsub]; decide
  have hfit := snprintf_base_name "/dev/graphics/".toList n (by decide) hnn
    (by have : "/dev/graphics/".toList.length = 14 := by decide
        omega)
  unfold handle_generic_device_event
  rw [parse_device_name_slash e 64 dir n hp hq hs, if_neg (by omega)]
  simp only [t0, t1, Bool.false_eq_true, if_false, if_true, generic_device_base, hfit,
    List.singleton_append]

theorem handle_generic_subsystem_drm (env : environment) (e : uevent) (g : globals)
    (dir n : List Char) (hp : NUL ∉ e.path) (hq : e.path = dir ++ SLASH :: n)
    (hs : SLASH ∉ n) (hl : n.length ≤ 64) (hsub : e.subsystem = "drm".toList) :
    handle_generic_device_event env e g
      = syscall.make_dir "/dev/dri/".toList 0o755 ::
        generic_device_finish env e ("/dev/dri/".toList ++ n) false g := by
  have hnn : NUL ∉ n := fun h =>
    hp (by rw [hq]; exact List.mem_append_right _ (List.mem_cons_of_mem _ h))
  have t0 : strncmp0 e.subsystem "usb".toList 3 = false := by rw [hsub]; decide
  have t1 : strncmp0 e.subsystem "graphics".toList 8 = false := by rw [hsub]; decide
  have t2 : strncmp0 e.subsystem "drm".toList 3 = true := by rw [hsub]; decide
  have hfit := snprintf_base_name "/dev/dri/".toList n (by decide) hnn
    (by have : "/dev/dri/".toList.length = 9 := by decide
        omega)
  unfold handle_generic_device_event
  rw [parse_device_name_slash e 64 dir n hp hq hs, if_neg (by omega)]
  simp only [t0, t1, t2, Bool.false_eq_true, if_false, if_true, generic_device_base, hfit,
    List.singleton_append]

theorem handle_generic_subsystem_oncrpc (env : environment) (e : uevent) (g : globals)
    (dir n : List Char) (hp : NUL ∉ e.path) (hq : e.path = dir ++ SLASH :: n)
    (hs : SLASH ∉ n) (hl : n.length ≤ 64) (hsub : e.subsystem = "oncrpc".toList) :
    handle_generic_device_event env e g
      = syscall.make_dir "/dev/oncrpc/".toList 0o755 ::
        generic_device_finish env e ("/dev/oncrpc/".toList ++ n) false g := by
  have hnn : NUL ∉ n := fun h =>
    hp (by rw [hq]; exact List.mem_append_right _ (List.mem_cons_of_mem _ h))
  have t0 : strncmp0 e.subsystem "usb".toList 3 = false := by rw [hsub]; decide
  have t1 : strncmp0 e.subsystem "graphics".toList 8 = false := by rw [hsub]; decide
  have t2 : strncmp0 e.subsystem "drm".toList 3 = false := by rw [hsub]; decide
  have t3 : strncmp0 e.subsystem "oncrpc".toList 6 = true := by rw [hsub]; decide
  have hfit := snprintf_base_name "/dev/oncrpc/".toList n (by decide) hnn
    (by have : "/dev/oncrpc/".toList.length = 12 := by decide
        omega)
  unfold handle_generic_device_event
  rw [parse_device_name_slash e 64 dir n hp hq hs, if_neg (by omega)]
  simp only [t0, t1, t2, t3, Bool.false_eq_true, if_false, if_true, generic_device_base, hfit,
    List.singleton_append]

theorem handle_generic_subsystem_adsp (env : environment) (e : uevent) (g : globals)
    (dir n : List Char) (hp : NUL ∉ e.path) (hq : e.path = dir ++ SLASH :: n)
    (hs : SLASH ∉ n) (hl : n.length ≤ 64) (hsub : e.subsystem = "adsp".toList) :
    handle_generic_device_event env e g
      = syscall.make_dir "/dev/adsp/".toList 0o755 ::
        generic_device_finish env e ("/dev/adsp/".toList ++ n) false g := by
  have hnn : NUL ∉ n := fun h =>
    hp (by rw [hq]; exact List.mem_append_right _ (List.mem_cons_of_mem _ h))
  have t0 : strncmp0 e.subsystem "usb".toList 3 = false := by rw [hsub]; decide
  have t1 : strncmp0 e.subsystem "graphics".toList 8 = false := by rw [hsub]; decide
  have t2 : strncmp0 e.subsystem "drm".toList 3 = false := by rw [hsub]; decide
  have t3 : strncmp0 e.subsystem "oncrpc".toList 6 = false := by rw [hsub]; decide
  have t4 : strncmp0 e.subsystem "adsp".toList 4 = true := by rw [hsub]; decide
  have hfit := snprintf_base_name "/dev/adsp/".toList n (by decide) hnn
    (by have : "/dev/adsp/".toList.length = 10 := by decide
        omega)
  unfold handle_generic_device_event
  rw [parse_device_name_slash e 64 dir n hp hq hs, if_neg (by omega)]
  simp only [t0, t1, t2, t3, t4, Bool.false_eq_true, if_false, if_true, generic_device_base, hfit,
    List.singleton_append]

theorem handle_generic_subsystem_msm_camera (env : environment) (e : uevent) (g : globals)
    (dir n : List Char) (hp : NUL ∉ e.path) (hq : e.path = dir ++ SLASH :: n)
    (hs : SLASH ∉ n) (hl : n.length ≤ 64) (hsub : e.subsystem = "msm_camera".toList) :
    handle_generic_device_event env e g
      = syscall.make_dir "/dev/msm_camera/".toList 0o755 ::
        generic_device_finish env e ("/dev/msm_camera/".toList ++ n) false g := by
  have hnn : NUL ∉ n := fun h =>
    hp (by rw [hq]; exact List.mem_append_right _ (List.mem_cons_of_mem _ h))
  have t0 : strncmp0 e.subsystem "usb".toList 3 = false := by rw [hsub]; decide
  have t1 : strncmp0 e.subsystem "graphics".toList 8 = false := by rw [hsub]; decide
  have t2 : strncmp0 e.subsystem "drm".toList 3 = false := by rw [hsub]; decide
  have t3 : strncmp0 e.subsystem "oncrpc".toList 6 = false := by rw [hsub]; decide
  have t4 : strncmp0 e.subsystem "adsp".toList 4 = false := by rw [hsub]; decide
  have t5 : strncmp0 e.subsystem "msm_camera".toList 10 = true := by rw [hsub]; decide
  have hfit := snprintf_base_name "/dev/msm_camera/".toList n (by decide) hnn
    (by have : "/dev/msm_camera/".toList.length = 16 := by decide
        omega)
  unfold handle_generic_device_event
  rw [parse_device_name_slash e 64 dir n hp hq hs, if_neg (by omega)]
  simp only [t0, t1, t2, t3, t4, t5, Bool.false_eq_true, if_false, if_true, generic_device_base, hfit,
    List.singleton_append]

theorem handle_generic_subsystem_input (env : environment) (e : uevent) (g : globals)
    (dir n : List Char) (hp : NUL ∉ e.path) (hq : e.path = dir ++ SLASH :: n)
    (hs : SLASH ∉ n) (hl : n.length ≤ 64) (hsub : e.subsystem = "input".toList) :
    handle_generic_device_event env e g
      = syscall.make_dir "/dev/input/".toList 0o755 ::
        generic_device_finish env e ("/dev/input/".toList ++ n) false g := by
  have hnn : NUL ∉ n := fun h =>
    hp (by rw [hq]; exact List.mem_append_right _ (List.mem_cons_of_mem _ h))
  have t0 : strncmp0 e.subsystem "usb".toList 3 = false := by rw [hsub]; decide
  have t1 : strncmp0 e.subsystem "graphics".toList 8 = false := by rw [hsub]; decide
  have t2 : strncmp0 e.subsystem "drm".toList 3 = false := by rw [hsub]; decide
  have t3 : strncmp0 e.subsystem "oncrpc".toList 6 = false := by rw [hsub]; decide
  have t4 : strncmp0 e.subsystem "adsp".toList 4 = false := by rw [hsub]; decide
  have t5 : strncmp0 e.subsystem "msm_camera".toList 10 = false := by rw [hsub]; decide
  have t6 : strncmp0 e.subsystem "input".toList 5 = true := by rw [hsub]; decide
  have hfit := snprintf_base_name "/dev/input/".toList n (by decide) hnn
    (by have : "/dev/input/".toList.length = 11 := by decide
        omega)
  unfold handle_generic_device_event
  rw [parse_device_name_slash e 64 dir n hp hq hs, if_neg (by omega)]
  simp only [t0, t1, t2, t3, t4, t5, t6, Bool.false_eq_true, if_false, if_true, generic_device_base, hfit,
    List.singleton_append]

theorem handle_generic_subsystem_mtd (env : environment) (e : uevent) (g : globals)
    (dir n : List Char) (hp : NUL ∉ e.path) (hq : e.path = dir ++ SLASH :: n)
    (hs : SLASH ∉ n) (hl : n.length ≤ 64) (hsub : e.subsystem = "mtd".toList) :
    handle_generic_device_event env e g
      = syscall.make_dir "/dev/mtd/".toList 0o755 ::
        generic_device_finish env e ("/dev/mtd/".toList ++ n) false g := by
  have hnn : NUL ∉ n := fun h =>
    hp (by rw [hq]; exact List.mem_append_right _ (List.mem_cons_of_mem _ h))
  have t0 : strncmp0 e.subsystem "usb".toList 3 = false := by rw [hsub]; decide
  have t1 : strncmp0 e.subsystem "graphics".toList 8 = false := by rw [hsub]; decide
  have t2 : strncmp0 e.subsystem "drm".toList 3 = false := by rw [hsub]; decide
  have t3 : strncmp0 e.subsystem "oncrpc".toList 6 = false := by rw [hsub]; decide
  have t4 : strncmp0 e.subsystem "adsp".toList 4 = false := by rw [hsub]; decide
  have t5 : strncmp0 e.subsystem "msm_camera".toList 10 = false := by rw [hsub]; decide
  have t6 : strncmp0 e.subsystem "input".toList 5 = false := by rw [hsub]; decide
  have t7 : strncmp0 e.subsystem "mtd".toList 3 = true := by rw [hsub]; decide
  have hfit := snprintf_base_name "/dev/mtd/".toList n (by decide) hnn
    (by have : "/dev/mtd/".toList.length = 9 := by decide
        omega)
  unfold handle_generic_device_event
  rw [parse_device_name_slash e 64 dir n hp hq hs, if_neg (by omega)]
  simp only [t0, t1, t2, t3, t4, t5, t6, t7, Bool.false_eq_true, if_false, if_true, generic_device_base, hfit,
    List.singleton_append]

theorem handle_generic_subsystem_sound (env : environment) (e : uevent) (g : globals)
    (dir n : List Char) (hp : NUL ∉ e.path) (hq : e.path = dir ++ SLASH :: n)
    (hs : SLASH ∉ n) (hl : n.length ≤ 64) (hsub : e.subsystem = "sound".toList) :
    handle_generic_device_event env e g
      = syscall.make_dir "/dev/snd/".toList 0o755 ::
        generic_device_finish env e ("/dev/snd/".toList ++ n) false g := by
  have hnn : NUL ∉ n := fun h =>
    hp (by rw [hq]; exact List.mem_append_right _ (List.mem_cons_of_mem _ h))
  have t0 : strncmp0 e.subsystem "usb".toList 3 = false := by rw [hsub]; decide
  have t1 : strncmp0 e.subsystem "graphics".toList 8 = false := by rw [hsub]; decide
  have t2 : strncmp0 e.subsystem "drm".toList 3 = false := by rw [hsub]; decide
  have t3 : strncmp0 e.subsystem "oncrpc".toList 6 = false := by rw [hsub]; decide
  have t4 : strncmp0 e.subsystem "adsp".toList 4 = false := by rw [hsub]; decide
  have t5 : strncmp0 e.subsystem "msm_camera".toList 10 = false := by rw [hsub]; decide
  have t6 : strncmp0 e.subsystem "input".toList 5 = false := by rw [hsub]; decide
  have t7 : strncmp0 e.subsystem "mtd".toList 3 = false := by rw [hsub]; decide
  have t8 : strncmp0 e.subsystem "sound".toList 5 = true := by rw [hsub]; decide
  have hfit := snprintf_base_name "/dev/snd/".toList n (by decide) hnn
    (by have : "/dev/snd/".toList.length = 9 := by decide
        omega)
  unfold handle_generic_device_event
  rw [parse_device_name_slash e 64 dir n hp hq hs, if_neg (by omega)]
  simp only [t0, t1, t2, t3, t4, t5, t6, t7, t8, Bool.false_eq_true, if_false, if_true, generic_device_base, hfit,
    List.singleton_append]

theorem handle_generic_subsystem_misc (env : environment) (e : uevent) (g : globals)
    (dir n r : List Char) (hp : NUL ∉ e.path) (hq : e.path = dir ++ SLASH :: n)
    (hs : SLASH ∉ n) (hl : n.length ≤ 64) (hsub : e.subsystem = "misc".toList)
    (hr : n = "log_".toList ++ r) :
    handle_generic_device_event env e g
      = syscall.make_dir "/dev/log/".toList 0o755 ::
        generic_device_finish env e ("/dev/log/".toList ++ r) false g := by
  have hnn : NUL ∉ n := fun h =>
    hp (by rw [hq]; exact List.mem_append_right _ (List.mem_cons_of_mem _ h))
  have t0 : strncmp0 e.subsystem "usb".toList 3 = false := by rw [hsub]; decide
  have t1 : strncmp0 e.subsystem "graphics".toList 8 = false := by rw [hsub]; decide
  have t2 : strncmp0 e.subsystem "drm".toList 3 = false := by rw [hsub]; decide
  have t3 : strncmp0 e.subsystem "oncrpc".toList 6 = false := by rw [hsub]; decide
  have t4 : strncmp0 e.subsystem "adsp".toList 4 = false := by rw [hsub]; decide
  have t5 : strncmp0 e.subsystem "msm_camera".toList 10 = false := by rw [hsub]; decide
  have t6 : strncmp0 e.subsystem "input".toList 5 = false := by rw [hsub]; decide
  have t7 : strncmp0 e.subsystem "mtd".toList 3 = false := by rw [hsub]; decide
  have t8 : strncmp0 e.subsystem "sound".toList 5 = false := by rw [hsub]; decide
  have t9 : strncmp0 e.subsystem "misc".toList 4 = true := by rw [hsub]; decide
  have hrn : NUL ∉ r := fun h => hnn (by rw [hr]; exact List.mem_append_right _ h)
  have hlog : strncmp0 n "log_".toList 4 = true := by
    rw [strncmp0_iff _ _ _ (by decide) (by decide), cstr_of_nul_free hnn, hr]
    exact List.prefix_append _ _
  have hdrop : n.drop 4 = r := by rw [hr]; exact List.drop_left' (by decide)
  have hrl : r.length ≤ 60 := by
    have := congrArg List.length hr
    rw [List.length_append] at this
    have h4 : "log_".toList.length = 4 := by decide
    omega
  have hfit := snprintf_base_name "/dev/log/".toList r (by decide) hrn
    (by have : "/dev/log/".toList.length = 9 := by decide
        omega)
  unfold handle_generic_device_event
  rw [parse_device_name_slash e 64 dir n hp hq hs, if_neg (by omega)]
  simp only [t0, t1, t2, t3, t4, t5, t6, t7, t8, t9, hlog, hdrop, Bool.and_self, Bool.false_eq_true, if_false, if_true,
    generic_device_base, hfit, List.singleton_append]

/-- C20. Generic subsystem table: for every event whose path has a name `n`
of at most 64 bytes after its last slash and whose subsystem is exactly one of
graphics, drm, oncrpc, adsp, msm_camera, input, mtd, sound, the generic
handler hands on the device path `/dev/graphics/`, `/dev/dri/`, `/dev/oncrpc/`,
`/dev/adsp/`, `/dev/msm_camera/`, `/dev/input/`, `/dev/mtd/`, `/dev/snd/`
respectively, followed by `n`; for the subsystem misc with `n = log_ ++ r` the
device path is `/dev/log/` followed by `r`; the base directory is made with
mode 0755 first and the path is never cut by the 96-byte buffer. -/
theorem handle_generic_subsystem_table (env : environment) (e : uevent) (g : globals)
    (dir n : List Char) (hp : NUL ∉ e.path) (hq : e.path = dir ++ SLASH :: n)
    (hs : SLASH ∉ n) (hl : n.length ≤ 64) :
    (e.subsystem = "graphics".toList →
      handle_generic_device_event env e g
        = syscall.make_dir "/dev/graphics/".toList 0o755 ::
          generic_device_finish env e ("/dev/graphics/".toList ++ n) false g) ∧
    (e.subsystem = "drm".toList →
      handle_generic_device_event env e g
        = syscall.make_dir "/dev/dri/".toList 0o755 ::
          generic_device_finish env e ("/dev/dri/".toList ++ n) false g) ∧
    (e.subsystem = "oncrpc".toList →
      handle_generic_device_event env e g
        = syscall.make_dir "/dev/oncrpc/".toList 0o755 ::
          generic_device_finish env e ("/dev/oncrpc/".toList ++ n) false g) ∧
    (e.subsystem = "adsp".toList →
      handle_generic_device_event env e g
        = syscall.make_dir "/dev/adsp/".toList 0o755 ::
          generic_device_finish env e ("/dev/adsp/".toList ++ n) false g) ∧
    (e.subsystem = "msm_camera".toList →
      handle_generic_device_event env e g
        = syscall.make_dir "/dev/msm_camera/".toList 0o755 ::
          generic_device_finish env e ("/dev/msm_camera/".toList ++ n) false g) ∧
    (e.subsystem = "input".toList →
      handle_generic_device_event env e g
        = syscall.make_dir "/dev/input/".toList 0o755 ::
          generic_device_finish env e ("/dev/input/".toList ++ n) false g) ∧
    (e.subsystem = "mtd".toList →
      handle_generic_device_event env e g
        = syscall.make_dir "/dev/mtd/".toList 0o755 ::
          generic_device_finish env e ("/dev/mtd/".toList ++ n) false g) ∧
    (e.subsystem = "sound".toList →
      handle_generic_device_event env e g
        = syscall.make_dir "/dev/snd/".toList 0o755 ::
          generic_device_finish env e ("/dev/snd/".toList ++ n) false g) ∧
    (e.subsystem = "misc".toList → ∀ r, n = "log_".toList ++ r →
      handle_generic_device_event env e g
        = syscall.make_dir "/dev/log/".toList 0o755 ::
          generic_device_finish env e ("/dev/log/".toList ++ r) false g) :=
  ⟨handle_generic_subsystem_graphics env e g dir n hp hq hs hl,
   handle_generic_subsystem_drm env e g dir n hp hq hs hl,
   handle_generic_subsystem_oncrpc env e g dir n hp hq hs hl,
   handle_generic_subsystem_adsp env e g dir n hp hq hs hl,
   handle_generic_subsystem_msm_camera env e g dir n hp hq hs hl,
   handle_generic_subsystem_input env e g dir n hp hq hs hl,
   handle_generic_subsystem_mtd env e g dir n hp hq hs hl,
   handle_generic_subsystem_sound env e g dir n hp hq hs hl,
   fun h r hr => handle_generic_subsystem_misc env e g dir n r hp hq hs hl h hr⟩

/-- C20 at the event of `/devices/virtual/input/event0` in the subsystem
`input`: the device path is `/dev/input/event0`. -/
theorem handle_generic_subsystem_table_witness :
    handle_generic_device_event env_ok event_input {}
      = syscall.make_dir "/dev/input/".toList 0o755 ::
        generic_device_finish env_ok event_input "/dev/input/event0".toList false {} :=
  ((handle_generic_subsystem_table env_ok event_input {}
    "/devices/virtual/input".toList "event0".toList (by decide) (by decide) (by decide)
    (by decide)).2.2.2.2.2.1 rfl).trans (by decide)

/-! ## Module loading -/

theorem int_eq_zero_of_testBit (x : Int) (h : ∀ k, Int.testBit x k = false) : x = 0 := by
  cases x with
  | ofNat n =>
    have : n = 0 := Nat.eq_of_testBit_eq (fun i => by simpa [Int.testBit] using h i)
    simp [this]
  | negSucc n =>
    exfalso
    have h1 := h n
    simp only [Int.testBit, Bool.not_eq_false'] at h1
    have h2 : Nat.testBit n n = false := Nat.testBit_eq_false_of_lt (Nat.lt_two_pow n)
    rw [h1] at h2
    exact Bool.noConfusion h2

theorem land_ne_zero_iff (x y : Int) :
    Int.land x y ≠ 0 ↔ ∃ k, Int.testBit x k = true ∧ Int.testBit y k = true := by
  constructor
  · intro h
    by_contra hc
    push_neg at hc
    apply h
    apply int_eq_zero_of_testBit
    intro k
    rw [Int.testBit_land]
    cases hx : Int.testBit x k
    · rfl
    · simpa using hc k hx
  · rintro ⟨k, hx, hy⟩ h0
    have := Int.testBit_land x y k
    rw [h0, hx, hy] at this
    simp [Int.testBit] at this

theorem retry_later_iff {ρ : Type} (m : module_environment ρ) (ret : Int) :
    retry_later m ret = true ↔ has_retry_bit m ret := by
  unfold retry_later has_retry_bit
  rw [bne_iff_ne, land_ne_zero_iff]
  simp only [Int.testBit_lor, Bool.or_eq_true, or_assoc]

theorem resolver_run_length {ρ : Type} (m : module_environment ρ) (l : List (List Char))
    (r : ρ) : (resolver_run m l r).1.length = l.length := by
  induction l generalizing r with
  | nil => rfl
  | cons a l ih => simp only [resolver_run, List.length_cons, ih]

theorem handle_deferred_module_loading_loop_eq {ρ : Type} (m : module_environment ρ)
    (q : List module_alias_node) (hq : ∀ n ∈ q, n.pattern ≠ none) (r : ρ) :
    handle_deferred_module_loading_loop m q r
      = (((q.zip (resolver_run m (q.filterMap (fun n => n.pattern)) r).1).filter
            (fun p => retry_later m p.2)).map Prod.fst,
         (resolver_run m (q.filterMap (fun n => n.pattern)) r).2,
         List.zipWith (fun a ret => { modalias := cstr a, ret := ret, deferred := true })
            (q.filterMap (fun n => n.pattern))
            (resolver_run m (q.filterMap (fun n => n.pattern)) r).1) := by
  induction q generalizing r with
  | nil => rfl
  | cons node rest ih =>
    have hrest : ∀ n ∈ rest, n.pattern ≠ none := fun n hn => hq n (List.mem_cons_of_mem _ hn)
    cases hp : node.pattern with
    | none => exact absurd hp (hq node (List.mem_cons_self _ _))
    | some pattern =>
      have hf : (node :: rest).filterMap (fun n => n.pattern)
          = pattern :: rest.filterMap (fun n => n.pattern) := by
        rw [List.filterMap_cons, hp]
      rw [hf]
      unfold handle_deferred_module_loading_loop
      rw [hp]
      simp only [resolver_run, List.zip_cons_cons, List.zipWith_cons_cons, List.filter_cons]
      rw [ih hrest]
      cases hret : retry_later m (m.insmod_by_dep r (cstr pattern)).1 <;> simp

theorem queue_aliases_length (g : globals) (hq : queue_ok g) :
    (queue_aliases g).length = g.deferred_module_loading_list.length := by
  unfold queue_aliases
  unfold queue_ok at hq
  generalize g.deferred_module_loading_list = q at hq
  induction q with
  | nil => rfl
  | cons n q ih =>
    cases hp : n.pattern with
    | none => exact absurd hp (hq n (List.mem_cons_self _ _))
    | some p =>
      rw [List.filterMap_cons, hp]
      simp only [List.length_cons]
      rw [ih (fun n hn => hq n (List.mem_cons_of_mem _ hn))]

theorem handle_deferred_module_loading_eq {ρ : Type} (m : module_environment ρ) (g : globals)
    (hq : queue_ok g) (r : ρ) :
    handle_deferred_module_loading m g r
      = ({ g with deferred_module_loading_list :=
              ((g.deferred_module_loading_list.zip (resolver_run m (queue_aliases g) r).1).filter
                (fun p => retry_later m p.2)).map Prod.fst },
         (resolver_run m (queue_aliases g) r).2,
         List.zipWith (fun a ret => { modalias := cstr a, ret := ret, deferred := true })
            (queue_aliases g) (resolver_run m (queue_aliases g) r).1) := by
  unfold handle_deferred_module_loading queue_aliases
  rw [handle_deferred_module_loading_loop_eq m _ hq r]

theorem handle_module_loading_queue_eq {ρ : Type} (m : module_environment ρ) (g : globals)
    (r : ρ) (a : Option (List Char)) (hq : queue_ok g) (hc : m.calloc_ok = true)
    (hs : m.strdup_ok = true) :
    (handle_module_loading m a g r).1.deferred_module_loading_list
      = ((g.deferred_module_loading_list.zip (resolver_run m (queue_aliases g) r).1).filter
            (fun p => retry_later m p.2)).map Prod.fst
        ++ (match a with
            | none => []
            | some a =>
              if retry_later m
                  (m.insmod_by_dep (resolver_run m (queue_aliases g) r).2 (cstr a)).1
              then [alias_node a] else []) := by
  unfold handle_module_loading
  rw [handle_deferred_module_loading_eq m g hq r]
  cases a with
  | none => simp
  | some a =>
    dsimp only
    rw [hc, hs]
    cases hret : retry_later m
        (m.insmod_by_dep (resolver_run m (queue_aliases g) r).2 (cstr a)).1 <;>
      simp [alias_node, strdup]

/-- C21. Queue update of the module autoloader: for every deferral queue
whose nodes hold a pattern, every modalias (present or absent), every resolver
and every state of it, with `calloc` and `strdup` succeeding, the queue after
`handle_module_loading` is the nodes of the old queue whose reattempt returned
a retry-later result, in their order, followed by a node for the modalias iff
it is present and its fresh attempt returned a retry-later result; the
reattempt results are one per node, and a result is retry-later iff it has a
bit of `MOD_BAD_DEP`, `MOD_INVALID_CALLER_BLACK` or `MOD_BAD_ALIAS` set. -/
theorem handle_module_loading_queue {ρ : Type} (m : module_environment ρ) (g : globals)
    (r : ρ) (a : Option (List Char)) (hq : queue_ok g) (hc : m.calloc_ok = true)
    (hs : m.strdup_ok = true) :
    (handle_module_loading m a g r).1.deferred_module_loading_list
      = ((g.deferred_module_loading_list.zip (resolver_run m (queue_aliases g) r).1).filter
            (fun p => retry_later m p.2)).map Prod.fst
        ++ (match a with
            | none => []
            | some a =>
              if retry_later m
                  (m.insmod_by_dep (resolver_run m (queue_aliases g) r).2 (cstr a)).1
              then [alias_node a] else [])
    ∧ (resolver_run m (queue_aliases g) r).1.length = g.deferred_module_loading_list.length
    ∧ ∀ ret, retry_later m ret = true ↔ has_retry_bit m ret := by
  refine ⟨handle_module_loading_queue_eq m g r a hq hc hs, ?_, retry_later_iff m⟩
  rw [resolver_run_length, queue_aliases_length g hq]

/-- C21 at the queue that holds `of:Nfoo`, the modalias `of:Nbar` and the
resolver that returns `MOD_BAD_DEP` once and 0 after: `of:Nfoo` stays and
`of:Nbar` is not queued. -/
theorem handle_module_loading_queue_witness :
    (handle_module_loading resolver_bad_dep_once (some "of:Nbar".toList) queue_of_nfoo
        0).1.deferred_module_loading_list = [alias_node "of:Nfoo".toList] :=
  (handle_module_loading_queue resolver_bad_dep_once queue_of_nfoo 0
    (some "of:Nbar".toList) (by decide) rfl rfl).1.trans (by decide)

theorem handle_deferred_module_loading_loop_bound {ρ : Type} (m : module_environment ρ)
    (q : List module_alias_node) (r : ρ) :
    (handle_deferred_module_loading_loop m q r).1.length
        + drained_count m (handle_deferred_module_loading_loop m q r).2.2 = q.length := by
  induction q generalizing r with
  | nil => rfl
  | cons node rest ih =>
    unfold handle_deferred_module_loading_loop
    cases hp : node.pattern with
    | none =>
      dsimp only
      rw [List.length_cons, List.length_cons, ← ih r]
      omega
    | some pattern =>
      dsimp only
      have h := ih (m.insmod_by_dep r (cstr pattern)).2
      unfold drained_count at h ⊢
      cases hret : retry_later m (m.insmod_by_dep r (cstr pattern)).1
      · simp only [Bool.not_false, if_true, List.filter_cons, hret, Bool.and_self,
          List.length_cons]
        omega
      · simp only [Bool.not_true, Bool.false_eq_true, if_false, List.filter_cons, hret,
          Bool.and_false, List.length_cons]
        omega

theorem handle_module_loading_bound {ρ : Type} (m : module_environment ρ) (g : globals)
    (r : ρ) (a : Option (List Char)) :
    (handle_module_loading m a g r).1.deferred_module_loading_list.length
        + drained_count m (handle_module_loading m a g r).2.2
      ≤ g.deferred_module_loading_list.length
        + retry_later_count m (handle_module_loading m a g r).2.2 := by
  have h := handle_deferred_module_loading_loop_bound m g.deferred_module_loading_list r
  unfold handle_module_loading handle_deferred_module_loading
  cases a with
  | none =>
    dsimp only
    omega
  | some a =>
    dsimp only
    unfold drained_count retry_later_count at *
    cases hret : retry_later m (m.insmod_by_dep
        (handle_deferred_module_loading_loop m g.deferred_module_loading_list r).2.1 (cstr a)).1
    · simp only [Bool.false_eq_true, if_false, List.filter_append, List.length_append,
        List.filter_cons, List.filter_nil, hret, Bool.false_and, List.length_nil]
      omega
    · simp only [if_true]
      split_ifs <;>
        simp only [List.filter_append, List.length_append, List.filter_cons, List.filter_nil,
          hret, Bool.false_and, Bool.false_eq_true, if_false, if_true, List.length_nil,
          List.length_cons] <;>
        omega

theorem run_module_loading_bound {ρ : Type} (m : module_environment ρ)
    (as : List (Option (List Char))) (g : globals) (r : ρ) :
    (run_module_loading m as g r).1.deferred_module_loading_list.length
        + drained_count m (run_module_loading m as g r).2.2
      ≤ g.deferred_module_loading_list.length
        + retry_later_count m (run_module_loading m as g r).2.2 := by
  induction as generalizing g r with
  | nil => simp [run_module_loading, drained_count, retry_later_count]
  | cons a as ih =>
    unfold run_module_loading
    dsimp only
    have h1 := handle_module_loading_bound m g r a
    have h2 := ih (handle_module_loading m a g r).1 (handle_module_loading m a g r).2.1
    unfold drained_count retry_later_count at *
    simp only [List.filter_append, List.length_append]
    omega

/-- C24. Length bound of the deferral queue: after any sequence of
`handle_module_loading` invocations that starts from the empty queue, with any
resolver and any allocation results, the length of the queue is at most the
number of resolver calls so far that returned a retry-later result minus the
number of reattempts of queued aliases so far whose result was not
retry-later. -/
theorem deferral_queue_length_bound {ρ : Type} (m : module_environment ρ)
    (as : List (Option (List Char))) (g : globals) (r : ρ)
    (hg : g.deferred_module_loading_list = []) :
    ((run_module_loading m as g r).1.deferred_module_loading_list.length : Int)
      ≤ (retry_later_count m (run_module_loading m as g r).2.2 : Int)
        - (drained_count m (run_module_loading m as g r).2.2 : Int) := by
  have h := run_module_loading_bound m as g r
  rw [hg, List.length_nil] at h
  omega

/-- C24 at the empty queue, for `of:Nfoo` and then `of:Nbar` with the resolver
that returns `MOD_BAD_DEP` once and 0 after: the queue is empty, one call was
retry-later and one reattempt was not. -/
theorem deferral_queue_length_bound_witness :
    ((run_module_loading resolver_bad_dep_once
        [some "of:Nfoo".toList, some "of:Nbar".toList] {} 0
        ).1.deferred_module_loading_list.length : Int)
      ≤ (retry_later_count resolver_bad_dep_once (run_module_loading resolver_bad_dep_once
          [some "of:Nfoo".toList, some "of:Nbar".toList] {} 0).2.2 : Int)
        - (drained_count resolver_bad_dep_once (run_module_loading resolver_bad_dep_once
          [some "of:Nfoo".toList, some "of:Nbar".toList] {} 0).2.2 : Int) :=
  deferral_queue_length_bound resolver_bad_dep_once
    [some "of:Nfoo".toList, some "of:Nbar".toList] {} 0 rfl

/-! ## Firmware -/

/-- The bound on the iterations of the inner loop of `load_firmware` is
enough: any two bounds of at least `nr` give the same run. -/
theorem load_firmware_write_loop_stable (fw : firmware_environment) (buf : List Char)
    (k k2 : Nat) (nr : Int) (j : Nat) (h1 : nr ≤ k) (h2 : nr ≤ k2) :
    load_firmware_write_loop fw buf k nr j = load_firmware_write_loop fw buf k2 nr j := by
  induction k generalizing k2 nr j with
  | zero =>
    cases k2 with
    | zero => rfl
    | succ k2 =>
      unfold load_firmware_write_loop
      rw [if_neg (by simp at h1; omega)]
  | succ k ih =>
    cases k2 with
    | zero =>
      unfold load_firmware_write_loop
      rw [if_neg (by simp at h2; omega)]
    | succ k2 =>
      unfold load_firmware_write_loop
      by_cases hnr : nr > 0
      · rw [if_pos hnr, if_pos hnr]
        dsimp only
        by_cases hnw : fw.write j nr.toNat ≤ 0
        · rw [if_pos hnw, if_pos hnw]
        · rw [if_neg hnw, if_neg hnw]
          rw [ih k2 (nr - fw.write j nr.toNat) (j + 1) (by push_cast at h1; omega)
            (by push_cast at h2; omega)]
      · rw [if_neg hnr, if_neg hnr]

/-- The bound on the iterations of the outer loop of `load_firmware` is
enough: any two bounds of at least `len_to_copy` give the same run. -/
theorem load_firmware_loop_stable (fw : firmware_environment)
    (k k2 : Nat) (len_to_copy : Int) (i j : Nat) (h1 : len_to_copy ≤ k)
    (h2 : len_to_copy ≤ k2) :
    load_firmware_loop fw k len_to_copy i j = load_firmware_loop fw k2 len_to_copy i j := by
  induction k generalizing k2 len_to_copy i j with
  | zero =>
    cases k2 with
    | zero => rfl
    | succ k2 =>
      unfold load_firmware_loop
      rw [if_neg (by simp at h1; omega)]
  | succ k ih =>
    cases k2 with
    | zero =>
      unfold load_firmware_loop
      rw [if_neg (by simp at h2; omega)]
    | succ k2 =>
      unfold load_firmware_loop
      by_cases hl : len_to_copy > 0
      · rw [if_pos hl, if_pos hl]
        cases hr : fw.read i fw.PAGE_SIZE with
        | error e => rfl
        | data bytes =>
          dsimp only
          by_cases hb : bytes.length = 0
          · rw [if_pos hb, if_pos hb]
          · rw [if_neg hb, if_neg hb]
            have hpos : 0 < bytes.length := Nat.pos_of_ne_zero hb
            rw [ih k2 (len_to_copy - (bytes.length : Int)) (i + 1) _
              (by push_cast at h1; omega) (by push_cast at h2; omega)]
      · rw [if_neg hl, if_neg hl]

theorem load_firmware_write_loop_calls (fw : firmware_environment) (buf : List Char)
    (k : Nat) (nr : Int) (j : Nat) :
    (load_firmware_write_loop fw buf k nr j).1
        = (load_firmware_write_loop fw buf k nr j).2.2.any firmware_call.failed
    ∧ (load_firmware_write_loop fw buf k nr j).2.2.all
        (fun c => !firmware_call.is_write_loading c) = true := by
  induction k generalizing nr j with
  | zero => exact ⟨rfl, rfl⟩
  | succ k ih =>
    unfold load_firmware_write_loop
    by_cases hnr : nr > 0
    · rw [if_pos hnr]
      dsimp only
      by_cases hnw : fw.write j nr.toNat ≤ 0
      · rw [if_pos hnw]
        simp [firmware_call.failed, firmware_call.is_write_loading, hnw]
      · rw [if_neg hnw]
        obtain ⟨h1, h2⟩ := ih (nr - fw.write j nr.toNat) (j + 1)
        simp only [List.any_cons, List.all_cons, firmware_call.failed,
          firmware_call.is_write_loading, hnw, decide_False, Bool.false_or, Bool.not_false,
          Bool.true_and]
        exact ⟨h1, h2⟩
    · rw [if_neg hnr]
      exact ⟨rfl, rfl⟩

theorem load_firmware_loop_calls (fw : firmware_environment)
    (k : Nat) (len_to_copy : Int) (i j : Nat) :
    ((load_firmware_loop fw k len_to_copy i j).1 = 0
      ∨ (load_firmware_loop fw k len_to_copy i j).1 = -1)
    ∧ decide ((load_firmware_loop fw k len_to_copy i j).1 = -1)
        = (load_firmware_loop fw k len_to_copy i j).2.any firmware_call.failed
    ∧ (load_firmware_loop fw k len_to_copy i j).2.all
        (fun c => !firmware_call.is_write_loading c) = true := by
  induction k generalizing len_to_copy i j with
  | zero => exact ⟨Or.inl rfl, rfl, rfl⟩
  | succ k ih =>
    unfold load_firmware_loop
    by_cases hl : len_to_copy > 0
    · rw [if_pos hl]
      cases hr : fw.read i fw.PAGE_SIZE with
      | error e => exact ⟨Or.inr rfl, rfl, rfl⟩
      | data bytes =>
        dsimp only
        by_cases hb : bytes.length = 0
        · rw [if_pos hb]
          exact ⟨Or.inl rfl, rfl, rfl⟩
        · rw [if_neg hb]
          obtain ⟨w1, w2⟩ := load_firmware_write_loop_calls fw bytes bytes.length
            (bytes.length : Int) j
          cases hw : (load_firmware_write_loop fw bytes bytes.length (bytes.length : Int) j).1
          · rw [hw] at w1
            obtain ⟨h1, h2, h3⟩ := ih (len_to_copy - (bytes.length : Int)) (i + 1)
              (load_firmware_write_loop fw bytes bytes.length (bytes.length : Int) j).2.1
            rw [if_neg Bool.false_ne_true]
            refine ⟨h1, ?_, ?_⟩
            · rw [h2]
              simp [firmware_call.failed, ← w1]
            · rw [List.all_cons, List.all_append, w2, h3]
              rfl
          · rw [hw] at w1
            rw [if_pos rfl]
            refine ⟨Or.inr rfl, ?_, ?_⟩
            · simp [firmware_call.failed, ← w1]
            · rw [List.all_cons, w2]
              rfl
    · rw [if_neg hl]
      exact ⟨Or.inl rfl, rfl, rfl⟩

theorem firmware_call_failed_iff (c : firmware_call) :
    c.failed = true ↔
      (∃ k, c = firmware_call.read (read_result.error k))
        ∨ ∃ offered ret, c = firmware_call.write_data offered ret ∧ ret ≤ 0 := by
  cases c with
  | read result =>
    cases result with
    | data bytes => simp [firmware_call.failed]
    | error k => simp [firmware_call.failed]
  | write_loading bytes => simp [firmware_call.failed]
  | write_data offered ret =>
    simp only [firmware_call.failed, decide_eq_true_eq]
    constructor
    · intro hle
      exact Or.inr ⟨offered, ret, rfl, hle⟩
    · rintro (⟨k, hk⟩ | ⟨o, r, hc, hle⟩)
      · exact firmware_call.noConfusion hk
      · injection hc with _ hr
        rw [hr]
        exact hle

/-- C25 does not hold of the code: for the firmware file `ab` and a data file
that accepts one byte at every write, `load_firmware` offers `ab`, then `a`
again, since every write starts at `buf`; the data file receives `aa`, and the
function returns 0 and writes `0` to the loading file. -/
theorem load_firmware_resends_after_short_write :
    (load_firmware firmware_short_writes).2
      = [firmware_call.write_loading "1".toList,
         firmware_call.read (read_result.data "ab".toList),
         firmware_call.write_data "ab".toList 1,
         firmware_call.write_data "a".toList 1,
         firmware_call.write_loading "0".toList]
    ∧ accepted_bytes (load_firmware firmware_short_writes).2 = "aa".toList
    ∧ accepted_bytes (load_firmware firmware_short_writes).2 ≠ "ab".toList
    ∧ (load_firmware firmware_short_writes).1 = 0 := by
  decide

/-- C26. Handshake of `load_firmware`: when `fstat` succeeds, the calls are a
write of `1` to the loading file, then reads and writes to the data file
only, then one write to the loading file, which is `0` iff the function
returns 0 and `-1` iff it returns -1; it returns 0 or -1, and -1 iff a read
returned a negative value or a write to the data file returned a value
`≤ 0`. -/
theorem load_firmware_handshake (fw : firmware_environment) (n : Int)
    (h : fw.st_size = some n) :
    ∃ mid final,
      (load_firmware fw).2
        = firmware_call.write_loading "1".toList
            :: (mid ++ [firmware_call.write_loading final])
      ∧ (∀ c ∈ mid, ∀ b, c ≠ firmware_call.write_loading b)
      ∧ (final = "0".toList ↔ (load_firmware fw).1 = 0)
      ∧ (final = "-1".toList ↔ (load_firmware fw).1 = -1)
      ∧ ((load_firmware fw).1 = 0 ∨ (load_firmware fw).1 = -1)
      ∧ ((load_firmware fw).1 = -1 ↔
          ∃ c ∈ mid, (∃ k, c = firmware_call.read (read_result.error k))
            ∨ ∃ offered ret, c = firmware_call.write_data offered ret ∧ ret ≤ 0) := by
  obtain ⟨h1, h2, h3⟩ := load_firmware_loop_calls fw n.toNat n 0 0
  refine ⟨(load_firmware_loop fw n.toNat n 0 0).2,
    if (load_firmware_loop fw n.toNat n 0 0).1 = 0 then "0".toList else "-1".toList, ?_⟩
  have hret : (load_firmware fw).1 = (load_firmware_loop fw n.toNat n 0 0).1 := by
    unfold load_firmware
    rw [h]
  rw [hret]
  refine ⟨?_, ?_, ?_, ?_, h1, ?_⟩
  · unfold load_firmware
    rw [h]
    rfl
  · intro c hc b hb
    have := (List.all_eq_true.mp h3) c hc
    rw [hb] at this
    exact Bool.noConfusion this
  · rcases h1 with h0 | h0
    · rw [h0]; simp
    · rw [h0]; decide
  · rcases h1 with h0 | h0
    · rw [h0]; decide
    · rw [h0]; decide
  · have hd : (load_firmware_loop fw n.toNat n 0 0).1 = -1 ↔
        (load_firmware_loop fw n.toNat n 0 0).2.any firmware_call.failed = true := by
      rw [← h2, decide_eq_true_iff]
    rw [hd, List.any_eq_true]
    constructor
    · rintro ⟨c, hc, hf⟩
      exact ⟨c, hc, (firmware_call_failed_iff c).mp hf⟩
    · rintro ⟨c, hc, hf⟩
      exact ⟨c, hc, (firmware_call_failed_iff c).mpr hf⟩

/-- C26 at the firmware file `ab` and a data file that accepts every byte
offered. -/
theorem load_firmware_handshake_witness :
    ∃ mid final,
      (load_firmware firmware_full_writes).2
        = firmware_call.write_loading "1".toList
            :: (mid ++ [firmware_call.write_loading final])
      ∧ (∀ c ∈ mid, ∀ b, c ≠ firmware_call.write_loading b)
      ∧ (final = "0".toList ↔ (load_firmware firmware_full_writes).1 = 0)
      ∧ (final = "-1".toList ↔ (load_firmware firmware_full_writes).1 = -1)
      ∧ ((load_firmware firmware_full_writes).1 = 0
          ∨ (load_firmware firmware_full_writes).1 = -1)
      ∧ ((load_firmware firmware_full_writes).1 = -1 ↔
          ∃ c ∈ mid, (∃ k, c = firmware_call.read (read_result.error k))
            ∨ ∃ offered ret, c = firmware_call.write_data offered ret ∧ ret ≤ 0) :=
  load_firmware_handshake firmware_full_writes 2 rfl

/-! ## Device nodes -/

theorem make_device_nodes (env : environment) (path upath : List Char) (block : Bool)
    (major minor : Int) (g : globals) :
    (make_device env path upath block major minor g).filter syscall.is_node
        = [syscall.mknod path
            ((get_device_perm env.fnmatch path g).1 ||| (if block then S_IFBLK else S_IFCHR))
            major minor]
    ∧ (make_device env path upath block major minor g).filter syscall.is_link = [] := by
  unfold make_device
  dsimp only
  constructor <;>
  · simp only [List.filter_append]
    split_ifs <;> rfl

theorem handle_device_add (env : environment) (action devpath path : List Char)
    (block : Bool) (major minor : Int) (links : Option (List (List Char))) (g : globals)
    (h : cstr action = "add".toList) :
    handle_device env action devpath path block major minor links g
      = (if major ≥ 0 ∧ minor ≥ 0 then make_device env devpath path block major minor g
         else [])
        ++ [syscall.property_set "ctl.dev_added".toList devpath]
        ++ (links.getD []).map (fun l => syscall.make_link devpath l) := by
  have h1 : strcmp0 action "add".toList = true :=
    (strcmp0_literal action _ (by decide)).mpr h
  have h2 : ¬ strcmp0 action "remove".toList = true := by
    rw [strcmp0_literal action _ (by decide), h]
    decide
  unfold handle_device
  rw [if_pos h1, if_neg h2, List.append_nil]

theorem handle_device_remove (env : environment) (action devpath path : List Char)
    (block : Bool) (major minor : Int) (links : Option (List (List Char))) (g : globals)
    (h : cstr action = "remove".toList) :
    handle_device env action devpath path block major minor links g
      = (links.getD []).map (fun l => syscall.remove_link devpath l)
        ++ [syscall.property_set "ctl.dev_removed".toList devpath]
        ++ (if major ≥ 0 ∧ minor ≥ 0 then [syscall.unlink devpath] else []) := by
  have h1 : ¬ strcmp0 action "add".toList = true := by
    rw [strcmp0_literal action _ (by decide), h]
    decide
  have h2 : strcmp0 action "remove".toList = true :=
    (strcmp0_literal action _ (by decide)).mpr h
  unfold handle_device
  rw [if_neg h1, if_pos h2, List.nil_append]

theorem handle_device_other (env : environment) (action devpath path : List Char)
    (block : Bool) (major minor : Int) (links : Option (List (List Char))) (g : globals)
    (ha : cstr action ≠ "add".toList) (hr : cstr action ≠ "remove".toList) :
    handle_device env action devpath path block major minor links g = [] := by
  have h1 : ¬ strcmp0 action "add".toList = true := by
    rw [strcmp0_literal action _ (by decide)]
    exact ha
  have h2 : ¬ strcmp0 action "remove".toList = true := by
    rw [strcmp0_literal action _ (by decide)]
    exact hr
  unfold handle_device
  rw [if_neg h1, if_neg h2]
  rfl

theorem handle_device_nodes (env : environment) (action devpath path : List Char)
    (block : Bool) (major minor : Int) (links : Option (List (List Char))) (g : globals) :
    (handle_device env action devpath path block major minor links g).filter syscall.is_node
      = node_calls action devpath
          ((get_device_perm env.fnmatch devpath g).1 ||| (if block then S_IFBLK else S_IFCHR))
          major minor := by
  have hm := (make_device_nodes env devpath path block major minor g).1
  have hl1 := filter_map_eq_nil syscall.is_node (fun l => syscall.make_link devpath l)
    (links.getD []) (fun _ => rfl)
  have hl2 := filter_map_eq_nil syscall.is_node (fun l => syscall.remove_link devpath l)
    (links.getD []) (fun _ => rfl)
  unfold node_calls
  by_cases hv : major ≥ 0 ∧ minor ≥ 0
  · rw [if_pos hv]
    by_cases ha : cstr action = "add".toList
    · rw [handle_device_add env action devpath path block major minor links g ha, if_pos ha,
        if_pos hv, List.filter_append, List.filter_append, hl1, hm]
      rfl
    · by_cases hr : cstr action = "remove".toList
      · rw [handle_device_remove env action devpath path block major minor links g hr,
          if_neg ha, if_pos hr, if_pos hv, List.filter_append, List.filter_append, hl2]
        rfl
      · rw [handle_device_other env action devpath path block major minor links g ha hr,
          if_neg ha, if_neg hr]
        rfl
  · rw [if_neg hv]
    by_cases ha : cstr action = "add".toList
    · rw [handle_device_add env action devpath path block major minor links g ha,
        if_neg hv, List.filter_append, List.filter_append, hl1]
      rfl
    · by_cases hr : cstr action = "remove".toList
      · rw [handle_device_remove env action devpath path block major minor links g hr,
          if_neg hv, List.filter_append, List.filter_append, hl2]
        rfl
      · rw [handle_device_other env action devpath path block major minor links g ha hr]
        rfl

theorem fixup_sys_perms_loop_no_node (fnmatch : List Char → List Char → Int → Int)
    (sehandle : Option (List Char → Nat → Option (List Char))) (upath : List Char)
    (l : List perms_) :
    (fixup_sys_perms_loop fnmatch sehandle upath l).filter syscall.is_node = [] := by
  induction l with
  | nil => rfl
  | cons dp rest ih =>
    unfold fixup_sys_perms_loop
    split_ifs
    · exact ih
    · cases dp.attr with
      | none => rfl
      | some attr =>
        dsimp only
        split_ifs
        · rfl
        · simp only [List.filter_append, ih, List.append_nil]
          cases sehandle with
          | none => rfl
          | some lookup =>
            dsimp only
            cases lookup ("/sys".toList ++ cstr upath ++ "/".toList ++ cstr attr) 0 <;> rfl

theorem build_directories_no_node (done rest : List Char) :
    (build_directories done rest).filter syscall.is_node = [] := by
  rw [build_directories_eq]
  exact filter_map_eq_nil _ _ _ (fun _ => rfl)

theorem usb_device_class_rule_calls_no_node (env : environment) (e : uevent)
    (type devpath : List Char) (usbdc : usb_device_class_node) :
    (usb_device_class_rule_calls env e type devpath usbdc).filter syscall.is_node = [] := by
  unfold usb_device_class_rule_calls
  split_ifs <;> rfl

theorem usb_device_class_rule_no_node (env : environment) (e : uevent)
    (devpath : List Char) (g : globals) :
    (handle_usb_device_class_rule env e devpath g).filter syscall.is_node = [] := by
  unfold handle_usb_device_class_rule
  cases e.type with
  | none => rfl
  | some type =>
    exact filter_flatMap_eq_nil _ _ _ (usb_device_class_rule_calls_no_node env e type devpath)

/-- The `mknod` and `unlink` calls of the end of the generic handler are those
of `handle_device`. -/
theorem generic_device_finish_nodes (env : environment) (e : uevent)
    (devpath : List Char) (is_usb_dev : Bool) (g : globals) :
    (generic_device_finish env e devpath is_usb_dev g).filter syscall.is_node
      = node_calls e.action devpath
          ((get_device_perm env.fnmatch devpath g).1 ||| S_IFCHR) e.major e.minor := by
  unfold generic_device_finish
  simp only [List.filter_append, handle_device_nodes]
  have h4 : (if is_usb_dev = true then handle_usb_device_class_rule env e devpath g
      else []).filter syscall.is_node = [] := by
    split_ifs
    · exact usb_device_class_rule_no_node env e devpath g
    · rfl
  rw [h4, List.append_nil]
  rcases get_character_device_symlinks_calls env e g with h | h <;> rw [h] <;> rfl

theorem handle_generic_device_event_plan (env : environment) (e : uevent) (g : globals) :
    handle_generic_device_event env e g
      = match generic_device_plan e with
        | none => []
        | some p => p.1 ++ generic_device_finish env e p.2.1 p.2.2 g := by
  unfold handle_generic_device_event generic_device_plan generic_device_base
  cases parse_device_name e 64 with
  | none => rfl
  | some name =>
    dsimp only
    by_cases hu : strncmp0 e.subsystem "usb".toList 3 = true
    · simp only [if_pos hu]
      by_cases hx : strcmp0 e.subsystem "usb".toList = true
      · simp only [if_pos hx]
        cases e.device_name <;> rfl
      · simp only [if_neg hx]
    simp only [if_neg hu]
    by_cases c0 : strncmp0 e.subsystem "graphics".toList 8 = true
    · simp only [if_pos c0]
    simp only [if_neg c0]
    by_cases c1 : strncmp0 e.subsystem "drm".toList 3 = true
    · simp only [if_pos c1]
    simp only [if_neg c1]
    by_cases c2 : strncmp0 e.subsystem "oncrpc".toList 6 = true
    · simp only [if_pos c2]
    simp only [if_neg c2]
    by_cases c3 : strncmp0 e.subsystem "adsp".toList 4 = true
    · simp only [if_pos c3]
    simp only [if_neg c3]
    by_cases c4 : strncmp0 e.subsystem "msm_camera".toList 10 = true
    · simp only [if_pos c4]
    simp only [if_neg c4]
    by_cases c5 : strncmp0 e.subsystem "input".toList 5 = true
    · simp only [if_pos c5]
    simp only [if_neg c5]
    by_cases c6 : strncmp0 e.subsystem "mtd".toList 3 = true
    · simp only [if_pos c6]
    simp only [if_neg c6]
    by_cases c7 : strncmp0 e.subsystem "sound".toList 5 = true
    · simp only [if_pos c7]
    simp only [if_neg c7]
    by_cases cm : (strncmp0 e.subsystem "misc".toList 4 && strncmp0 name "log_".toList 4) = true
    · simp only [if_pos cm]
    simp only [if_neg cm]
    rfl

theorem generic_device_plan_no_node (e : uevent) :
    match generic_device_plan e with
    | none => True
    | some p => p.1.filter syscall.is_node = [] := by
  unfold generic_device_plan
  cases parse_device_name e 64 with
  | none => trivial
  | some name =>
    dsimp only
    by_cases hu : strncmp0 e.subsystem "usb".toList 3 = true
    · simp only [if_pos hu]
      by_cases hx : strcmp0 e.subsystem "usb".toList = true
      · simp only [if_pos hx]
        cases e.device_name with
        | none => rfl
        | some device_name => exact build_directories_no_node _ _
      · simp only [if_neg hx]
    simp only [if_neg hu]
    by_cases c0 : strncmp0 e.subsystem "graphics".toList 8 = true
    · simp only [if_pos c0]
      rfl
    simp only [if_neg c0]
    by_cases c1 : strncmp0 e.subsystem "drm".toList 3 = true
    · simp only [if_pos c1]
      rfl
    simp only [if_neg c1]
    by_cases c2 : strncmp0 e.subsystem "oncrpc".toList 6 = true
    · simp only [if_pos c2]
      rfl
    simp only [if_neg c2]
    by_cases c3 : strncmp0 e.subsystem "adsp".toList 4 = true
    · simp only [if_pos c3]
      rfl
    simp only [if_neg c3]
    by_cases c4 : strncmp0 e.subsystem "msm_camera".toList 10 = true
    · simp only [if_pos c4]
      rfl
    simp only [if_neg c4]
    by_cases c5 : strncmp0 e.subsystem "input".toList 5 = true
    · simp only [if_pos c5]
      rfl
    simp only [if_neg c5]
    by_cases c6 : strncmp0 e.subsystem "mtd".toList 3 = true
    · simp only [if_pos c6]
      rfl
    simp only [if_neg c6]
    by_cases c7 : strncmp0 e.subsystem "sound".toList 5 = true
    · simp only [if_pos c7]
      rfl
    simp only [if_neg c7]
    by_cases cm : (strncmp0 e.subsystem "misc".toList 4 && strncmp0 name "log_".toList 4) = true
    · simp only [if_pos cm]
      rfl
    simp only [if_neg cm]
    rfl

theorem generic_device_plan_action (e : uevent) (a : List Char) :
    generic_device_plan { e with action := a } = generic_device_plan e := rfl

theorem device_path_action (e : uevent) (a : List Char) :
    device_path { e with action := a } = device_path e := rfl

theorem handle_generic_device_event_nodes (env : environment) (e : uevent) (g : globals) :
    ∃ mode, (handle_generic_device_event env e g).filter syscall.is_node
      = match (generic_device_plan e).map (fun p => p.2.1) with
        | none => []
        | some d => node_calls e.action d mode e.major e.minor := by
  rw [handle_generic_device_event_plan]
  have h := generic_device_plan_no_node e
  cases hp : generic_device_plan e with
  | none => exact ⟨0, rfl⟩
  | some p =>
    rw [hp] at h
    refine ⟨(get_device_perm env.fnmatch p.2.1 g).1 ||| S_IFCHR, ?_⟩
    simp only [Option.map_some', List.filter_append, h, List.nil_append,
      generic_device_finish_nodes]

theorem handle_block_device_event_nodes (env : environment) (e : uevent) (g : globals) :
    ∃ mode, (handle_block_device_event env e g).filter syscall.is_node
      = match (parse_device_name e 64).map
            (fun name => snprintf 96 ("/dev/block/".toList ++ cstr name)) with
        | none => []
        | some d => node_calls e.action d mode e.major e.minor := by
  unfold handle_block_device_event
  cases parse_device_name e 64 with
  | none => exact ⟨0, rfl⟩
  | some name =>
    refine ⟨(get_device_perm env.fnmatch (snprintf 96 ("/dev/block/".toList ++ cstr name)) g).1
      ||| S_IFBLK, ?_⟩
    simp only [Option.map_some', List.filter_append, handle_device_nodes]
    rfl

theorem fixup_sys_perms_no_node (fnmatch : List Char → List Char → Int → Int)
    (sehandle : Option (List Char → Nat → Option (List Char))) (upath : List Char)
    (g : globals) :
    (fixup_sys_perms fnmatch sehandle upath g).filter syscall.is_node = [] :=
  fixup_sys_perms_loop_no_node fnmatch sehandle upath g.sys_perms

/-- The calls of `handle_device_event` for one event are appended to those
made before, and its `mknod` and `unlink` calls are those of `handle_device`
at the device path of the event. -/
theorem handle_device_event_world_calls {ρ : Type} (env : environment)
    (m : module_environment ρ) (e : uevent) (w : world ρ) :
    ∃ S mode, (handle_device_event_world env m e w).calls = w.calls ++ S
      ∧ S.filter syscall.is_node
        = match device_path e with
          | none => []
          | some d => node_calls e.action d mode e.major e.minor := by
  unfold handle_device_event_world handle_device_event device_path
  dsimp only
  generalize hw1 : (if strcmp0 e.action "add".toList = true then
      ({ w with g := (handle_module_loading m e.modalias w.g w.resolver).1,
                resolver := (handle_module_loading m e.modalias w.g w.resolver).2.1,
                module_calls := w.module_calls
                  ++ (handle_module_loading m e.modalias w.g w.resolver).2.2 } : world ρ)
      else w) = w1
  have h1 : w1.calls = w.calls := by
    rw [← hw1]
    split_ifs <;> rfl
  generalize hw2 : (if (strcmp0 e.action "add".toList || strcmp0 e.action "change".toList)
        = true then
      ({ w1 with calls := w1.calls ++ fixup_sys_perms env.fnmatch env.sehandle e.path w1.g }
        : world ρ)
      else w1) = w2
  have h2 : ∃ S2, w2.calls = w.calls ++ S2 ∧ S2.filter syscall.is_node = [] := by
    rw [← hw2, ← h1]
    split_ifs
    · exact ⟨_, rfl, fixup_sys_perms_no_node _ _ _ _⟩
    · exact ⟨[], (List.append_nil _).symm, rfl⟩
  obtain ⟨S2, hS2, hf2⟩ := h2
  by_cases hb : strncmp0 e.subsystem "block".toList 5 = true
  · rw [if_pos hb, if_pos hb]
    obtain ⟨mode, hm⟩ := handle_block_device_event_nodes env e w2.g
    refine ⟨S2 ++ handle_block_device_event env e w2.g, mode, ?_, ?_⟩
    · show w2.calls ++ _ = _
      rw [hS2, List.append_assoc]
    · rw [List.filter_append, hf2, List.nil_append]
      exact hm
  · rw [if_neg hb, if_neg hb]
    by_cases hp : strncmp0 e.subsystem "platform".toList 8 = true
    · rw [if_pos hp, if_pos hp]
      exact ⟨S2, 0, hS2, hf2⟩
    · rw [if_neg hp, if_neg hp]
      obtain ⟨mode, hm⟩ := handle_generic_device_event_nodes env e w2.g
      refine ⟨S2 ++ handle_generic_device_event env e w2.g, mode, ?_, ?_⟩
      · show w2.calls ++ _ = _
        rw [hS2, List.append_assoc]
      · rw [List.filter_append, hf2, List.nil_append]
        exact hm


theorem node_calls_add (d : List Char) (mode : Nat) (major minor : Int) :
    node_calls "add".toList d mode major minor
      = if major ≥ 0 ∧ minor ≥ 0 then [syscall.mknod d mode major minor] else [] := by
  unfold node_calls
  split_ifs <;> first | rfl | contradiction

theorem node_calls_remove (d : List Char) (mode : Nat) (major minor : Int) :
    node_calls "remove".toList d mode major minor
      = if major ≥ 0 ∧ minor ≥ 0 then [syscall.unlink d] else [] := by
  unfold node_calls
  split_ifs with h1 h2 h3
  · exact absurd h2 (by decide)
  · rfl
  · exact absurd rfl h3
  · rfl

theorem dev_nodes_append (S1 S2 : List syscall) (N : List (List Char)) :
    dev_nodes (S1 ++ S2) N = dev_nodes S2 (dev_nodes S1 N) := by
  unfold dev_nodes
  rw [List.foldl_append]

theorem dev_nodes_filter (S : List syscall) (N : List (List Char)) :
    dev_nodes S N = dev_nodes (S.filter syscall.is_node) N := by
  induction S generalizing N with
  | nil => rfl
  | cons c S ih =>
    cases c <;> exact (ih _).trans rfl


theorem dev_nodes_pair (od : Option (List Char)) (mode : Nat) (major minor : Int)
    (N : List (List Char)) :
    (∀ p ∈ dev_nodes (od.toList.map (fun p => syscall.mknod p mode major minor)
            ++ od.toList.map (fun p => syscall.unlink p)) N, p ∈ N)
    ∧ ∀ d, od = some d →
        d ∉ dev_nodes (od.toList.map (fun p => syscall.mknod p mode major minor)
            ++ od.toList.map (fun p => syscall.unlink p)) N := by
  cases od with
  | none =>
    refine ⟨fun p hp => hp, fun d hd => ?_⟩
    cases hd
  | some d0 =>
    have hN : dev_nodes ((some d0).toList.map (fun p => syscall.mknod p mode major minor)
            ++ (some d0).toList.map (fun p => syscall.unlink p)) N
        = (if d0 ∈ N then N else d0 :: N).filter (fun p => p ≠ d0) := rfl
    rw [hN]
    constructor
    · intro p hp
      rw [List.mem_filter] at hp
      obtain ⟨hp1, hp2⟩ := hp
      have hne : p ≠ d0 := by simpa using hp2
      split_ifs at hp1
      · exact hp1
      · rcases List.mem_cons.mp hp1 with h | h
        · exact absurd h hne
        · exact h
    · intro d hd hmem
      cases hd
      rw [List.mem_filter] at hmem
      simp at hmem

theorem device_path_congr (a r : uevent) (h1 : r.path = a.path)
    (h2 : r.subsystem = a.subsystem) (h3 : r.device_name = a.device_name)
    (h4 : r.minor = a.minor) : device_path r = device_path a := by
  cases a
  cases r
  simp only at h1 h2 h3 h4
  subst h1 h2 h3 h4
  rfl

theorem add_remove_pair_calls {ρ : Type} (env : environment) (m : module_environment ρ)
    (a r : uevent) (har : is_remove_of a r) (w : world ρ) :
    ∃ (S : List syscall) (od : Option (List Char)) (mode : Nat),
      (handle_device_event_world env m r (handle_device_event_world env m a w)).calls
        = w.calls ++ S
      ∧ S.filter syscall.is_node
        = od.toList.map (fun p => syscall.mknod p mode a.major a.minor)
          ++ od.toList.map (fun p => syscall.unlink p)
      ∧ (a.major ≥ 0 → a.minor ≥ 0 → od = device_path a) := by
  obtain ⟨ha, hr, hpath, hsub, hdev, hmaj, hmin⟩ := har
  obtain ⟨S1, mode1, hc1, hf1⟩ := handle_device_event_world_calls env m a w
  obtain ⟨S2, mode2, hc2, hf2⟩ :=
    handle_device_event_world_calls env m r (handle_device_event_world env m a w)
  rw [device_path_congr a r hpath hsub hdev hmin, hr, hmaj, hmin] at hf2
  rw [ha] at hf1
  rw [hc1, List.append_assoc] at hc2
  cases hd : device_path a with
  | none =>
    rw [hd] at hf1 hf2
    refine ⟨S1 ++ S2, none, 0, hc2, ?_, fun _ _ => rfl⟩
    rw [List.filter_append, hf1, hf2]
    rfl
  | some d =>
    rw [hd] at hf1 hf2
    dsimp only at hf1 hf2
    rw [node_calls_add] at hf1
    rw [node_calls_remove] at hf2
    by_cases hv : a.major ≥ 0 ∧ a.minor ≥ 0
    · rw [if_pos hv] at hf1 hf2
      refine ⟨S1 ++ S2, some d, mode1, hc2, ?_, fun _ _ => rfl⟩
      rw [List.filter_append, hf1, hf2]
      rfl
    · rw [if_neg hv] at hf1 hf2
      refine ⟨S1 ++ S2, none, 0, hc2, ?_, fun h1 h2 => absurd ⟨h1, h2⟩ hv⟩
      rw [List.filter_append, hf1, hf2]
      rfl

theorem run_add_remove_pairs {ρ : Type} (env : environment) (m : module_environment ρ)
    (ps : List (uevent × uevent)) (hps : ∀ p ∈ ps, is_remove_of p.1 p.2) (w : world ρ)
    (N : List (List Char)) :
    ∃ S : List syscall,
      (run_device_events env m (pair_events ps) w).calls = w.calls ++ S
      ∧ (∀ p ∈ dev_nodes S N, p ∈ N)
      ∧ (∀ d mode major minor, syscall.mknod d mode major minor ∈ S → d ∉ dev_nodes S N)
      ∧ (∀ p ∈ ps, p.1.major ≥ 0 → p.1.minor ≥ 0 → ∀ d, device_path p.1 = some d →
          d ∉ dev_nodes S N) := by
  induction ps generalizing w N with
  | nil =>
    refine ⟨[], (List.append_nil _).symm, fun p hp => hp, ?_, ?_⟩
    · intro d mode major minor h
      cases h
    · intro e he
      cases he
  | cons p ps ih =>
    obtain ⟨S1, od, mode, hc1, hf1, hod⟩ :=
      add_remove_pair_calls env m p.1 p.2 (hps p (List.mem_cons_self _ _)) w
    obtain ⟨hsub1, hgone1⟩ := dev_nodes_pair od mode p.1.major p.1.minor N
    rw [← hf1, ← dev_nodes_filter] at hsub1 hgone1
    obtain ⟨S2, hc2, hsub2, hmade2, hdev2⟩ :=
      ih (fun q hq => hps q (List.mem_cons_of_mem _ hq))
        (handle_device_event_world env m p.2 (handle_device_event_world env m p.1 w))
        (dev_nodes S1 N)
    have hrun : run_device_events env m (pair_events (p :: ps)) w
        = run_device_events env m (pair_events ps)
            (handle_device_event_world env m p.2 (handle_device_event_world env m p.1 w)) :=
      rfl
    refine ⟨S1 ++ S2, ?_, ?_, ?_, ?_⟩
    · rw [hrun, hc2, hc1, List.append_assoc]
    · intro q hq
      rw [dev_nodes_append] at hq
      exact hsub1 q (hsub2 q hq)
    · intro d mode2 major minor hmem
      rw [dev_nodes_append]
      rcases List.mem_append.mp hmem with h | h
      · intro hfin
        have hin : syscall.mknod d mode2 major minor ∈ S1.filter syscall.is_node :=
          List.mem_filter.mpr ⟨h, rfl⟩
        rw [hf1] at hin
        have hd : od = some d := by
          cases od with
          | none => cases hin
          | some d0 =>
            simp only [Option.toList, List.map_cons, List.map_nil, List.cons_append,
              List.nil_append, List.mem_cons, List.mem_singleton, List.not_mem_nil,
              or_false] at hin
            rcases hin with h1 | h1
            · injection h1 with h1
              rw [h1]
            · cases h1
        exact hgone1 d hd (hsub2 d hfin)
      · exact hmade2 d mode2 major minor h
    · intro q hq hmaj hmin d hd
      rw [dev_nodes_append]
      rcases List.mem_cons.mp hq with h | h
      · intro hfin
        rw [h] at hmaj hmin hd
        exact hgone1 d ((hod hmaj hmin).trans hd) (hsub2 d hfin)
      · exact hdev2 q h hmaj hmin d hd

/-- C28. Node and link operations of `handle_device`: when the action is
exactly `add`, the calls are those of `make_device` iff `major ≥ 0` and
`minor ≥ 0` (none otherwise), among which is the one `mknod` of the device
path, then the `ctl.dev_added` property, then a `make_link` for every symlink
in order, in both cases; when the action is exactly `remove`, they are a
`remove_link` for every symlink in order, then the `ctl.dev_removed` property,
then `unlink` of the device path iff `major ≥ 0` and `minor ≥ 0`; for every
other action there is no call at all. -/
theorem handle_device_operations (env : environment) (action devpath path : List Char)
    (block : Bool) (major minor : Int) (links : Option (List (List Char))) (g : globals) :
    (cstr action = "add".toList →
      handle_device env action devpath path block major minor links g
        = (if major ≥ 0 ∧ minor ≥ 0 then make_device env devpath path block major minor g
           else [])
          ++ [syscall.property_set "ctl.dev_added".toList devpath]
          ++ (links.getD []).map (fun l => syscall.make_link devpath l))
    ∧ ((make_device env devpath path block major minor g).filter syscall.is_node
        = [syscall.mknod devpath
            ((get_device_perm env.fnmatch devpath g).1 ||| (if block then S_IFBLK else S_IFCHR))
            major minor]
      ∧ (make_device env devpath path block major minor g).filter syscall.is_link = [])
    ∧ (cstr action = "remove".toList →
      handle_device env action devpath path block major minor links g
        = (links.getD []).map (fun l => syscall.remove_link devpath l)
          ++ [syscall.property_set "ctl.dev_removed".toList devpath]
          ++ (if major ≥ 0 ∧ minor ≥ 0 then [syscall.unlink devpath] else []))
    ∧ (cstr action ≠ "add".toList → cstr action ≠ "remove".toList →
      handle_device env action devpath path block major minor links g = []) :=
  ⟨handle_device_add env action devpath path block major minor links g,
   make_device_nodes env devpath path block major minor g,
   handle_device_remove env action devpath path block major minor links g,
   handle_device_other env action devpath path block major minor links g⟩

/-- C28 for a `change` event of a device with valid numbers and one link:
there is no call. -/
theorem handle_device_operations_witness :
    handle_device env_ok "change".toList "/dev/input/event0".toList
      "/devices/virtual/input/event0".toList false 13 64 (some ["/dev/link".toList]) {}
      = [] :=
  (handle_device_operations env_ok "change".toList "/dev/input/event0".toList
    "/devices/virtual/input/event0".toList false 13 64 (some ["/dev/link".toList]) {}).2.2.2
    (by decide) (by decide)

/-- C27 fails as stated: after an `add` with `MAJOR=4`, `MINOR=64` and a
`remove` for the same DEVPATH that carries no `MAJOR` and `MINOR`, the node
`/dev/ttyS0` made by the `add` is still there, since `handle_device` unlinks
only with valid numbers; and when neither event carries the numbers, a node
that was at `/dev/ttyS0` before the pair is still there after it. -/
theorem add_remove_pair_leaves_node :
    (event_tty.action = "add".toList ∧ event_tty_remove_bare.action = "remove".toList
      ∧ event_tty_remove_bare.path = event_tty.path
      ∧ device_path event_tty = some "/dev/ttyS0".toList
      ∧ dev_nodes (run_device_events env_ok resolver_bad_dep_once
          [event_tty, event_tty_remove_bare] (world_init {} 0)).calls []
        = ["/dev/ttyS0".toList])
    ∧ (is_remove_of event_tty_add_bare event_tty_remove_bare
      ∧ device_path event_tty_add_bare = some "/dev/ttyS0".toList
      ∧ dev_nodes (run_device_events env_ok resolver_bad_dep_once
          (pair_events [(event_tty_add_bare, event_tty_remove_bare)]) (world_init {} 0)).calls
          ["/dev/ttyS0".toList]
        = ["/dev/ttyS0".toList]) := by
  decide

/-- C27, amended. Add/remove pairs leave no node: with `/dev` as the set of
node paths (`mknod` inserts the path, `unlink` removes it), for every sequence
of events made of pairs of an `add` followed by its `remove`, where the
`remove` carries the DEVPATH, SUBSYSTEM, DEVNAME, MAJOR and MINOR of the `add`
(so in particular for such pairs on one DEVPATH), processed by
`handle_device_event` from any globals and resolver state, the final set
contains no node at the device path computed for a pair when there was none at
that path before the first event.  Moreover every node of the final set was
there before the first event, every path at which the sequence made a node is
absent at the end, and with valid device numbers the device path of a pair is
absent at the end whatever was there before; the `add` alone does make the
node at that path. -/
theorem add_remove_pairs_leave_no_node {ρ : Type} (env : environment)
    (m : module_environment ρ) (ps : List (uevent × uevent)) (g : globals) (r : ρ)
    (nodes : List (List Char)) (hps : ∀ p ∈ ps, is_remove_of p.1 p.2) :
    (∀ p ∈ ps, ∀ d, device_path p.1 = some d → d ∉ nodes →
        d ∉ dev_nodes
          (run_device_events env m (pair_events ps) (world_init g r)).calls nodes)
    ∧ (∀ q ∈ dev_nodes
        (run_device_events env m (pair_events ps) (world_init g r)).calls nodes,
      q ∈ nodes)
    ∧ (∀ d mode major minor,
        syscall.mknod d mode major minor
          ∈ (run_device_events env m (pair_events ps) (world_init g r)).calls →
        d ∉ dev_nodes
          (run_device_events env m (pair_events ps) (world_init g r)).calls nodes)
    ∧ (∀ p ∈ ps, ∀ d, device_path p.1 = some d → p.1.major ≥ 0 → p.1.minor ≥ 0 →
        d ∉ dev_nodes
          (run_device_events env m (pair_events ps) (world_init g r)).calls nodes)
    ∧ (∀ e d, device_path e = some d → e.major ≥ 0 → e.minor ≥ 0 →
        d ∈ dev_nodes
          (handle_device_event_world env m { e with action := "add".toList }
            (world_init g r)).calls []) := by
  obtain ⟨S, hc, hsub, hmade, hdev⟩ :=
    run_add_remove_pairs env m ps hps (world_init g r) nodes
  have hS : (run_device_events env m (pair_events ps) (world_init g r)).calls = S := by
    rw [hc]
    rfl
  rw [hS]
  refine ⟨?_, hsub, hmade, ?_, ?_⟩
  · intro p _ d _ hnot hfin
    exact hnot (hsub d hfin)
  · intro p hp d hd h1 h2
    exact hdev p hp h1 h2 d hd
  · intro e d hd hmaj hmin
    obtain ⟨S1, mode, hc1, hf1⟩ :=
      handle_device_event_world_calls env m { e with action := "add".toList } (world_init g r)
    have hS1 : (handle_device_event_world env m { e with action := "add".toList }
        (world_init g r)).calls = S1 := by
      rw [hc1]
      rfl
    rw [device_path_action, hd] at hf1
    dsimp only at hf1
    rw [node_calls_add, if_pos ⟨hmaj, hmin⟩] at hf1
    rw [hS1, dev_nodes_filter, hf1]
    exact List.mem_singleton.mpr rfl

/-- C27, amended, at the pair of `event_tty` and its `remove`, from the empty
set of nodes: `/dev/ttyS0` is not there at the end. -/
theorem add_remove_pairs_leave_no_node_witness :
    "/dev/ttyS0".toList ∉ dev_nodes
      (run_device_events env_ok resolver_bad_dep_once
        (pair_events [(event_tty, event_tty_remove)]) (world_init {} 0)).calls [] :=
  (add_remove_pairs_leave_no_node env_ok resolver_bad_dep_once
    [(event_tty, event_tty_remove)] {} 0 [] (by decide)).1
    (event_tty, event_tty_remove) (List.mem_singleton.mpr rfl) "/dev/ttyS0".toList
    (by decide) (by decide)

/-! ## Symlinks below a PCI device -/

theorem strchr_none (s : List Char) (c : Char) (h : c ∉ s) : strchr s c = none := by
  induction s with
  | nil => rfl
  | cons x xs ih =>
    unfold strchr
    have hx : x ≠ c := fun e => h (by rw [e]; exact List.mem_cons_self _ _)
    have hxs : c ∉ xs := fun e => h (List.mem_cons_of_mem _ e)
    split_ifs
    · rfl
    · exact ih hxs

theorem strchr_first (pre r : List Char) (c : Char) (h1 : NUL ∉ pre) (h2 : c ∉ pre) :
    strchr (pre ++ c :: r) c = some (c :: r) ∨ c = NUL := by
  by_cases hc : c = NUL
  · exact Or.inr hc
  left
  induction pre with
  | nil =>
    show strchr (c :: r) c = _
    unfold strchr
    rw [if_neg hc, if_pos rfl]
  | cons x xs ih =>
    have hx : x ≠ NUL := fun e => h1 (by rw [← e]; exact List.mem_cons_self _ _)
    have hxc : x ≠ c := fun e => h2 (by rw [← e]; exact List.mem_cons_self _ _)
    show strchr (x :: (xs ++ c :: r)) c = _
    unfold strchr
    rw [if_neg hx, if_neg hxc]
    exact ih (fun e => h1 (List.mem_cons_of_mem _ e)) (fun e => h2 (List.mem_cons_of_mem _ e))

theorem slash_ne_nul : SLASH ≠ NUL := by decide

theorem strchr_slash (pre r : List Char) (h1 : NUL ∉ pre) (h2 : SLASH ∉ pre) :
    strchr (pre ++ SLASH :: r) SLASH = some (SLASH :: r) :=
  (strchr_first pre r SLASH h1 h2).resolve_right slash_ne_nul

theorem count_lt_two (t : List Char) (c : Char) (h : t.count c < 2) :
    c ∉ t ∨ ∃ a b, t = a ++ c :: b ∧ c ∉ a ∧ c ∉ b := by
  by_cases hm : c ∈ t
  · right
    obtain ⟨a, b, hab, ha⟩ := List.eq_append_cons_of_mem hm
    refine ⟨a, b, hab, ha, ?_⟩
    rw [hab, List.count_append, List.count_cons_self] at h
    have : b.count c = 0 := by omega
    exact List.count_eq_zero.mp this
  · exact Or.inl hm



/-- C29 fails as stated: for a path whose two leading segments make a name of
236 bytes, shorter than 256, `/dev/block/platform/` and the name do not fit
`link_path[256]`, and the link is made of the first 255 bytes, which end
before the `b` of the name; and when `malloc` returns no memory there are no
links for a path below `pci0000:00/0000:00:1f.2`. -/
theorem pci_link_path_truncated :
    parse_platform_block_device env_ok event_pci_long {}
      = some ["/dev/block/platform/pci".toList ++ List.replicate 231 'a' ++ "//c".toList]
    ∧ parse_platform_block_device env_no_memory event_pci {} = none := by
  set_option maxRecDepth 100000 in decide

/-- C29, amended. PCI block symlinks: for every block event whose path is not
below a registered platform device (`find_platform_device` finds none) and is
`/devices/`, `s1`, `/`, `s2`, `/` and a rest, with `s1` starting with `pci`,
`s1` and `s2` free of `/` and `/dev/block/platform/` with `s1`, `/`, `s2`
shorter than 256 bytes, when `malloc` and `asprintf` return memory, the device
name used in the symlinks is `s1`, `/`, `s2`, so the last link is
`/dev/block/platform/`, that name, `/` and the name after the last slash of
the path; when the path starts with `/devices/pci` but fewer than two `/`
follow the `/devices/` prefix, or when the path does not start with
`/devices/pci`, there are no symlinks. -/
theorem parse_platform_block_device_pci (env : environment) (e : uevent) (g : globals)
    (hn : nul_free e) (hf : find_platform_device e.path g = none) :
    (∀ s1 s2 rest dir n : List Char,
      env.malloc_ok = true → env.asprintf_ok 0 = true → env.asprintf_ok 1 = true →
      env.asprintf_ok 2 = true →
      e.path = "/devices/".toList ++ (s1 ++ SLASH :: (s2 ++ SLASH :: rest)) →
      "pci".toList <+: s1 → SLASH ∉ s1 → SLASH ∉ s2 →
      ("/dev/block/platform/".toList ++ (s1 ++ SLASH :: s2)).length < 256 →
      e.path = dir ++ SLASH :: n → SLASH ∉ n →
      parse_platform_block_device env e g
        = some ((match e.partition_name with
                  | some pn => ["/dev/block/platform/".toList ++ (s1 ++ SLASH :: s2)
                                  ++ "/by-name/".toList ++ cstr (env.sanitize pn)]
                  | none => [])
                ++ (if e.partition_num ≥ 0 then
                      ["/dev/block/platform/".toList ++ (s1 ++ SLASH :: s2)
                        ++ "/by-num/p".toList ++ decimal e.partition_num]
                    else [])
                ++ ["/dev/block/platform/".toList ++ (s1 ++ SLASH :: s2) ++ "/".toList ++ n]))
    ∧ (∀ t : List Char, e.path = "/devices/".toList ++ t → "pci".toList <+: t →
        t.count SLASH < 2 → parse_platform_block_device env e g = none)
    ∧ (¬ "/devices/pci".toList <+: e.path → parse_platform_block_device env e g = none) := by
  obtain ⟨-, hp, -, -, hpn, -, -, -⟩ := hn
  refine ⟨?_, ?_, ?_⟩
  · intro s1 s2 rest dir n hm h0 h1 h2 hpath hpci hs1 hs2 hlen hq hs
    have hn1 : NUL ∉ s1 := fun h => hp (by
      rw [hpath]; exact List.mem_append_right _ (List.mem_append_left _ h))
    have hn2 : NUL ∉ s2 := fun h => hp (by
      rw [hpath]
      exact List.mem_append_right _ (List.mem_append_right _
        (List.mem_cons_of_mem _ (List.mem_append_left _ h))))
    have hnn : NUL ∉ n := fun h =>
      hp (by rw [hq]; exact List.mem_append_right _ (List.mem_cons_of_mem _ h))
    have hd : NUL ∉ dir := fun h => hp (by rw [hq]; exact List.mem_append_left _ h)
    have hpre : strncmp0 e.path "/devices/pci".toList 12 = true := by
      rw [strncmp0_iff e.path "/devices/pci".toList 12 (by decide) rfl, cstr_of_nul_free hp,
        hpath]
      obtain ⟨t, ht⟩ := hpci
      rw [← ht]
      exact ⟨t ++ SLASH :: (s2 ++ SLASH :: rest), by simp⟩
    have hdrop : e.path.drop 9 = s1 ++ SLASH :: (s2 ++ SLASH :: rest) := by
      rw [hpath]
      exact List.drop_left' rfl
    have hc1 : strchr (s1 ++ SLASH :: (s2 ++ SLASH :: rest)) SLASH
        = some (SLASH :: (s2 ++ SLASH :: rest)) := strchr_slash _ _ hn1 hs1
    have hc2 : strchr (s2 ++ SLASH :: rest) SLASH = some (SLASH :: rest) :=
      strchr_slash _ _ hn2 hs2
    have hw : (s1 ++ SLASH :: (s2 ++ SLASH :: rest)).length - (SLASH :: rest).length
        = (s1 ++ SLASH :: s2).length := by
      simp only [List.length_append, List.length_cons]
      omega
    have htake : (s1 ++ SLASH :: (s2 ++ SLASH :: rest)).take (s1 ++ SLASH :: s2).length
        = s1 ++ SLASH :: s2 := by
      have : s1 ++ SLASH :: (s2 ++ SLASH :: rest) = (s1 ++ SLASH :: s2) ++ SLASH :: rest := by
        simp
      rw [this]
      exact List.take_left' rfl
    have hfit : ¬ (s1 ++ SLASH :: s2).length + 1 > 256 := by
      rw [List.length_append] at hlen
      have : "/dev/block/platform/".toList.length = 20 := rfl
      omega
    have hlp : snprintf 256 ("/dev/block/platform/".toList ++ (s1 ++ SLASH :: s2))
        = "/dev/block/platform/".toList ++ (s1 ++ SLASH :: s2) := by
      apply snprintf_fits
      · simp only [List.mem_append, List.mem_cons, not_or]
        exact ⟨by decide, hn1, by decide, hn2⟩
      · omega
    have hslash : strrchr e.path SLASH = some (SLASH :: n) := by
      rw [hq]; exact strrchr_slash dir n hd hs
    unfold parse_platform_block_device
    rw [hf]
    dsimp only
    rw [if_pos hpre, hdrop, hc1]
    dsimp only
    rw [List.drop_succ_cons, List.drop_zero, hc2]
    dsimp only
    rw [hw, if_neg hfit, htake]
    simp only [hm, h0, h1, h2, hlp, hslash, Bool.not_true, Bool.false_eq_true, if_false,
      if_true, List.drop_succ_cons, List.drop_zero, cstr_of_nul_free hnn]
    cases hpe : e.partition_name with
    | none => rfl
    | some pn =>
      have : strdup pn = pn := cstr_of_nul_free (hpn pn hpe)
      simp only [this]
  · intro t hpath hpci hcount
    have hdrop : e.path.drop 9 = t := by
      rw [hpath]
      exact List.drop_left' rfl
    have hnt : NUL ∉ t := fun h => hp (by rw [hpath]; exact List.mem_append_right _ h)
    unfold parse_platform_block_device
    rw [hf]
    dsimp only
    rw [hdrop]
    rcases count_lt_two t SLASH hcount with h | ⟨a, b, hab, ha, hb⟩
    · rw [strchr_none t SLASH h]
      split_ifs <;> rfl
    · have hna : NUL ∉ a := fun h => hnt (by rw [hab]; exact List.mem_append_left _ h)
      rw [hab, strchr_slash a b hna ha]
      dsimp only
      rw [List.drop_succ_cons, List.drop_zero, strchr_none b SLASH hb]
      split_ifs <;> rfl
  · intro hnp
    have hpre : ¬ strncmp0 e.path "/devices/pci".toList 12 = true := by
      rw [strncmp0_iff e.path "/devices/pci".toList 12 (by decide) rfl, cstr_of_nul_free hp]
      exact hnp
    unfold parse_platform_block_device
    rw [hf]
    dsimp only
    rw [if_neg hpre]


/-- C29, amended, at the path
`/devices/pci0000:00/0000:00:1f.2/host0/block/sda`. -/
theorem parse_platform_block_device_pci_witness :
    parse_platform_block_device env_ok event_pci {}
      = some ["/dev/block/platform/pci0000:00/0000:00:1f.2/sda".toList] :=
  ((parse_platform_block_device_pci env_ok event_pci {}
    ⟨by decide, by decide, by decide, by decide,
      fun v hv => Option.noConfusion hv,
      fun v hv => Option.noConfusion hv, fun v hv => Option.noConfusion hv,
      fun v hv => Option.noConfusion hv⟩
    (by decide)).1 "pci0000:00".toList "0000:00:1f.2".toList "host0/block/sda".toList
    "/devices/pci0000:00/0000:00:1f.2/host0/block".toList "sda".toList
    rfl rfl rfl rfl (by decide) (by decide) (by decide) (by decide) (by decide) (by decide)
    (by decide)).trans (by decide)

/-! ## Symlinks of character devices -/


theorem next_slash_eq (x : Char) (pre r : List Char) (h1 : NUL ∉ pre) (h2 : SLASH ∉ pre) :
    next_slash (x :: (pre ++ SLASH :: r)) = SLASH :: r := by
  unfold next_slash
  rw [List.drop_succ_cons, List.drop_zero]
  induction pre with
  | nil =>
    show List.dropWhile _ (SLASH :: r) = _
    rw [List.dropWhile_cons_of_neg (by decide)]
  | cons y ys ih =>
    have hy1 : y ≠ NUL := fun e => h1 (by rw [← e]; exact List.mem_cons_self _ _)
    have hy2 : y ≠ SLASH := fun e => h2 (by rw [← e]; exact List.mem_cons_self _ _)
    show List.dropWhile _ (y :: (ys ++ SLASH :: r)) = _
    rw [List.dropWhile_cons_of_pos (by simp [hy1, hy2])]
    exact ih (fun e => h1 (List.mem_cons_of_mem _ e)) (fun e => h2 (List.mem_cons_of_mem _ e))

theorem next_slash_none (x : Char) (s : List Char) (h1 : NUL ∉ s) (h2 : SLASH ∉ s) :
    next_slash (x :: s) = [] := by
  unfold next_slash
  rw [List.drop_succ_cons, List.drop_zero, List.dropWhile_eq_nil_iff]
  intro y hy
  have hy1 : y ≠ NUL := fun e => h1 (by rw [← e]; exact hy)
  have hy2 : y ≠ SLASH := fun e => h2 (by rw [← e]; exact hy)
  simp [hy1, hy2]

theorem strchr_head (c : Char) (r : List Char) (hc : c ≠ NUL) :
    strchr (c :: r) c = some (c :: r) := by
  unfold strchr
  rw [if_neg hc, if_pos rfl]

theorem find_platform_device_below (path : List Char) (g : globals) (hg : registry_ok g)
    (pdev : platform_node) (hf : find_platform_device path g = some pdev) :
    pdev.path_len = pdev.path.length ∧ NUL ∉ pdev.path ∧ is_below (cstr path) pdev.path := by
  unfold find_platform_device at hf
  have hr : pdev ∈ g.platform_names := List.mem_reverse.1 (List.mem_of_find?_eq_some hf)
  exact ⟨(hg pdev hr).1, (hg pdev hr).2,
    (is_subdevice_iff path pdev (hg pdev hr).1 (hg pdev hr).2).1 (List.find?_some hf)⟩


theorem at_end_slash (r : List Char) : at_end (SLASH :: r) = false := rfl

theorem at_end_nil : at_end [] = true := rfl

/-- C30 fails as stated: when `malloc` returns no memory for the array of
links, `get_character_device_symlinks` returns no link for the path
`/devices/platform/ehci/usb1/1-1/1-1:1.0/dev`, which is below the registered
platform device `/devices/platform/ehci`. -/
theorem get_character_device_symlinks_without_memory :
    find_platform_device event_usb_devname.path registry_ehci
      = some (platform_record "/devices/platform/ehci".toList)
    ∧ (get_character_device_symlinks env_no_memory event_usb_devname registry_ehci).1
      = none := by
  decide

/-- C30, amended. Symlink policy for character devices: for every event whose
path is `P`, `/usb`, `a`, `/`, `b`, `/`, `c`, `/` and a rest, where `P` is the
path of the registered platform device found for it, `a`, `b` and `c` contain
no `/` and `c` is not empty, when `malloc` and `asprintf` return memory,
`get_character_device_symlinks` returns exactly one link, `/dev/usb/`, the
subsystem and `c`; it returns no links when no registered platform device is a
strict prefix of the path that ends before a `/`, when the remainder after `P`
does not start with `/usb`, and when the remainder has fewer than four `/`. -/
theorem get_character_device_symlinks_policy (env : environment) (e : uevent) (g : globals)
    (hn : nul_free e) (hg : registry_ok g) :
    (∀ (pdev : platform_node) (a b c rest : List Char),
      find_platform_device e.path g = some pdev →
      env.malloc_ok = true → env.asprintf_ok 0 = true →
      e.path = pdev.path
        ++ ("/usb".toList ++ a ++ SLASH :: (b ++ SLASH :: (c ++ SLASH :: rest))) →
      SLASH ∉ a → SLASH ∉ b → SLASH ∉ c → c ≠ [] →
      (get_character_device_symlinks env e g).1
        = some ["/dev/usb/".toList ++ e.subsystem ++ c])
    ∧ ((∀ b ∈ g.platform_names, ¬ is_below e.path b.path) →
        (get_character_device_symlinks env e g).1 = none)
    ∧ (∀ (pdev : platform_node) (rem : List Char),
        find_platform_device e.path g = some pdev → e.path = pdev.path ++ rem →
        ¬ "/usb".toList <+: rem ∨ rem.count SLASH < 4 →
        (get_character_device_symlinks env e g).1 = none) := by
  obtain ⟨-, hp, hsub, -, -, -, -, -⟩ := hn
  refine ⟨?_, ?_, ?_⟩
  · intro pdev a b c rest hf hm h0 hpath ha hb hc hne
    obtain ⟨hlen, -, -⟩ := find_platform_device_below e.path g hg pdev hf
    have hrem : NUL ∉ "/usb".toList ++ a ++ SLASH :: (b ++ SLASH :: (c ++ SLASH :: rest)) :=
      fun h => hp (by rw [hpath]; exact List.mem_append_right _ h)
    have hna : NUL ∉ "usb".toList ++ a := fun h => hrem (by
      simp only [List.mem_append, List.mem_cons] at h ⊢
      rcases h with h | h
      · exact absurd h (by decide)
      · exact Or.inl (Or.inr h))
    have hnb : NUL ∉ b := fun h => hrem (by simp [h])
    have hnc : NUL ∉ c := fun h => hrem (by simp [h])
    have hnrest : NUL ∉ c ++ SLASH :: rest := fun h => hrem (by
      simp only [List.mem_append, List.mem_cons] at h ⊢
      rcases h with h | h | h
      · simp [h]
      · exact absurd h.symm (by decide)
      · simp [h])
    have hsa : SLASH ∉ "usb".toList ++ a := fun h => by
      simp only [List.mem_append] at h
      rcases h with h | h
      · exact absurd h (by decide)
      · exact ha h
    have hdrop : e.path.drop pdev.path_len
        = SLASH :: ("usb".toList ++ a ++ SLASH :: (b ++ SLASH :: (c ++ SLASH :: rest))) := by
      rw [hpath, hlen]
      exact List.drop_left' rfl
    have hpre : strncmp0
        (SLASH :: ("usb".toList ++ a ++ SLASH :: (b ++ SLASH :: (c ++ SLASH :: rest))))
        "/usb".toList 4 = true := by
      have hrem2 : NUL ∉
          SLASH :: ("usb".toList ++ a ++ SLASH :: (b ++ SLASH :: (c ++ SLASH :: rest))) := hrem
      rw [strncmp0_iff _ "/usb".toList 4 (by decide) rfl, cstr_of_nul_free hrem2]
      exact ⟨a ++ SLASH :: (b ++ SLASH :: (c ++ SLASH :: rest)), by simp [SLASH]⟩
    have hns1 : next_slash
        (SLASH :: ("usb".toList ++ a ++ SLASH :: (b ++ SLASH :: (c ++ SLASH :: rest))))
        = SLASH :: (b ++ SLASH :: (c ++ SLASH :: rest)) := next_slash_eq _ _ _ hna hsa
    have hns2 : next_slash (SLASH :: (b ++ SLASH :: (c ++ SLASH :: rest)))
        = SLASH :: (c ++ SLASH :: rest) := next_slash_eq _ _ _ hnb hb
    have hc3 : strchr (c ++ SLASH :: rest) SLASH = some (SLASH :: rest) :=
      strchr_slash _ _ hnc hc
    have hw : ((c ++ SLASH :: rest).length : Int) - ((SLASH :: rest).length : Int)
        = (c.length : Int) := by
      simp only [List.length_append, List.length_cons]
      push_cast
      omega
    have hcpos : ¬ (c.length : Int) ≤ 0 := by
      have : 0 < c.length := List.length_pos.mpr hne
      omega
    have htake : (c ++ SLASH :: rest).take c.length = c := List.take_left' rfl
    unfold get_character_device_symlinks
    rw [hf]
    dsimp only
    rw [hm, hdrop, strchr_head SLASH _ slash_ne_nul]
    dsimp only
    simp only [Bool.not_true, Bool.false_eq_true, if_false, at_end_slash, if_pos hpre, hns1,
      Bool.not_false, if_true, hns2, List.drop_succ_cons, List.drop_zero, hc3]
    rw [hw, if_neg hcpos, h0, if_pos rfl, Int.toNat_ofNat, cstr_of_nul_free hnrest, htake,
      cstr_of_nul_free hsub]
  · intro h
    have hf := find_platform_device_none e.path g hg (by rw [cstr_of_nul_free hp]; exact h)
    unfold get_character_device_symlinks
    rw [hf]
  · intro pdev rem hf hpath hor
    obtain ⟨hlen, -, hbelow⟩ := find_platform_device_below e.path g hg pdev hf
    rw [cstr_of_nul_free hp] at hbelow
    obtain ⟨s, hs⟩ := hbelow
    have hrs : rem = SLASH :: s := List.append_cancel_left (hpath.symm.trans hs)
    have hns : NUL ∉ s := fun h => hp (by
      rw [hs]; exact List.mem_append_right _ (List.mem_cons_of_mem _ h))
    have hdrop : e.path.drop pdev.path_len = SLASH :: s := by
      rw [hs, hlen]
      exact List.drop_left' rfl
    unfold get_character_device_symlinks
    rw [hf]
    dsimp only
    rw [hdrop, strchr_head SLASH _ slash_ne_nul]
    dsimp only
    by_cases hm : env.malloc_ok = true
    swap
    · rw [if_pos (by simpa using hm)]
    rw [if_neg (by simpa using hm), at_end_slash, if_neg Bool.false_ne_true]
    by_cases hpre : strncmp0 (SLASH :: s) "/usb".toList 4 = true
    swap
    · rw [if_neg hpre]
    rw [if_pos hpre]
    have hcount : s.count SLASH < 3 := by
      rcases hor with h | h
      · exfalso
        apply h
        rw [hrs]
        have := (strncmp0_iff (SLASH :: s) "/usb".toList 4 (by decide) rfl).mp hpre
        rw [cstr_of_nul_free (by
          intro hx
          rcases List.mem_cons.mp hx with h1 | h1
          · exact absurd h1 (by decide)
          · exact hns h1)] at this
        exact this
      · rw [hrs, List.count_cons_self] at h
        omega
    by_cases hs1 : SLASH ∈ s
    swap
    · rw [next_slash_none SLASH s hns hs1]
      rfl
    obtain ⟨s1, s2, hs12, hs1n⟩ := List.eq_append_cons_of_mem hs1
    have hn1 : NUL ∉ s1 := fun h => hns (by rw [hs12]; exact List.mem_append_left _ h)
    have hn2 : NUL ∉ s2 := fun h => hns (by
      rw [hs12]; exact List.mem_append_right _ (List.mem_cons_of_mem _ h))
    rw [hs12, List.count_append, List.count_cons_self] at hcount
    rw [hs12, next_slash_eq SLASH s1 s2 hn1 hs1n]
    simp only [at_end_slash, Bool.not_false, if_true]
    by_cases hs2 : SLASH ∈ s2
    swap
    · rw [next_slash_none SLASH s2 hn2 hs2]
      rfl
    obtain ⟨s3, s4, hs34, hs3n⟩ := List.eq_append_cons_of_mem hs2
    have hn3 : NUL ∉ s3 := fun h => hn2 (by rw [hs34]; exact List.mem_append_left _ h)
    rw [hs34, List.count_append, List.count_cons_self] at hcount
    have hs4 : SLASH ∉ s4 := List.count_eq_zero.mp (by omega)
    rw [hs34, next_slash_eq SLASH s3 s4 hn3 hs3n, at_end_slash, if_neg Bool.false_ne_true,
      List.drop_succ_cons, List.drop_zero, strchr_none s4 SLASH hs4]


/-- C30, amended, at the path `/devices/platform/ehci/usb1/1-1/1-1:1.0/dev`
with `/devices/platform/ehci` registered. -/
theorem get_character_device_symlinks_policy_witness :
    (get_character_device_symlinks env_ok event_usb_devname registry_ehci).1
      = some ["/dev/usb/usb1-1:1.0".toList] :=
  ((get_character_device_symlinks_policy env_ok event_usb_devname registry_ehci
    ⟨by decide, by decide, by decide, by decide,
      fun v hv => Option.noConfusion hv,
      fun v hv => by
        have : v = "bus/usb/001/004".toList := (Option.some.inj hv).symm
        subst this; decide,
      fun v hv => Option.noConfusion hv,
      fun v hv => Option.noConfusion hv⟩
    (by decide)).1 (platform_record "/devices/platform/ehci".toList)
    "1".toList "1-1".toList "1-1:1.0".toList "dev".toList
    (by decide) rfl rfl (by decide) (by decide) (by decide) (by decide) (by decide)).trans
    (by decide)

/-! ## The default directory and the USB class rules -/

/-- C31 fails as stated: the subsystem `drm_dp_aux_dev` is none of the names
of the table and does not begin with `usb`, `block` or `platform`, but it
begins with `drm`, which is all the handler compares: the directory
`/dev/dri/` is made and the device path is `/dev/dri/drm_dp_aux0`, not
`/dev/drm_dp_aux0`. -/
theorem default_base_misses_longer_subsystem :
    event_drm_dp_aux.subsystem ∉ generic_table_names
    ∧ event_drm_dp_aux.subsystem ≠ "misc".toList
    ∧ ¬ "usb".toList <+: event_drm_dp_aux.subsystem
    ∧ strncmp0 event_drm_dp_aux.subsystem "block".toList 5 = false
    ∧ strncmp0 event_drm_dp_aux.subsystem "platform".toList 8 = false
    ∧ handle_generic_device_event env_ok event_drm_dp_aux {}
      = syscall.make_dir "/dev/dri/".toList 0o755 ::
        generic_device_finish env_ok event_drm_dp_aux "/dev/dri/drm_dp_aux0".toList false {}
    ∧ handle_generic_device_event env_ok event_drm_dp_aux {}
      ≠ generic_device_finish env_ok event_drm_dp_aux "/dev/drm_dp_aux0".toList false {} := by
  decide

/-- C31, amended. Default base directory: for every event whose path has a
name `n` of at most 64 bytes after its last slash and whose subsystem begins
with none of the names of the table (graphics, drm, oncrpc, adsp, msm_camera,
input, mtd, sound; misc when `n` begins with `log_`) and does not begin with
`usb`, the generic handler makes no base directory and the device path it
hands on is `/dev/` followed by `n`, never cut by the 96-byte buffer. -/
theorem handle_generic_default_base (env : environment) (e : uevent) (g : globals)
    (dir n : List Char) (hp : NUL ∉ e.path) (hsub : NUL ∉ e.subsystem)
    (hq : e.path = dir ++ SLASH :: n) (hs : SLASH ∉ n) (hl : n.length ≤ 64)
    (hu : ¬ "usb".toList <+: e.subsystem)
    (ht : ∀ k ∈ generic_table_names, ¬ k <+: e.subsystem)
    (hm : ¬ ("misc".toList <+: e.subsystem ∧ "log_".toList <+: n)) :
    handle_generic_device_event env e g
      = generic_device_finish env e ("/dev/".toList ++ n) false g := by
  have hnn : NUL ∉ n := fun h =>
    hp (by rw [hq]; exact List.mem_append_right _ (List.mem_cons_of_mem _ h))
  have key : ∀ (k : List Char) (len : Nat), NUL ∉ k → k.length = len →
      ¬ k <+: e.subsystem → strncmp0 e.subsystem k len = false := by
    intro k len hk hlen hnot
    rw [← Bool.not_eq_true, strncmp0_iff e.subsystem k len hk hlen, cstr_of_nul_free hsub]
    exact hnot
  have t0 := key "usb".toList 3 (by decide) rfl hu
  have t1 := key "graphics".toList 8 (by decide) rfl (ht _ (by decide))
  have t2 := key "drm".toList 3 (by decide) rfl (ht _ (by decide))
  have t3 := key "oncrpc".toList 6 (by decide) rfl (ht _ (by decide))
  have t4 := key "adsp".toList 4 (by decide) rfl (ht _ (by decide))
  have t5 := key "msm_camera".toList 10 (by decide) rfl (ht _ (by decide))
  have t6 := key "input".toList 5 (by decide) rfl (ht _ (by decide))
  have t7 := key "mtd".toList 3 (by decide) rfl (ht _ (by decide))
  have t8 := key "sound".toList 5 (by decide) rfl (ht _ (by decide))
  have t9 : (strncmp0 e.subsystem "misc".toList 4 && strncmp0 n "log_".toList 4) = false := by
    rw [← Bool.not_eq_true, Bool.and_eq_true,
      strncmp0_iff e.subsystem "misc".toList 4 (by decide) rfl,
      strncmp0_iff n "log_".toList 4 (by decide) rfl, cstr_of_nul_free hsub,
      cstr_of_nul_free hnn]
    exact hm
  have hfit := snprintf_base_name "/dev/".toList n (by decide) hnn
    (by have : "/dev/".toList.length = 5 := by decide
        omega)
  unfold handle_generic_device_event
  rw [parse_device_name_slash e 64 dir n hp hq hs, if_neg (by omega)]
  simp only [t0, t1, t2, t3, t4, t5, t6, t7, t8, t9, Bool.false_eq_true, if_false, hfit]

/-- C31, amended, at the event of `/devices/virtual/tty/ttyS0` in the
subsystem `tty`: the device path is `/dev/ttyS0`. -/
theorem handle_generic_default_base_witness :
    handle_generic_device_event env_ok event_tty {}
      = generic_device_finish env_ok event_tty "/dev/ttyS0".toList false {} :=
  (handle_generic_default_base env_ok event_tty {} "/devices/virtual/tty".toList
    "ttyS0".toList (by decide) (by decide) (by decide) (by decide) (by decide) (by decide)
    (by decide) (by decide)).trans (by decide)

theorem handle_usb_device_class_rule_matched (env : environment) (e : uevent)
    (devpath t : List Char) (g : globals) (usbdc : usb_device_class_node)
    (ht : e.type = some t) (hmem : usbdc ∈ g.usb_device_classes)
    (hmatch : env.fnmatch usbdc.devclass t 0 = 0) :
    ∃ pre post, handle_usb_device_class_rule env e devpath g
      = pre ++ syscall.chown devpath usbdc.uid usbdc.gid
          :: syscall.chmod devpath usbdc.perm :: post := by
  obtain ⟨l1, l2, hl⟩ := List.append_of_mem hmem
  unfold handle_usb_device_class_rule
  rw [ht, hl]
  dsimp only
  rw [List.flatMap_append, List.flatMap_cons]
  have hc : ∃ rest, usb_device_class_rule_calls env e t devpath usbdc
      = syscall.chown devpath usbdc.uid usbdc.gid
          :: syscall.chmod devpath usbdc.perm :: rest := by
    unfold usb_device_class_rule_calls
    rw [if_neg (by rw [hmatch]; exact fun h => h rfl)]
    exact ⟨_, rfl⟩
  obtain ⟨rest, hrest⟩ := hc
  rw [hrest]
  exact ⟨l1.flatMap (usb_device_class_rule_calls env e t devpath),
    rest ++ l2.flatMap (usb_device_class_rule_calls env e t devpath), by simp⟩

/-- C32. USB class rules do not depend on the action: for every event whose
subsystem is exactly `usb` and whose path has a name of at most 64 bytes after
its last slash, and for every action string put in its place, the calls of the
generic handler are `make_dir` calls, then those of
`get_character_device_symlinks`, then those of `handle_device` for that action
at the device path computed, then those of `handle_usb_device_class_rule` at
that path, which are the same for every action; when `TYPE` is absent there is
no such call, and for every rule whose class `fnmatch` matches with `TYPE`
they contain `chown` of the device path with the uid and gid of the rule
followed by `chmod` with its perm. -/
theorem usb_class_rules_any_action (env : environment) (e : uevent) (g : globals)
    (dir n : List Char)
    (hp : NUL ∉ e.path) (hsub : e.subsystem = "usb".toList)
    (hq : e.path = dir ++ SLASH :: n) (hs : SLASH ∉ n) (hl : n.length ≤ 64) :
    (∃ dirs : List syscall, (∀ c ∈ dirs, syscall.is_make_dir c = true) ∧
      ∀ action : List Char,
      handle_generic_device_event env { e with action := action } g
        = dirs ++ (get_character_device_symlinks env e g).2
            ++ handle_device env action (usb_device_path e) e.path false e.major e.minor
                (get_character_device_symlinks env e g).1 g
            ++ handle_usb_device_class_rule env e (usb_device_path e) g)
    ∧ (e.type = none → handle_usb_device_class_rule env e (usb_device_path e) g = [])
    ∧ (∀ (t : List Char) (usbdc : usb_device_class_node),
        e.type = some t → usbdc ∈ g.usb_device_classes →
        env.fnmatch usbdc.devclass t 0 = 0 →
        ∃ pre post, handle_usb_device_class_rule env e (usb_device_path e) g
          = pre ++ syscall.chown (usb_device_path e) usbdc.uid usbdc.gid
              :: syscall.chmod (usb_device_path e) usbdc.perm :: post) := by
  refine ⟨?_, ?_, ?_⟩
  · have u1 : strncmp0 e.subsystem "usb".toList 3 = true := by rw [hsub]; decide
    have u2 : strcmp0 e.subsystem "usb".toList = true := by rw [hsub]; decide
    have hplan : ∀ action : List Char,
        handle_generic_device_event env { e with action := action } g
          = (match e.device_name with
              | some device_name =>
                build_directories ((snprintf 96 ("/dev/".toList ++ cstr device_name)).take 5)
                  ((snprintf 96 ("/dev/".toList ++ cstr device_name)).drop 5)
              | none =>
                [syscall.make_dir "/dev/bus".toList 0o755,
                 syscall.make_dir "/dev/bus/usb".toList 0o755,
                 syscall.make_dir
                   (snprintf 96 ("/dev/bus/usb/".toList ++ pad3 (Int.tdiv e.minor 128 + 1)))
                   0o755])
            ++ generic_device_finish env { e with action := action } (usb_device_path e)
                true g := by
      intro action
      unfold handle_generic_device_event usb_device_path
      rw [parse_device_name_slash { e with action := action } 64 dir n hp hq hs,
        if_neg (by omega)]
      dsimp only
      rw [if_pos u1, if_pos u2]
      cases e.device_name <;> rfl
    obtain ⟨dirs, hmk, hdirs⟩ : ∃ dirs : List syscall,
        (∀ c ∈ dirs, syscall.is_make_dir c = true) ∧ ∀ action : List Char,
        handle_generic_device_event env { e with action := action } g
          = dirs ++ generic_device_finish env { e with action := action } (usb_device_path e)
              true g := by
      refine ⟨_, ?_, hplan⟩
      cases e.device_name with
      | none =>
        intro c hc
        simp only [List.mem_cons, List.mem_singleton, List.not_mem_nil, or_false] at hc
        rcases hc with h | h | h <;> rw [h] <;> rfl
      | some device_name =>
        intro c hc
        dsimp only at hc
        rw [build_directories_eq, List.mem_map] at hc
        obtain ⟨i, -, hi⟩ := hc
        rw [← hi]
        rfl
    refine ⟨dirs, hmk, fun action => ?_⟩
    rw [hdirs action]
    unfold generic_device_finish
    simp only [if_true, List.append_assoc]
    rfl
  · intro ht
    unfold handle_usb_device_class_rule
    rw [ht]
  · intro t usbdc ht hmem hmatch
    exact handle_usb_device_class_rule_matched env e _ t g usbdc ht hmem hmatch


/-- C32 at a `remove` event with `TYPE=9/0/1` and minor 130, with one rule for
the class `9/0/1`. -/
theorem usb_class_rules_any_action_witness :
    (∃ dirs : List syscall, (∀ c ∈ dirs, syscall.is_make_dir c = true) ∧
      ∀ action : List Char,
      handle_generic_device_event env_exact { event_usb_remove with action := action }
          usb_class_hub
        = dirs ++ (get_character_device_symlinks env_exact event_usb_remove usb_class_hub).2
            ++ handle_device env_exact action (usb_device_path event_usb_remove)
                event_usb_remove.path false event_usb_remove.major event_usb_remove.minor
                (get_character_device_symlinks env_exact event_usb_remove usb_class_hub).1
                usb_class_hub
            ++ handle_usb_device_class_rule env_exact event_usb_remove
                (usb_device_path event_usb_remove) usb_class_hub)
    ∧ handle_usb_device_class_rule env_exact event_usb_remove
        (usb_device_path event_usb_remove) usb_class_hub
      = [syscall.chown "/dev/bus/usb/002/003".toList 1000 1001,
         syscall.chmod "/dev/bus/usb/002/003".toList 0o660] :=
  ⟨(usb_class_rules_any_action env_exact event_usb_remove usb_class_hub
      "/devices/pci0000:00".toList "usb1".toList (by decide) rfl (by decide) (by decide)
      (by decide)).1,
   by decide⟩

/-- The calls of the generic handler for that `remove` event: the node is
unlinked, and then the rule is applied to its path. -/
theorem usb_class_rule_applied_on_remove :
    handle_generic_device_event env_exact event_usb_remove usb_class_hub
      = [syscall.make_dir "/dev/bus".toList 0o755,
         syscall.make_dir "/dev/bus/usb".toList 0o755,
         syscall.make_dir "/dev/bus/usb/002".toList 0o755,
         syscall.property_set "ctl.dev_removed".toList "/dev/bus/usb/002/003".toList,
         syscall.unlink "/dev/bus/usb/002/003".toList,
         syscall.chown "/dev/bus/usb/002/003".toList 1000 1001,
         syscall.chmod "/dev/bus/usb/002/003".toList 0o660] := by
  decide

end Devices
